import Mathlib

/-!
# Sine wave generator firmware: error latch, sample table, tick scheduler, serial buffers, menu

A shallow embedding of `errors.c`, `sine.c`, `dtoa.c`, `main.c` (heartbeat),
`interrpt.c` (Timer0 compare handler, `UpdateFreqCnt`), `serial.c` (the two
ring buffers and their handlers), `lib.c` (`_itoa`, `_atoi`) and, of `menu.c`,
the memory read, the D/A write, the line buffer and the drain loop of
`RunMenu`, for the build without `SLOW_SINE`, on the 16-bit `int` of the AVR
target (F_CPU = 8 MHz).

Machine integers are natural numbers or integers with explicit wrap-around
(`% 65536` for `unsigned int`, `% 256` for `unsigned char`, `int16` for `int`).
Global and static variables become fields of a state record that every
operation takes and returns.
-/

namespace SineWave

/-! ## errors.h / errors.c -/

/-- The error kinds of `errors.h`, in declaration order (`NO_ERROR = 0`). -/
inductive eErrorType where
  | NO_ERROR
  | SLOW_TASK_OVERRUN
  | MEDIUM_TASK_OVERRUN
  | FAST_TASK_OVERRUN
  | SCI_RX_BUFFER_OVERFLOW
  | SCI_TX_BUFFER_OVERFLOW
  | SCI_RX_FRAME
  | SCI_RX_DATA_OVERRUN
  | SCI_RX_PARITY
  | SPI_WRITE_COLLISION
  | SPI_MODE_FAULT
  | SPI_PREV_TX_INCOMPLETE
  | LCD_INVALID_CHAR
  | LCD_INVALID_POS
  | UNUSED_INTERRUPT
  | INVALID_PARAMETER
  | PARAMETER_OUT_OF_RANGE
  deriving DecidableEq, Repr

open eErrorType

/-- The boolean enumeration of `lib.h`. -/
inductive eBooleanType where
  | FALSE
  | TRUE
  deriving DecidableEq, Repr

/-! ## lib.h: port bits and bit macros (8-bit registers) -/

def HEARTBEAT_LED_BIT : Nat := 0
def D2A_CS_BIT : Nat := 4
def ERROR_LED_BIT : Nat := 5

/-- The macro `CLEAR_BIT(port, bit)`: `port = port & ~(1 << bit)` on an 8-bit register. -/
def CLEAR_BIT (port bit : Nat) : Nat := port &&& (255 - (1 <<< bit))

/-- The macro `SET_BIT(port, bit)`: `port = port | (1 << bit)` on an 8-bit register. -/
def SET_BIT (port bit : Nat) : Nat := (port ||| (1 <<< bit)) % 256

/-! ## sine.h / sine.c constants -/

def SAMPLES_PER_PERIOD : Nat := 100
def SAMPLE_TABLE_SIZE : Nat := SAMPLES_PER_PERIOD / 2 + 1

def MAX_VOLTAGE : Nat := 500
def MIN_VOLTAGE : Nat := 100
def VOLTAGE_INCREMENT : Nat := 10
def MAX_FREQUENCY : Nat := 100
def MIN_FREQUENCY : Nat := 40
def FREQUENCY_INCREMENT : Nat := 5

/-- The constant table `VoltageLookup` of `sine.c` (51 entries, full scale). -/
def VoltageLookupTable : List Nat :=
  [1023, 1022, 1019, 1014, 1007,  998,  987,  974,  960,  943,
    925,  906,  884,  862,  838,  812,  786,  758,  729,  700,
    670,  639,  607,  576,  544,  512,  479,  447,  416,  384,
    353,  323,  294,  265,  237,  211,  185,  161,  139,  117,
     98,   80,   63,   49,   36,   25,   16,    9,    4,    1,  0]

/-- The read `VoltageLookup[i]`. -/
def VoltageLookup (i : Nat) : Nat := VoltageLookupTable.getD i 0

/-! ## SPI hardware seen by one D/A write -/

/-- What the SPI status register shows during one call of `WriteDtoASample`:
the WCOL flag at the check before the first byte and at the check after it.
The two busy-waits on SPIF are taken to end (the hardware completes each
byte transfer). -/
structure SpiObservation where
  wcolBefore : Bool
  wcolAfterFirst : Bool

/-! ## The state -/

/-- Every variable and register the modelled functions touch, except the two
static locals of the Timer0 handler (see `Timer0Statics`). -/
structure World where
  /-- The cell `SystemError` of `errors.c`. -/
  SystemError : eErrorType
  /-- The register PORTB (LEDs and D/A chip select). -/
  PORTB : Nat
  FreqDesired : Nat
  VoltDesired : Nat
  FreqActual : Nat
  VoltActual : Nat
  /-- The array `VoltageScaled[i][column]` of `sine.c`. -/
  VoltageScaled : Nat → Nat → Nat
  ucActiveVoltArray : Nat
  /-- The static local `ucVoltageIndex` of `UpdateSignal` (unsigned char). -/
  ucVoltageIndex : Nat
  /-- The static local `DACValue` of `UpdateSignal`. -/
  DACValue : Nat
  /-- The static local `Direction` of `UpdateSignal` (unsigned char). -/
  Direction : Nat
  /-- The compare register of Timer1 (waveform interrupt period). -/
  OCR1A : Nat
  /-- The SPI hardware: what the k-th call of `WriteDtoASample` observes. -/
  spi : Nat → SpiObservation
  /-- Every argument `WriteDtoASample` was called with, oldest first. -/
  dtoaSamples : List Nat
  /-- Every byte written to the SPI data register SPDR, oldest first. -/
  spdrBytes : List Nat
  /-- The array `zOutputChars` of `serial.c` (250 bytes). -/
  zOutputChars : Nat → Nat
  /-- The pointer `ptrOutputCharHead`, as an offset into `zOutputChars`. -/
  ptrOutputCharHead : Nat
  /-- The pointer `ptrOutputCharTail`, as an offset into `zOutputChars`. -/
  ptrOutputCharTail : Nat
  /-- The array `zInputChars` of `serial.c` (10 bytes). -/
  zInputChars : Nat → Nat
  /-- The pointer `ptrInputCharHead`, as an offset into `zInputChars`. -/
  ptrInputCharHead : Nat
  /-- The pointer `ptrInputCharTail`, as an offset into `zInputChars`. -/
  ptrInputCharTail : Nat
  /-- The USART control register UCSR0B (bit UDRIE0 arms the transmit interrupt). -/
  UCSR0B : Nat
  /-- Every byte written to the USART data register UDR0, oldest first. -/
  udr0Bytes : List Nat

/-! ## errors.c -/

/-- The function `ReportError` of `errors.c`. -/
def ReportError (iError : eErrorType) (s : World) : World :=
  if s.SystemError = NO_ERROR then
    { s with SystemError := iError, PORTB := CLEAR_BIT s.PORTB ERROR_LED_BIT }
  else s

/-- The function `ClearError` of `errors.c`. -/
def ClearError (s : World) : World :=
  { s with SystemError := NO_ERROR, PORTB := SET_BIT s.PORTB ERROR_LED_BIT }

/-- The function `GetError` of `errors.c`: the returned value and the state after. -/
def GetError (s : World) : eErrorType × World := (s.SystemError, s)

/-- The calls a client can make on the error latch. -/
inductive LatchCall where
  | report (k : eErrorType)
  | clear
  | get
  deriving DecidableEq

/-- One latch call applied to the state. -/
def LatchCall.run : LatchCall → World → World
  | .report k, s => ReportError k s
  | .clear, s => ClearError s
  | .get, s => (GetError s).2

/-- A sequence of latch calls, applied left to right. -/
def runLatchCalls (cs : List LatchCall) (s : World) : World :=
  cs.foldl (fun st c => c.run st) s

/-! ## dtoa.c -/

/-- The function `WriteDtoASample` of `dtoa.c`.  The sample is shifted left by
two in a 16-bit word, the D/A is selected, the most significant byte and then
the least significant byte are written to SPDR, and the D/A is unselected. -/
def WriteDtoASample (Value : Nat) (s : World) : World :=
  let obs := s.spi s.dtoaSamples.length
  let WholeInt := Value * 4 % 65536
  let s1 := { s with dtoaSamples := s.dtoaSamples ++ [Value],
                     PORTB := CLEAR_BIT s.PORTB D2A_CS_BIT }
  let s2 := if obs.wcolBefore then ReportError SPI_WRITE_COLLISION s1 else s1
  let s3 := { s2 with spdrBytes := s2.spdrBytes ++ [WholeInt / 256 % 256] }
  let s4 := if obs.wcolAfterFirst then ReportError SPI_WRITE_COLLISION s3 else s3
  let s5 := { s4 with spdrBytes := s4.spdrBytes ++ [WholeInt % 256] }
  { s5 with PORTB := SET_BIT s5.PORTB D2A_CS_BIT }

/-- The function `InitDtoA` of `dtoa.c` (the SPI configuration registers SPCR,
SPSR and DDRB are not part of the state): chip select high, then D/A set to 0. -/
def InitDtoA (s : World) : World :=
  WriteDtoASample 0 { s with PORTB := SET_BIT s.PORTB D2A_CS_BIT }

/-! ## sine.c -/

/-- First statement of `CalcSineValues`: the if/else on `ucActiveVoltArray`. -/
def CalcSineValues_flip (s : World) : World :=
  { s with ucActiveVoltArray := if s.ucActiveVoltArray = 0 then 1 else 0 }

/-- Body of the for loop of `CalcSineValues` at loop index i, in 16-bit
unsigned arithmetic:
`VoltageScaled[i][ucActiveVoltArray] = (VoltageLookup[i] * (NewVoltage / 10)) / 50`. -/
def CalcSineValues_entry (NewVoltage i : Nat) (s : World) : World :=
  { s with VoltageScaled := fun r c =>
      if r = i ∧ c = s.ucActiveVoltArray then
        (VoltageLookup i * (NewVoltage / 10) % 65536) / 50
      else s.VoltageScaled r c }

/-- The function `CalcSineValues` of `sine.c`. -/
def CalcSineValues (NewVoltage : Nat) (s : World) : World :=
  let s1 := CalcSineValues_flip s
  let s2 := (List.range SAMPLE_TABLE_SIZE).foldl
    (fun st i => CalcSineValues_entry NewVoltage i st) s1
  { s2 with VoltActual := NewVoltage }

/-- The function `initSine` of `sine.c`. -/
def initSine (s : World) : World :=
  InitDtoA (CalcSineValues s.VoltDesired s)

/-- The function `SetVolt` of `sine.c`: the returned value and the state after. -/
def SetVolt (Volt : Nat) (s : World) : eErrorType × World :=
  let ReturnVal :=
    if Volt < MIN_VOLTAGE ∨ Volt > MAX_VOLTAGE then PARAMETER_OUT_OF_RANGE
    else if Volt % VOLTAGE_INCREMENT ≠ 0 then INVALID_PARAMETER
    else NO_ERROR
  if ReturnVal = NO_ERROR then
    let s1 := { s with VoltDesired := Volt }
    (ReturnVal, CalcSineValues s1.VoltDesired s1)
  else (ReturnVal, s)

/-- The function `UpdateSignal` of `sine.c` (build without `SLOW_SINE`, where the
`DisplaySamples` block is empty).  `ucVoltageIndex` and `Direction` are
unsigned chars. -/
def UpdateSignal (s : World) : World :=
  let Direction :=
    if s.ucVoltageIndex = 0 then 1
    else if s.ucVoltageIndex = SAMPLE_TABLE_SIZE - 1 then 0
    else s.Direction
  let ucVoltageIndex :=
    if Direction = 1 then (s.ucVoltageIndex + 1) % 256
    else (s.ucVoltageIndex + 255) % 256
  let DACValue := s.VoltageScaled ucVoltageIndex s.ucActiveVoltArray
  WriteDtoASample DACValue
    { s with Direction := Direction, ucVoltageIndex := ucVoltageIndex, DACValue := DACValue }

/-- The cursor advance of `UpdateSignal`, on its own: the index after one call
entered with index idx and direction dir (see `UpdateSignal_index`). -/
def cursorNext (idx dir : Nat) : Nat :=
  if (if idx = 0 then 1 else if idx = SAMPLE_TABLE_SIZE - 1 then 0 else dir) = 1 then
    (idx + 1) % 256
  else (idx + 255) % 256

/-! ### CalcSineValues, one statement at a time -/

/-- Program points of `CalcSineValues`. -/
inductive CalcPC where
  /-- Before the if/else that changes `ucActiveVoltArray`. -/
  | atFlip
  /-- At the loop test with loop index i. -/
  | atEntry (i : Nat)
  /-- Before `VoltActual = NewVoltage`. -/
  | atVoltActual
  /-- Returned. -/
  | done
  deriving DecidableEq, Repr

/-- A point in an execution of `CalcSineValues`. -/
structure CalcCfg where
  pc : CalcPC
  s : World

/-- One statement of `CalcSineValues NewVoltage`: the flip, one table entry
write, the loop exit, or the write of `VoltActual`. -/
def calcStep (NewVoltage : Nat) (c : CalcCfg) : CalcCfg :=
  match c.pc with
  | .atFlip => ⟨.atEntry 0, CalcSineValues_flip c.s⟩
  | .atEntry i =>
    if i < SAMPLE_TABLE_SIZE then ⟨.atEntry (i + 1), CalcSineValues_entry NewVoltage i c.s⟩
    else ⟨.atVoltActual, c.s⟩
  | .atVoltActual => ⟨.done, { c.s with VoltActual := NewVoltage }⟩
  | .done => c

/-- The configuration after k statements of `CalcSineValues NewVoltage` from state s. -/
def calcRun (NewVoltage : Nat) (s : World) (k : Nat) : CalcCfg :=
  (calcStep NewVoltage)^[k] ⟨.atFlip, s⟩

/-- The column a waveform read selects: `VoltageScaled[i][ucActiveVoltArray]`
for i = 0..50. -/
def activeColumn (s : World) : List Nat :=
  (List.range SAMPLE_TABLE_SIZE).map (fun i => s.VoltageScaled i s.ucActiveVoltArray)

/-! ## main.c: heartbeat -/

/-- The function `heartbeat` of `main.c`: `sbi 0x03, 0` writes a 1 to bit 0 of
PINB, which toggles bit 0 (the heartbeat LED) of PORTB. -/
def heartbeat (s : World) : World :=
  { s with PORTB := s.PORTB ^^^ (1 <<< HEARTBEAT_LED_BIT) }

/-! ## interrpt.c: the Timer0 compare handler

The macros of `interrpt.c` are floating-point constant expressions cast to
`unsigned int`; times are kept here in milliseconds so that the quotients are
exact natural numbers. -/

/-- Clock rate, from the makefile (8 MHz, as the comment on TIMER0_CNT assumes). -/
def F_CPU : Nat := 8000000
def TIMER0_SCALER : Nat := 1024
/-- The macro TIMER0_TIME (0.025 s), in milliseconds. -/
def TIMER0_TIME_ms : Nat := 25
/-- The macro HEARTBEAT_TIME (0.5 s), in milliseconds. -/
def HEARTBEAT_TIME_ms : Nat := 500
/-- The macro MENU_TIME (0.1 s), in milliseconds. -/
def MENU_TIME_ms : Nat := 100
/-- The macro MAX_MEDIUM_THREAD_TIME (5 s), in milliseconds. -/
def MAX_MEDIUM_THREAD_TIME_ms : Nat := 5000

/-- The wrap limit `(unsigned int)(MAX_MEDIUM_THREAD_TIME/TIMER0_TIME)`. -/
def MAX_MEDIUM_THREAD_COUNT : Nat := MAX_MEDIUM_THREAD_TIME_ms / TIMER0_TIME_ms
/-- The heartbeat period in ticks, `(unsigned int)(HEARTBEAT_TIME/TIMER0_TIME)`. -/
def HEARTBEAT_TICKS : Nat := HEARTBEAT_TIME_ms / TIMER0_TIME_ms
/-- The menu period in ticks, `(unsigned int)(MENU_TIME/TIMER0_TIME)`. -/
def MENU_TICKS : Nat := MENU_TIME_ms / TIMER0_TIME_ms

/-- The product `TIMER0_CNT * TIMER0_SCALER`, which is `TIMER0_TIME * F_CPU`
(the scaler cancels): 200000 clock cycles per tick. -/
def TIMER0_CYCLES : Nat := TIMER0_TIME_ms * F_CPU / 1000

/-- The divisor `(unsigned int)((TIMER0_CNT * TIMER0_SCALER / FreqDesired) / 100)`
of the waveform task: the quotient is taken in floating point and truncated by
the cast, which is the floor of `TIMER0_CYCLES / (FreqDesired * 100)`. -/
def SIGNAL_TICKS (FreqDesired : Nat) : Nat :=
  TIMER0_CYCLES / (FreqDesired * SAMPLES_PER_PERIOD)

/-! ### Setting the frequency: `UpdateFreqCnt` (interrpt.c) and `SetFreq` (sine.c) -/

/-- The function `UpdateFreqCnt` of `interrpt.c`: `OCR1A = F_CPU / (FreqDesired * 100)`.
The product is a 16-bit int (it stays below 32768 for every frequency
`SetFreq` accepts) and OCR1A is a 16-bit register. -/
def UpdateFreqCnt (s : World) : World :=
  { s with OCR1A := F_CPU / (s.FreqDesired * 100 % 65536) % 65536 }

/-- The function `SetFreq` of `sine.c`: the returned value and the state after. -/
def SetFreq (Freq : Nat) (s : World) : eErrorType × World :=
  let ReturnVal :=
    if Freq < MIN_FREQUENCY ∨ Freq > MAX_FREQUENCY then PARAMETER_OUT_OF_RANGE
    else if Freq % FREQUENCY_INCREMENT ≠ 0 then INVALID_PARAMETER
    else NO_ERROR
  if ReturnVal = NO_ERROR then
    (ReturnVal, UpdateFreqCnt { s with FreqDesired := Freq })
  else (ReturnVal, s)

/-- The two static locals of the Timer0 compare handler; no other function
can name them. -/
structure Timer0Statics where
  uiMedThreadCount : Nat
  bMedThreadInProgress : eBooleanType
  deriving DecidableEq, Repr

/-- The initialisers of the static locals. -/
def initTimer0 : Timer0Statics := ⟨1, .FALSE⟩

/-- The tasks the Timer0 handler can call. -/
inductive TickTask where
  | heartbeat
  | UpdateSignal
  | RunMenu
  deriving DecidableEq, Repr

/-- The outcome of one invocation of the Timer0 handler: its statics, the rest of
the state, and the tasks it called, in call order. -/
structure Timer0Result where
  statics : Timer0Statics
  world : World
  calls : List TickTask

/-- The counter update of the handler (16-bit unsigned increment). -/
def nextMedThreadCount (uiMedThreadCount : Nat) : Nat :=
  if uiMedThreadCount ≥ MAX_MEDIUM_THREAD_COUNT then 1
  else (uiMedThreadCount + 1) % 65536

/-- The handler `ISR(TIMER0_COMPA_vect)` of `interrpt.c`.  The body of `RunMenu`
(menu.c) is a parameter: any function of the state outside the handler statics. -/
def ISR_TIMER0_COMPA_vect (RunMenu : World → World) (t : Timer0Statics) (w : World) :
    Timer0Result :=
  if t.bMedThreadInProgress = .TRUE then
    ⟨t, ReportError MEDIUM_TASK_OVERRUN w, []⟩
  else
    let uiMedThreadCount := nextMedThreadCount t.uiMedThreadCount
    let r1 : World × List TickTask :=
      if uiMedThreadCount % HEARTBEAT_TICKS = 0 then (heartbeat w, [TickTask.heartbeat])
      else (w, [])
    let r2 : World × List TickTask :=
      if uiMedThreadCount % SIGNAL_TICKS r1.1.FreqDesired = 0 then
        (UpdateSignal r1.1, r1.2 ++ [TickTask.UpdateSignal])
      else r1
    let r3 : World × List TickTask :=
      if uiMedThreadCount % MENU_TICKS = 0 then (RunMenu r2.1, r2.2 ++ [TickTask.RunMenu])
      else r2
    ⟨⟨uiMedThreadCount, .FALSE⟩, r3.1, r3.2⟩

/-- The body of a task, as a function of the state outside the handler statics. -/
def TickTask.run (RunMenu : World → World) : TickTask → World → World
  | .heartbeat => SineWave.heartbeat
  | .UpdateSignal => SineWave.UpdateSignal
  | .RunMenu => RunMenu

/-- States of the handler statics that an execution can be in: the initial
state, the state after any invocation of the handler, and the state in which
a non-overrun invocation runs its tasks (guard set, counter updated), which
is what a nested invocation finds. -/
inductive Timer0Reachable : Timer0Statics → Prop where
  | init : Timer0Reachable initTimer0
  | invoke (RunMenu : World → World) (w : World) {t : Timer0Statics} :
      Timer0Reachable t → Timer0Reachable (ISR_TIMER0_COMPA_vect RunMenu t w).statics
  | inFlight {t : Timer0Statics} :
      Timer0Reachable t → t.bMedThreadInProgress = .FALSE →
      Timer0Reachable ⟨nextMedThreadCount t.uiMedThreadCount, .TRUE⟩

/-- The handler statics after n overrun-free ticks from the initial statics.
Tick k runs on an arbitrary state `ws k` with an arbitrary menu body
`RunMenu k`, so that anything may happen between two ticks. -/
def timer0After (RunMenu : Nat → World → World) (ws : Nat → World) : Nat → Timer0Statics
  | 0 => initTimer0
  | n + 1 =>
    (ISR_TIMER0_COMPA_vect (RunMenu (n + 1)) (timer0After RunMenu ws n) (ws (n + 1))).statics

/-- The tasks called by tick n (n ≥ 1) of that run, in call order. -/
def tickCalls (RunMenu : Nat → World → World) (ws : Nat → World) (n : Nat) : List TickTask :=
  (ISR_TIMER0_COMPA_vect (RunMenu n) (timer0After RunMenu ws (n - 1)) (ws n)).calls

/-! ## serial.h / serial.c

The four buffer pointers are kept as offsets from the start of their array
(`Addr = 0` in the pointer macro).  Characters are bytes, kept as natural
numbers; the functions only copy and compare them. -/

def MAX_OUT_STR_SIZE : Nat := 250
def MAX_IN_STR_SIZE : Nat := 10

/-- Bit UDRIE0 of UCSR0B. -/
def UDRIE0 : Nat := 5
/-- Bit RXCIE0 of UCSR0B. -/
def RXCIE0 : Nat := 7
/-- Bit RXEN0 of UCSR0B. -/
def RXEN0 : Nat := 4
/-- Bit TXEN0 of UCSR0B. -/
def TXEN0 : Nat := 3
/-- Bit FE0 of UCSR0A (frame error). -/
def FE0 : Nat := 4
/-- Bit DOR0 of UCSR0A (data overrun). -/
def DOR0 : Nat := 3
/-- Bit UPE0 of UCSR0A (parity error). -/
def UPE0 : Nat := 2

/-- The macro `INC_CIRC_BUFFER_PTR(ptr, Addr, Length)`:
`(ptr >= Addr + Length - 1) ? Addr : ptr+1`. -/
def INC_CIRC_BUFFER_PTR (ptr Addr Length : Nat) : Nat :=
  if ptr ≥ Addr + Length - 1 then Addr else ptr + 1

/-- The two statements `*ptrOutputCharHead = c;` and
`ptrOutputCharHead = INC_CIRC_BUFFER_PTR(ptrOutputCharHead, zOutputChars, MAX_OUT_STR_SIZE);`
of the copy loops. -/
def SCIWriteString_put (c : Nat) (s : World) : World :=
  { s with
    zOutputChars := fun i => if i = s.ptrOutputCharHead then c else s.zOutputChars i
    ptrOutputCharHead := INC_CIRC_BUFFER_PTR s.ptrOutputCharHead 0 MAX_OUT_STR_SIZE }

/-- The while loop of `SCIWriteString` on the characters from `Str` on (the
memory after the listed characters holds the terminating NUL): the state
after the loop and the flag `bCopyComplete`. -/
def SCIWriteString_loop : List Nat → World → World × eBooleanType
  | Str, s =>
    if INC_CIRC_BUFFER_PTR s.ptrOutputCharHead 0 MAX_OUT_STR_SIZE ≠ s.ptrOutputCharTail then
      match Str with
      | [] => (s, .TRUE)
      | c :: rest =>
        if c ≠ 0 then SCIWriteString_loop rest (SCIWriteString_put c s)
        else (s, .TRUE)
    else (s, .FALSE)

/-- The function `SCIWriteString` of `serial.c`: the returned int and the state after. -/
def SCIWriteString (Str : List Nat) (s : World) : Int × World :=
  let r := SCIWriteString_loop Str s
  let s1 := { r.1 with UCSR0B := SET_BIT r.1.UCSR0B UDRIE0 }
  if r.2 = .FALSE then (-1, ReportError SCI_TX_BUFFER_OVERFLOW s1)
  else (0, s1)

/-- The while loop of `SCIWriteString_P` on the characters from `Str_P` on, read
from program space with `pgm_read_byte` (the byte after the listed characters
is the terminating NUL): the state after the loop and the flag
`bCopyComplete`. -/
def SCIWriteString_P_loop : List Nat → World → World × eBooleanType
  | Str_P, s =>
    if INC_CIRC_BUFFER_PTR s.ptrOutputCharHead 0 MAX_OUT_STR_SIZE ≠ s.ptrOutputCharTail then
      match Str_P with
      | [] => (s, .TRUE)
      | Char_P :: rest =>
        if Char_P ≠ 0 then SCIWriteString_P_loop rest (SCIWriteString_put Char_P s)
        else (s, .TRUE)
    else (s, .FALSE)

/-- The function `SCIWriteString_P` of `serial.c`: the returned int and the state after. -/
def SCIWriteString_P (Str_P : List Nat) (s : World) : Int × World :=
  let r := SCIWriteString_P_loop Str_P s
  let s1 := { r.1 with UCSR0B := SET_BIT r.1.UCSR0B UDRIE0 }
  if r.2 = .FALSE then (-1, ReportError SCI_TX_BUFFER_OVERFLOW s1)
  else (0, s1)

/-- The handler `ISR(USART0_UDRE_vect)` of `serial.c` (the `sei()` is not
modelled: the handler runs to its end). -/
def ISR_USART0_UDRE_vect (s : World) : World :=
  let s1 := { s with UCSR0B := CLEAR_BIT s.UCSR0B UDRIE0 }
  let TxData := s1.zOutputChars s1.ptrOutputCharTail
  let s2 := { s1 with
    ptrOutputCharTail := INC_CIRC_BUFFER_PTR s1.ptrOutputCharTail 0 MAX_OUT_STR_SIZE }
  let s3 := { s2 with udr0Bytes := s2.udr0Bytes ++ [TxData] }
  if s3.ptrOutputCharTail ≠ s3.ptrOutputCharHead then
    { s3 with UCSR0B := SET_BIT s3.UCSR0B UDRIE0 }
  else s3

/-- The three status checks at the end of `ISR(USART0_RX_vect)`. -/
def USART0_RX_statusErrors (status : Nat) (s : World) : World :=
  let s1 := if status &&& (1 <<< FE0) ≠ 0 then ReportError SCI_RX_FRAME s else s
  let s2 := if status &&& (1 <<< DOR0) ≠ 0 then ReportError SCI_RX_DATA_OVERRUN s1 else s1
  if status &&& (1 <<< UPE0) ≠ 0 then ReportError SCI_RX_PARITY s2 else s2

/-- The handler `ISR(USART0_RX_vect)` of `serial.c`, entered when the hardware
shows status `UCSR0A` and received byte `UDR0`. -/
def ISR_USART0_RX_vect (UCSR0A UDR0 : Nat) (s : World) : World :=
  let status := UCSR0A % 256
  let s1 := { s with
    zInputChars := fun i => if i = s.ptrInputCharHead then UDR0 else s.zInputChars i }
  let ptrPrev := s1.ptrInputCharHead
  let s2 := { s1 with
    ptrInputCharHead := INC_CIRC_BUFFER_PTR s1.ptrInputCharHead 0 MAX_IN_STR_SIZE }
  let s3 :=
    if s2.ptrInputCharHead = s2.ptrInputCharTail then
      ReportError SCI_RX_BUFFER_OVERFLOW { s2 with ptrInputCharHead := ptrPrev }
    else s2
  USART0_RX_statusErrors status s3

/-- The function `SCIReadChar` of `serial.c`: the returned char and the state after. -/
def SCIReadChar (s : World) : Nat × World :=
  if s.ptrInputCharHead ≠ s.ptrInputCharTail then
    (s.zInputChars s.ptrInputCharTail,
      { s with ptrInputCharTail :=
          INC_CIRC_BUFFER_PTR s.ptrInputCharTail 0 MAX_IN_STR_SIZE })
  else (0, s)

/-! ### What a ring buffer holds -/

/-- The bytes a ring buffer of the given length holds, oldest first: the slots
from the tail up to, not including, the head. -/
def ringQueued (buf : Nat → Nat) (head tail Length : Nat) : List Nat :=
  (List.range ((head + Length - tail) % Length)).map (fun k => buf ((tail + k) % Length))

/-- The bytes waiting in the transmit buffer, oldest first. -/
def txQueued (s : World) : List Nat :=
  ringQueued s.zOutputChars s.ptrOutputCharHead s.ptrOutputCharTail MAX_OUT_STR_SIZE

/-- The bytes waiting in the receive buffer, oldest first. -/
def rxQueued (s : World) : List Nat :=
  ringQueued s.zInputChars s.ptrInputCharHead s.ptrInputCharTail MAX_IN_STR_SIZE

/-- The handler `ISR(USART0_RX_vect)` run once per received byte, in order;
each item is the status `UCSR0A` and the byte `UDR0` of one reception. -/
def receiveAll (rx : List (Nat × Nat)) (s : World) : World :=
  rx.foldl (fun st r => ISR_USART0_RX_vect r.1 r.2 st) s

/-- The function `SCIReadChar` called k times: the returned chars, in call
order, and the state after. -/
def readChars : Nat → World → List Nat × World
  | 0, s => ([], s)
  | k + 1, s =>
    let r := SCIReadChar s
    let rest := readChars k r.2
    (r.1 :: rest.1, rest.2)

/-- One event at the receive buffer: a byte arrives (with its status), or the
foreground calls `SCIReadChar`. -/
inductive RxEvent where
  | receive (UCSR0A UDR0 : Nat)
  | read
  deriving DecidableEq, Repr

/-- A record of a run of receive-buffer events: the state, the bytes that
were accepted into the buffer (a byte is accepted when the buffer is not
full on its arrival), and the chars returned by the reads that found the
buffer non-empty, both oldest first. -/
structure RxTrace where
  s : World
  accepted : List Nat
  returned : List Nat

/-- One receive-buffer event applied to a trace. -/
def RxEvent.step (tr : RxTrace) : RxEvent → RxTrace
  | .receive status data =>
    { s := ISR_USART0_RX_vect status data tr.s
      accepted :=
        if INC_CIRC_BUFFER_PTR tr.s.ptrInputCharHead 0 MAX_IN_STR_SIZE = tr.s.ptrInputCharTail
        then tr.accepted else tr.accepted ++ [data]
      returned := tr.returned }
  | .read =>
    { s := (SCIReadChar tr.s).2
      accepted := tr.accepted
      returned :=
        if tr.s.ptrInputCharHead ≠ tr.s.ptrInputCharTail
        then tr.returned ++ [(SCIReadChar tr.s).1] else tr.returned }

/-- A sequence of receive-buffer events, applied left to right. -/
def runRxEvents (es : List RxEvent) (tr : RxTrace) : RxTrace :=
  es.foldl RxEvent.step tr

/-- The power-on state of the variables (C initialisers; `main` sets PORTB = 0xFF;
the four buffer pointers stand at the start of their arrays, where
`SCIInitialize` puts them). -/
def initWorld : World where
  SystemError := NO_ERROR
  PORTB := 255
  FreqDesired := 40
  VoltDesired := 100
  FreqActual := 0
  VoltActual := 0
  VoltageScaled := fun _ _ => 0
  ucActiveVoltArray := 0
  ucVoltageIndex := 0
  DACValue := 0
  Direction := 1
  OCR1A := 0
  spi := fun _ => ⟨false, false⟩
  dtoaSamples := []
  spdrBytes := []
  zOutputChars := fun _ => 0
  ptrOutputCharHead := 0
  ptrOutputCharTail := 0
  zInputChars := fun _ => 0
  ptrInputCharHead := 0
  ptrInputCharTail := 0
  UCSR0B := 0
  udr0Bytes := []

/-- The power-on state with a receive framing error already latched. -/
def framingErrorWorld : World := { initWorld with SystemError := SCI_RX_FRAME }

/-- The five characters c, m, d, >, space of the prompt string of `serial.c`. -/
def promptString : List Nat := [99, 109, 100, 62, 32]

/-- The characters of the greeting of `SCIInitialize`,
Welcome to Embedded Systems Programming, followed by newline and return. -/
def welcomeString : List Nat :=
  [87, 101, 108, 99, 111, 109, 101, 32, 116, 111, 32, 69, 109, 98, 101, 100, 100, 101, 100,
  32, 83, 121, 115, 116, 101, 109, 115, 32, 80, 114, 111, 103, 114, 97, 109, 109, 105, 110,
  103, 10, 13]

/-- The function `SCIInitialize` of `serial.c` (the baud rate and frame format
registers UBRR0, UCSR0C and UCSR0A are not part of the state). -/
def SCIInitialize (s : World) : World :=
  let s1 := { s with
    UCSR0B := (1 <<< RXCIE0) ||| (1 <<< RXEN0) ||| (1 <<< TXEN0)
    ptrInputCharHead := 0
    ptrInputCharTail := 0
    ptrOutputCharHead := 0
    ptrOutputCharTail := 0 }
  let s2 := (SCIWriteString_P welcomeString s1).2
  (SCIWriteString_P promptString s2).2

/-- States reachable from `SCIInitialize` (run on any state) by calls of
`SCIWriteString`, `SCIWriteString_P` and `SCIReadChar` and invocations of
the two USART0 handlers, in any order and with any arguments. -/
inductive SerialReachable : World → Prop where
  | init (s : World) : SerialReachable (SCIInitialize s)
  | writeString (Str : List Nat) {s : World} :
      SerialReachable s → SerialReachable (SCIWriteString Str s).2
  | writeString_P (Str_P : List Nat) {s : World} :
      SerialReachable s → SerialReachable (SCIWriteString_P Str_P s).2
  | readChar {s : World} : SerialReachable s → SerialReachable (SCIReadChar s).2
  | receive (UCSR0A UDR0 : Nat) {s : World} :
      SerialReachable s → SerialReachable (ISR_USART0_RX_vect UCSR0A UDR0 s)
  | transmit {s : World} : SerialReachable s → SerialReachable (ISR_USART0_UDRE_vect s)

/-- States reachable from the state s0 by calls of `UpdateSignal`,
`CalcSineValues`, `SetFreq` and `SetVolt`, in any order and with any
arguments. -/
inductive SineReachable (s0 : World) : World → Prop where
  | init : SineReachable s0 s0
  | updateSignal {s : World} : SineReachable s0 s → SineReachable s0 (UpdateSignal s)
  | calcSineValues (NewVoltage : Nat) {s : World} :
      SineReachable s0 s → SineReachable s0 (CalcSineValues NewVoltage s)
  | setFreq (Freq : Nat) {s : World} : SineReachable s0 s → SineReachable s0 (SetFreq Freq s).2
  | setVolt (Volt : Nat) {s : World} : SineReachable s0 s → SineReachable s0 (SetVolt Volt s).2

/-! ## menu.c: the memory read of `RunMenu` (state MEMORY_GET_LENGTH, READ_MEMORY)

`Address` and `Length` are 16-bit unsigned static locals of `RunMenu`. -/

def MAX_MEM_SIZE : Nat := 0x40
def MAX_MEM_ADDR : Nat := 0x4FF
def MIN_MEM_ADDR : Nat := 0x100

/-- The three ifs on `Length` before the read loop, in 16-bit unsigned arithmetic:
`if ((Address + Length - 1) > MAX_MEM_ADDR) Length = MAX_MEM_ADDR - Address + 1;`
`if (Length == 0) Length = 1;` `if (Length > MAX_MEM_SIZE) Length = MAX_MEM_SIZE;`. -/
def readMemory_limit (Address Length : Nat) : Nat :=
  let Length1 :=
    if (Address + Length + 65535) % 65536 > MAX_MEM_ADDR
    then (MAX_MEM_ADDR + 65536 - Address + 1) % 65536 else Length
  let Length2 := if Length1 = 0 then 1 else Length1
  if Length2 > MAX_MEM_SIZE then MAX_MEM_SIZE else Length2

/-- The variable `Address` and the addresses dereferenced so far, oldest first. -/
structure MemRead where
  Address : Nat
  reads : List Nat

/-- The two statements `*ptrOutputStr = *(unsigned char *)Address;` and
`++Address;` of one pass of the read loop. -/
def readMemory_pass (m : MemRead) : MemRead :=
  { Address := (m.Address + 1) % 65536, reads := m.reads ++ [m.Address] }

/-- The read loop `for (i = 0; i < Length; ++i)`: the passes in a row. -/
def readMemory_loop (Length : Nat) (m : MemRead) : MemRead :=
  (List.range Length).foldl (fun st _ => readMemory_pass st) m

/-- The addresses the memory read dereferences, for the stored `Address` and
the parsed `Length`: the limit on `Length`, then the loop. -/
def readMemory (Address Length : Nat) : List Nat :=
  (readMemory_loop (readMemory_limit Address Length) ⟨Address, []⟩).reads

/-! ### Events at the transmit buffer -/

/-- One event at the transmit buffer: a call of one of the two writers, or
the data-register-empty interrupt. -/
inductive TxEvent where
  | writeString (Str : List Nat)
  | writeString_P (Str_P : List Nat)
  | transmit
  deriving DecidableEq, Repr

/-- A record of a run of transmit-buffer events: the state and the bytes the
writers copied into the buffer, oldest first. -/
structure TxTrace where
  s : World
  accepted : List Nat

/-- One transmit-buffer event applied to a trace.  A writer call adds to the
record the bytes it appended to the queue.  The hardware raises the
data-register-empty interrupt only while UDRIE0 is set; otherwise nothing
happens. -/
def TxEvent.step (tr : TxTrace) : TxEvent → TxTrace
  | .writeString Str =>
    { s := (SCIWriteString Str tr.s).2
      accepted := tr.accepted ++
        (txQueued (SCIWriteString Str tr.s).2).drop (txQueued tr.s).length }
  | .writeString_P Str_P =>
    { s := (SCIWriteString_P Str_P tr.s).2
      accepted := tr.accepted ++
        (txQueued (SCIWriteString_P Str_P tr.s).2).drop (txQueued tr.s).length }
  | .transmit =>
    if tr.s.UCSR0B.testBit UDRIE0 then { tr with s := ISR_USART0_UDRE_vect tr.s } else tr

/-- A sequence of transmit-buffer events, applied left to right. -/
def runTxEvents (es : List TxEvent) (tr : TxTrace) : TxTrace :=
  es.foldl TxEvent.step tr

/-- The trace right after `SCIInitialize` on the state s0: the greeting and the
prompt are the bytes copied so far. -/
def initTxTrace (s0 : World) : TxTrace :=
  { s := SCIInitialize s0, accepted := welcomeString ++ promptString }

/-- Whether a writer call passes the empty string (first byte NUL). -/
def TxEvent.emptyString : TxEvent → Bool
  | .writeString Str => Str.headD 0 == 0
  | .writeString_P Str_P => Str_P.headD 0 == 0
  | .transmit => false

/-- What holds of a transmit trace whose run started with the bytes u already
sent: the pointers are inside the array, the interrupt is armed only on a
non-empty buffer, and the bytes copied are the bytes sent since, followed
by the bytes still queued. -/
def TxInv (u : List Nat) (tr : TxTrace) : Prop :=
  tr.s.ptrOutputCharHead < 250 ∧ tr.s.ptrOutputCharTail < 250 ∧
  (tr.s.UCSR0B.testBit UDRIE0 = true → tr.s.ptrOutputCharTail ≠ tr.s.ptrOutputCharHead) ∧
  ∃ sent, tr.s.udr0Bytes = u ++ sent ∧ tr.accepted = sent ++ txQueued tr.s

/-! ## lib.c: `_itoa` and `_atoi`

`int` is the 16-bit signed integer of the AVR target.  A `char` is kept as its
byte value; the conversions only ever see the ASCII characters of digits and
the minus sign. -/

def STRLEN : Nat := 20

/-- The value a 16-bit `int` holds for the arithmetic result x (two's complement
wrap-around). -/
def int16 (x : Int) : Int := (x + 32768) % 65536 - 32768

/-- The if/else in the digit loop of `_itoa`, on the array `rev` kept as the
list of the characters from the pointer `s` on (the NUL at `rev[STRLEN]` not
included): `*--s = rem + '0'` for rem < 10, `*--s = "abcdef"[rem - 10]` for
rem ≥ 10 with base 16, and nothing otherwise. -/
def _itoa_digit (rem base : Int) (rev : List Nat) : List Nat :=
  if rem < 10 then ((rem + 48) % 256).toNat :: rev
  else if base = 16 then [97, 98, 99, 100, 101, 102].getD (rem - 10).toNat 0 :: rev
  else rev

/-- The loop `while (i) { rem = i % base; ...; i /= base; }` of `_itoa`, with C
division (truncation towards zero).  A 16-bit value reaches 0 within 16
divisions by any base of magnitude 2 or more; `none` means that the loop
has not ended by then, that is, never ends.  (Division by a base of 0 is
undefined in C; `Int.tdiv` and `Int.tmod` give 0 and i there.  The callers
pass 10 or 16.) -/
def _itoa_loop : Nat → Int → Int → List Nat → Option (List Nat)
  | 0, i, _, rev => if i ≠ 0 then none else some rev
  | fuel + 1, i, base, rev =>
    if i ≠ 0 then
      _itoa_loop fuel (Int.tdiv i base) base (_itoa_digit (Int.tmod i base) base rev)
    else some rev

/-- The function `_itoa` of `lib.c`: the bytes it writes into the caller's
buffer, the first one at the start of the buffer (the position `*buf` had on
entry), the terminating NUL included. -/
def _itoa (i base : Int) : Option (List Nat) :=
  if i = 0 then some [48, 0]
  else
    let sign : List Nat := if i < 0 then [45] else []
    let i1 := if i < 0 then int16 (-i) else i
    match _itoa_loop 16 i1 base [] with
    | some rev => some (sign ++ rev.takeWhile (fun c => decide (c ≠ 0)) ++ [0])
    | none => none

/-- The C string at the start of the bytes buf: the bytes before the first NUL. -/
def cString (buf : List Nat) : List Nat := buf.takeWhile (fun c => decide (c ≠ 0))

/-- The function `strlen`. -/
def strlen (buf : List Nat) : Nat := (cString buf).length

/-- The first loop of `_atoi`, run n times: `power *= 10` for base 10 and
`power *= 16` for base 16. -/
def _atoi_power (base : Int) : Nat → Int → Int
  | 0, power => power
  | n + 1, power =>
    let p1 := if base = 10 then int16 (power * 10) else power
    let p2 := if base = 16 then int16 (p1 * 16) else p1
    _atoi_power base n p2

/-- The term one character adds to `StrVal` in the second loop of `_atoi`.  (For
a byte of 128 or more the C value depends on the signedness of `char`; the
byte value is used here.  Digits, letters and the minus sign are below 128.) -/
def _atoi_term (c : Nat) (power : Int) : Int :=
  if 97 ≤ c ∧ c ≤ 102 then int16 ((((c : Int) - 97) + 10) * power)
  else if 65 ≤ c ∧ c ≤ 70 then int16 ((((c : Int) - 65) + 10) * power)
  else int16 (((c : Int) - 48) * power)

/-- The second loop of `_atoi`, run n times on the bytes from buf on:
`StrVal += term; ++buf; power /= base;` (C division; for a base of 0, which
no caller passes, `Int.tdiv` gives 0). -/
def _atoi_loop (base : Int) : Nat → List Nat → Int → Int → Int
  | 0, _, _, StrVal => StrVal
  | n + 1, buf, power, StrVal =>
    _atoi_loop base n buf.tail (Int.tdiv power base)
      (int16 (StrVal + _atoi_term (buf.headD 0) power))

/-- The function `_atoi` of `lib.c` on the bytes from buf on. -/
def _atoi (buf : List Nat) (base : Int) : Int :=
  let StrLength0 : Int := strlen buf
  let negNum := decide (buf.headD 0 = 45)
  let buf1 := if negNum then buf.tail else buf
  let StrLength := if negNum then StrLength0 - 1 else StrLength0
  let power := _atoi_power base (StrLength - 1).toNat 1
  let StrVal := _atoi_loop base StrLength.toNat buf1 power 0
  if negNum then int16 (-StrVal) else StrVal

/-- The character `_itoa` writes for the digit d of a base up to 16. -/
def digitChar (d : Nat) : Nat := if d < 10 then d + 48 else d + 87

/-! ## menu.c: the D/A write of `RunMenu` and the calls of the command switch -/

/-- The case WRITE_D2A of the switch in `RunMenu`, on the bytes of `zInputStr`:
`if (zInputStr[0] != 0) { Voltage = _atoi(zInputStr, 10);`
`if ((Voltage >= 0) && (Voltage <= 1023)) WriteDtoASample(Voltage); }`.
`Voltage` is a 16-bit unsigned int, so the int that `_atoi` returns is
converted modulo 65536. -/
def RunMenu_WRITE_D2A (zInputStr : List Nat) (s : World) : World :=
  if zInputStr.headD 0 ≠ 0 then
    let Voltage := (_atoi zInputStr 10 % 65536).toNat
    if Voltage ≥ 0 ∧ Voltage ≤ 1023 then WriteDtoASample Voltage s else s
  else s

/-- The calls `RunMenu` makes on the modelled state: the serial functions, the
error latch, the two parameter setters and the guarded D/A write.  (The
temperature read touches none of the modelled variables.) -/
inductive MenuCall where
  | readChar
  | writeString (Str : List Nat)
  | writeString_P (Str_P : List Nat)
  | getError
  | clearError
  | setFreq (Freq : Nat)
  | setVolt (Volt : Nat)
  | writeD2A (zInputStr : List Nat)
  deriving DecidableEq, Repr

/-- One call of the menu applied to the state. -/
def MenuCall.run : MenuCall → World → World
  | .readChar, s => (SCIReadChar s).2
  | .writeString Str, s => (SCIWriteString Str s).2
  | .writeString_P Str_P, s => (SCIWriteString_P Str_P s).2
  | .getError, s => (GetError s).2
  | .clearError, s => ClearError s
  | .setFreq Freq, s => (SetFreq Freq s).2
  | .setVolt Volt, s => (SetVolt Volt s).2
  | .writeD2A zInputStr, s => RunMenu_WRITE_D2A zInputStr s

/-- A sequence of menu calls, applied left to right: what one run of `RunMenu`
does to the modelled state. -/
def runMenuCalls (cs : List MenuCall) (s : World) : World :=
  cs.foldl (fun st c => c.run st) s

/-- States the firmware can be in: the power-on state, and the state after any
initialisation function of `main` (`ISR_InitTimer1` makes the assignment of
`UpdateFreqCnt`), after a call of `SetFreq` or `SetVolt`, or after any
interrupt handler: Timer0 (with any handler statics, the menu making any
sequence of its calls), Timer1 (`UpdateSignal`), the two USART0 handlers,
and the default handler. -/
inductive FirmwareReachable : World → Prop where
  | init : FirmwareReachable initWorld
  | initTimer1 {s : World} : FirmwareReachable s → FirmwareReachable (UpdateFreqCnt s)
  | sciInitialize {s : World} : FirmwareReachable s → FirmwareReachable (SCIInitialize s)
  | initDtoA {s : World} : FirmwareReachable s → FirmwareReachable (InitDtoA s)
  | initSine {s : World} : FirmwareReachable s → FirmwareReachable (initSine s)
  | setFreq (Freq : Nat) {s : World} :
      FirmwareReachable s → FirmwareReachable (SetFreq Freq s).2
  | setVolt (Volt : Nat) {s : World} :
      FirmwareReachable s → FirmwareReachable (SetVolt Volt s).2
  | timer0 (cs : List MenuCall) (t : Timer0Statics) {s : World} :
      FirmwareReachable s →
      FirmwareReachable (ISR_TIMER0_COMPA_vect (runMenuCalls cs) t s).world
  | timer1 {s : World} : FirmwareReachable s → FirmwareReachable (UpdateSignal s)
  | usartRx (UCSR0A UDR0 : Nat) {s : World} :
      FirmwareReachable s → FirmwareReachable (ISR_USART0_RX_vect UCSR0A UDR0 s)
  | usartUdre {s : World} : FirmwareReachable s → FirmwareReachable (ISR_USART0_UDRE_vect s)
  | unusedInterrupt {s : World} :
      FirmwareReachable s → FirmwareReachable (ReportError UNUSED_INTERRUPT s)

/-- Two states agree on the desired parameters, the sample table and the
record of D/A writes. -/
def SameSine (a b : World) : Prop :=
  a.FreqDesired = b.FreqDesired ∧ a.VoltDesired = b.VoltDesired ∧
  a.VoltageScaled = b.VoltageScaled ∧ a.dtoaSamples = b.dtoaSamples

/-- The desired parameters are valid, every table entry fits in ten bits, and
so does every sample written to the D/A so far. -/
def DacInv (s : World) : Prop :=
  40 ≤ s.FreqDesired ∧ s.FreqDesired ≤ 100 ∧ s.FreqDesired % 5 = 0 ∧
  100 ≤ s.VoltDesired ∧ s.VoltDesired ≤ 500 ∧ s.VoltDesired % 10 = 0 ∧
  (∀ r c, s.VoltageScaled r c ≤ 1023) ∧ (∀ v ∈ s.dtoaSamples, v ≤ 1023)

/-! ## menu.c: the line buffer of `RunMenu` and its drain loop -/

/-- The static variables `zInputStr` and `ptrInputStr` of `menu.c`, with a
record of what happens to the buffer. -/
structure MenuLine where
  /-- The array `zInputStr` (MAX_IN_STR_SIZE = 10 bytes). -/
  zInputStr : Nat → Nat
  /-- The pointer `ptrInputStr`, as an offset into `zInputStr`. -/
  ptrInputStr : Nat
  /-- The index of every write into `zInputStr`, oldest first. -/
  writes : List Nat
  /-- The C string at `zInputStr` at every entry to the command switch (the
  lines processed), oldest first. -/
  lines : List (List Nat)

/-- The initialisers: the array is zeroed and `ptrInputStr = zInputStr`. -/
def initMenuLine : MenuLine := ⟨fun _ => 0, 0, [], []⟩

/-- The C string that starts at `zInputStr[0]`, read inside the array. -/
def zInputStr_string (zInputStr : Nat → Nat) : List Nat :=
  cString ((List.range MAX_IN_STR_SIZE).map zInputStr)

/-- The body of the while loop of `RunMenu` for the character `cTempChar`, as far
as the line buffer goes.  For `'\r'`: `*ptrInputStr = '\0'; ptrInputStr = zInputStr;`,
then the command switch reads the line, and `ptrInputStr = zInputStr` again.
Otherwise: `if (ptrInputStr < &zInputStr[MAX_IN_STR_SIZE-2])`
`{ *ptrInputStr = cTempChar; *(ptrInputStr+1) = '\0'; ...; ++ptrInputStr; }`. -/
def RunMenu_line (cTempChar : Nat) (m : MenuLine) : MenuLine :=
  if cTempChar = 13 then
    { zInputStr := fun i => if i = m.ptrInputStr then 0 else m.zInputStr i
      ptrInputStr := 0
      writes := m.writes ++ [m.ptrInputStr]
      lines := m.lines ++
        [zInputStr_string (fun i => if i = m.ptrInputStr then 0 else m.zInputStr i)] }
  else if m.ptrInputStr < MAX_IN_STR_SIZE - 2 then
    { zInputStr := fun i =>
        if i = m.ptrInputStr + 1 then 0
        else if i = m.ptrInputStr then cTempChar else m.zInputStr i
      ptrInputStr := m.ptrInputStr + 1
      writes := m.writes ++ [m.ptrInputStr, m.ptrInputStr + 1]
      lines := m.lines }
  else m

/-- The same loop body, as far as the other variables go.  For `'\r'`: newline
and return are written, then `process` stands for the command switch and the
prompt (lines 83 to 421 of `menu.c`, which name neither `zInputStr` for
writing nor `ptrInputStr`), run on the line.  Otherwise the character is
echoed with `SCIWriteString(ptrInputStr)` when there is room. -/
def RunMenu_serial (process : List Nat → World → World) (cTempChar : Nat) (m : MenuLine)
    (s : World) : World :=
  if cTempChar = 13 then
    process (zInputStr_string (fun i => if i = m.ptrInputStr then 0 else m.zInputStr i))
      (SCIWriteString_P [10, 13] s).2
  else if m.ptrInputStr < MAX_IN_STR_SIZE - 2 then (SCIWriteString [cTempChar] s).2
  else s

/-- The loop `while ((cTempChar = SCIReadChar()) != 0) { ... }` of `RunMenu`,
at most fuel reads long; `none` means that the loop has not ended by then. -/
def RunMenu_drain (process : List Nat → World → World) :
    Nat → MenuLine × World → Option (MenuLine × World)
  | 0, _ => none
  | fuel + 1, x =>
    if (SCIReadChar x.2).1 ≠ 0 then
      RunMenu_drain process fuel
        (RunMenu_line (SCIReadChar x.2).1 x.1,
          RunMenu_serial process (SCIReadChar x.2).1 x.1 (SCIReadChar x.2).2)
    else some (x.1, (SCIReadChar x.2).2)

/-- The line buffer after the loop body has run on the characters cs, in order. -/
def runMenuLine (cs : List Nat) (m : MenuLine) : MenuLine :=
  cs.foldl (fun st c => RunMenu_line c st) m

/-! # Theorems -/

/-- C1: the error latch is a first-write-wins cell.  For every state and kind k,
ReportError k stores k when the latch is NO_ERROR and leaves it unchanged
otherwise; ClearError makes it NO_ERROR; GetError returns the stored value and
changes nothing.  From a non-empty latch, every sequence of calls without a
ClearError keeps the stored value, and ClearError returns it to empty. -/
theorem C1_error_latch_first_write_wins :
    (∀ (s : World) (k : eErrorType),
        (ReportError k s).SystemError = if s.SystemError = NO_ERROR then k else s.SystemError) ∧
    (∀ s : World, (ClearError s).SystemError = NO_ERROR) ∧
    (∀ s : World, GetError s = (s.SystemError, s)) ∧
    (∀ (s : World) (cs : List LatchCall), s.SystemError ≠ NO_ERROR →
        (∀ c ∈ cs, c ≠ LatchCall.clear) →
        (runLatchCalls cs s).SystemError = s.SystemError) ∧
    (∀ (s : World) (c : LatchCall), s.SystemError ≠ NO_ERROR →
        ((c.run s).SystemError = NO_ERROR ↔ c = LatchCall.clear)) := by
  refine ⟨?_, ?_, ?_, ?_, ?_⟩
  · intro s k
    unfold ReportError
    split <;> simp_all
  · intro s; rfl
  · intro s; rfl
  · intro s cs
    induction cs generalizing s with
    | nil => intro _ _; rfl
    | cons c cs ih =>
      intro hs hc
      have hc1 : c ≠ LatchCall.clear := hc c (List.mem_cons_self _ _)
      have hstep : (c.run s).SystemError = s.SystemError := by
        cases c with
        | report k => simp [LatchCall.run, ReportError, hs]
        | clear => exact absurd rfl hc1
        | get => rfl
      have := ih (c.run s) (by rw [hstep]; exact hs)
        (fun c2 h2 => hc c2 (List.mem_cons_of_mem _ h2))
      simp only [runLatchCalls, List.foldl_cons] at this ⊢
      rw [this, hstep]
  · intro s c hs
    cases c with
    | report k => simp [LatchCall.run, ReportError, hs]
    | clear => simp [LatchCall.run, ClearError]
    | get => simp [LatchCall.run, GetError, hs]


/-- C1 from a latched framing error: an overrun report, a read and a collision
report leave SCI_RX_FRAME in the latch. -/
theorem C1_error_latch_first_write_wins_witness :
    (runLatchCalls [LatchCall.report MEDIUM_TASK_OVERRUN, LatchCall.get,
        LatchCall.report SPI_WRITE_COLLISION] framingErrorWorld).SystemError = SCI_RX_FRAME :=
  C1_error_latch_first_write_wins.2.2.2.1 framingErrorWorld _ (by decide) (by decide)

/-! ## Support: the table loop and the statement-level run -/

theorem SAMPLE_TABLE_SIZE_eq : SAMPLE_TABLE_SIZE = 51 := rfl

/-- The for loop of CalcSineValues over the first n indices rewrites exactly the
rows below n of the column selected on entry to the loop. -/
theorem calc_loop_eq (v n : Nat) (s : World) :
    (List.range n).foldl (fun st i => CalcSineValues_entry v i st) s =
      { s with VoltageScaled := fun r c =>
          if r < n ∧ c = s.ucActiveVoltArray then
            (VoltageLookup r * (v / 10) % 65536) / 50
          else s.VoltageScaled r c } := by
  induction n with
  | zero => simp
  | succ n ih =>
    rw [List.range_succ, List.foldl_append, ih]
    simp only [List.foldl_cons, List.foldl_nil, CalcSineValues_entry]
    congr 1
    funext r c
    by_cases h1 : r = n
    · subst h1
      by_cases h2 : c = s.ucActiveVoltArray <;> simp [h2]
    · by_cases h2 : c = s.ucActiveVoltArray
      · have : (r < n + 1) = (r < n) := by
          apply propext; constructor <;> intro h <;> omega
        simp [h1, h2, this]
      · simp [h1, h2]

/-- The state CalcSineValues returns, in closed form. -/
theorem CalcSineValues_eq (v : Nat) (s : World) :
    CalcSineValues v s =
      { s with
        ucActiveVoltArray := if s.ucActiveVoltArray = 0 then 1 else 0
        VoltageScaled := fun r c =>
          if r < SAMPLE_TABLE_SIZE ∧ c = (if s.ucActiveVoltArray = 0 then 1 else 0) then
            (VoltageLookup r * (v / 10) % 65536) / 50
          else s.VoltageScaled r c
        VoltActual := v } := by
  unfold CalcSineValues
  simp only [calc_loop_eq, CalcSineValues_flip]

/-- After the flip and k loop iterations the run stands at the loop test with index k. -/
theorem calcRun_loop (v : Nat) (s : World) (k : Nat) (hk : k ≤ SAMPLE_TABLE_SIZE) :
    calcRun v s (k + 1) =
      ⟨.atEntry k, (List.range k).foldl (fun st i => CalcSineValues_entry v i st)
        (CalcSineValues_flip s)⟩ := by
  induction k with
  | zero => rfl
  | succ k ih =>
    have hlt : k < SAMPLE_TABLE_SIZE := by omega
    unfold calcRun at ih ⊢
    rw [Function.iterate_succ_apply', ih (by omega)]
    simp [calcStep, hlt, List.range_succ, List.foldl_append]

/-- The statement-level run ends, after 54 statements, in the state the function returns. -/
theorem calcRun_done (v : Nat) (s : World) :
    calcRun v s (SAMPLE_TABLE_SIZE + 3) = ⟨.done, CalcSineValues v s⟩ := by
  have h := calcRun_loop v s SAMPLE_TABLE_SIZE (le_refl _)
  unfold calcRun at h ⊢
  rw [show SAMPLE_TABLE_SIZE + 3 = (SAMPLE_TABLE_SIZE + 1) + 1 + 1 from rfl,
    Function.iterate_succ_apply', Function.iterate_succ_apply', h]
  simp [calcStep, CalcSineValues]

/-- Every entry of the lookup table fits in ten bits. -/
theorem VoltageLookup_le (i : Nat) : VoltageLookup i ≤ 1023 := by
  unfold VoltageLookup
  by_cases h : i < 51
  · have key : ∀ j : Fin 51, VoltageLookupTable.getD j.val 0 ≤ 1023 := by decide
    exact key ⟨i, h⟩
  · have hlen : VoltageLookupTable.length ≤ i := by
      have : VoltageLookupTable.length = 51 := rfl
      omega
    rw [List.getD_eq_default _ _ hlen]; omega

/-! ## Support: WriteDtoASample and UpdateSignal -/

/-- A D/A write records its argument and leaves the table, the active index and
the cursor alone. -/
theorem WriteDtoASample_frame (x : Nat) (s : World) :
    (WriteDtoASample x s).dtoaSamples = s.dtoaSamples ++ [x] ∧
    (WriteDtoASample x s).VoltageScaled = s.VoltageScaled ∧
    (WriteDtoASample x s).ucActiveVoltArray = s.ucActiveVoltArray ∧
    (WriteDtoASample x s).ucVoltageIndex = s.ucVoltageIndex ∧
    (WriteDtoASample x s).Direction = s.Direction ∧
    (WriteDtoASample x s).DACValue = s.DACValue ∧
    (WriteDtoASample x s).FreqDesired = s.FreqDesired := by
  unfold WriteDtoASample ReportError
  cases (s.spi s.dtoaSamples.length).wcolBefore <;>
    cases (s.spi s.dtoaSamples.length).wcolAfterFirst <;>
    simp <;> split_ifs <;> simp

theorem UpdateSignal_index (s : World) :
    (UpdateSignal s).ucVoltageIndex = cursorNext s.ucVoltageIndex s.Direction := by
  unfold UpdateSignal
  simp only [(WriteDtoASample_frame _ _).2.2.2.1, cursorNext]

theorem UpdateSignal_direction (s : World) :
    (UpdateSignal s).Direction =
      if s.ucVoltageIndex = 0 then 1
      else if s.ucVoltageIndex = SAMPLE_TABLE_SIZE - 1 then 0 else s.Direction := by
  unfold UpdateSignal
  simp only [(WriteDtoASample_frame _ _).2.2.2.2.1]

/-- A D/A write sends one two-byte frame: high byte, then low byte, of the
sample shifted left by two. -/
theorem WriteDtoASample_spdr (x : Nat) (s : World) :
    (WriteDtoASample x s).spdrBytes =
      s.spdrBytes ++ [x * 4 % 65536 / 256 % 256, x * 4 % 65536 % 256] := by
  unfold WriteDtoASample ReportError
  cases (s.spi s.dtoaSamples.length).wcolBefore <;>
    cases (s.spi s.dtoaSamples.length).wcolAfterFirst <;>
    simp <;> split_ifs <;> simp

/-- The two branches of the triangle wave r ↦ r or 100 - r, r = n mod 100. -/
theorem tri_cases (n : Nat) :
    (n % 100 ≤ 50 ∧ (if n % 100 ≤ 50 then n % 100 else 100 - n % 100) = n % 100) ∨
    (50 < n % 100 ∧ (if n % 100 ≤ 50 then n % 100 else 100 - n % 100) = 100 - n % 100) := by
  split_ifs <;> omega

/-- The direction of the n-th move: up at the start and on the rising half. -/
theorem dir_cases (n : Nat) :
    (n = 0 ∧ (if n = 0 then 1 else if 1 ≤ n % 100 ∧ n % 100 ≤ 50 then 1 else 0) = 1) ∨
    (n ≠ 0 ∧ 1 ≤ n % 100 ∧ n % 100 ≤ 50 ∧
      (if n = 0 then 1 else if 1 ≤ n % 100 ∧ n % 100 ≤ 50 then 1 else 0) = 1) ∨
    (n ≠ 0 ∧ (n % 100 = 0 ∨ 50 < n % 100) ∧
      (if n = 0 then 1 else if 1 ≤ n % 100 ∧ n % 100 ≤ 50 then 1 else 0) = 0) := by
  split_ifs <;> omega

/-- Cursor and direction after n calls of UpdateSignal from the initial cursor. -/
theorem cursor_after (s : World) (h0 : s.ucVoltageIndex = 0) (h1 : s.Direction = 1) (n : Nat) :
    (UpdateSignal^[n] s).ucVoltageIndex = (if n % 100 ≤ 50 then n % 100 else 100 - n % 100) ∧
    (UpdateSignal^[n] s).Direction =
      (if n = 0 then 1 else if 1 ≤ n % 100 ∧ n % 100 ≤ 50 then 1 else 0) := by
  induction n with
  | zero => simp [h0, h1]
  | succ n ih =>
    rw [Function.iterate_succ_apply', UpdateSignal_index, UpdateSignal_direction, ih.1, ih.2]
    simp only [cursorNext, SAMPLE_TABLE_SIZE_eq]
    have c1 := tri_cases n
    have c2 := dir_cases n
    have c3 := tri_cases (n + 1)
    have c4 := dir_cases (n + 1)
    generalize (if n % 100 ≤ 50 then n % 100 else 100 - n % 100) = a at *
    generalize (if n = 0 then 1 else if 1 ≤ n % 100 ∧ n % 100 ≤ 50 then 1 else 0) = d at *
    generalize (if (n + 1) % 100 ≤ 50 then (n + 1) % 100 else 100 - (n + 1) % 100) = a2 at *
    generalize (if n + 1 = 0 then 1 else if 1 ≤ (n + 1) % 100 ∧ (n + 1) % 100 ≤ 50 then 1 else 0)
      = d2 at *
    generalize hd1 : (if a = 0 then 1 else if a = 51 - 1 then 0 else d) = d1
    constructor
    · split_ifs at hd1 ⊢ <;> omega
    · split_ifs at hd1 <;> omega

/-! ## Support: the Timer0 constants -/

theorem MAX_MEDIUM_THREAD_COUNT_eq : MAX_MEDIUM_THREAD_COUNT = 200 := rfl

theorem HEARTBEAT_TICKS_eq : HEARTBEAT_TICKS = 20 := rfl

theorem MENU_TICKS_eq : MENU_TICKS = 4 := rfl

/-- For F_CPU = 8 MHz the waveform divisor is floor(2000 / FreqDesired). -/
theorem SIGNAL_TICKS_eq (F : Nat) : SIGNAL_TICKS F = 2000 / F := by
  unfold SIGNAL_TICKS
  rw [show TIMER0_CYCLES = 2000 * 100 from rfl, show SAMPLES_PER_PERIOD = 100 from rfl]
  exact Nat.mul_div_mul_right 2000 F (by decide)

/-- The counter update: c + 1 below the limit, 1 from the limit on. -/
theorem nextMedThreadCount_eq (c : Nat) :
    nextMedThreadCount c = if c < 200 then c + 1 else 1 := by
  unfold nextMedThreadCount
  rw [MAX_MEDIUM_THREAD_COUNT_eq]
  split_ifs <;> omega

/-! ## The double-buffered sample table -/

/-- C2: evaluation of CalcSineValues at the failing input.  The function changes
ucActiveVoltArray in its first statement, before any table entry is written:
for every state and voltage, after one statement the active index is already
the other column and the table is untouched.  In the state after initSine
(column 1 active, scaled for 100), two statements into CalcSineValues 500 the
run is still inside the loop, the active column is column 0 with entry 0
already new (1023) and entry 1 still stale (0), so it is neither the
pre-recompute table nor the post-recompute table, and a waveform read taken
there outputs 0 where the old table gives 204 and the new one 1022. -/
theorem C2_flip_precedes_table_writes :
    (∀ (v : Nat) (s : World),
        (calcRun v s 1).s.ucActiveVoltArray = (if s.ucActiveVoltArray = 0 then 1 else 0) ∧
        (calcRun v s 1).s.VoltageScaled = s.VoltageScaled) ∧
    (calcRun 500 (initSine initWorld) 2).pc = CalcPC.atEntry 1 ∧
    (initSine initWorld).ucActiveVoltArray = 1 ∧
    (calcRun 500 (initSine initWorld) 2).s.ucActiveVoltArray = 0 ∧
    (calcRun 500 (initSine initWorld) 2).s.VoltageScaled 0 0 = 1023 ∧
    (calcRun 500 (initSine initWorld) 2).s.VoltageScaled 1 0 = 0 ∧
    activeColumn (calcRun 500 (initSine initWorld) 2).s ≠ activeColumn (initSine initWorld) ∧
    activeColumn (calcRun 500 (initSine initWorld) 2).s ≠
      activeColumn (CalcSineValues 500 (initSine initWorld)) ∧
    (UpdateSignal (calcRun 500 (initSine initWorld) 2).s).DACValue = 0 ∧
    (UpdateSignal (initSine initWorld)).DACValue = 204 ∧
    (UpdateSignal (CalcSineValues 500 (initSine initWorld))).DACValue = 1022 := by
  refine ⟨fun v s => ⟨rfl, rfl⟩, rfl, rfl, rfl, rfl, rfl, ?_, ?_, rfl, rfl, rfl⟩
  · decide
  · decide

/-- C3: for every valid voltage v (100 ≤ v ≤ 500, a multiple of 10) and every
prior state, CalcSineValues v flips the active index (1 when it was 0, else 0;
so it is 0 or 1, differs from the old one, and equals 1 - old for an old index
in range), sets VoltActual to v, and fills the column that is active after the
call with floor(VoltageLookup[i] * floor(v/10) / 50) for every i in 0..50. -/
theorem C3_CalcSineValues_table (v : Nat) (s : World)
    (hlo : 100 ≤ v) (hhi : v ≤ 500) (hstep : v % 10 = 0) :
    (CalcSineValues v s).ucActiveVoltArray = (if s.ucActiveVoltArray = 0 then 1 else 0) ∧
    (CalcSineValues v s).ucActiveVoltArray ≤ 1 ∧
    (CalcSineValues v s).ucActiveVoltArray ≠ s.ucActiveVoltArray ∧
    (s.ucActiveVoltArray ≤ 1 →
      ((CalcSineValues v s).ucActiveVoltArray : Int) = 1 - (s.ucActiveVoltArray : Int)) ∧
    (CalcSineValues v s).VoltActual = v ∧
    (∀ i, i ≤ 50 →
      (CalcSineValues v s).VoltageScaled i (CalcSineValues v s).ucActiveVoltArray =
        VoltageLookup i * (v / 10) / 50) := by
  have hs := hstep
  rw [CalcSineValues_eq]
  refine ⟨rfl, ?_, ?_, ?_, rfl, ?_⟩
  · show (if s.ucActiveVoltArray = 0 then 1 else 0) ≤ 1
    split_ifs <;> omega
  · show (if s.ucActiveVoltArray = 0 then 1 else 0) ≠ s.ucActiveVoltArray
    split_ifs <;> omega
  · intro h
    show (((if s.ucActiveVoltArray = 0 then 1 else 0 : Nat)) : Int) = 1 - (s.ucActiveVoltArray : Int)
    split_ifs <;> omega
  · intro i hi
    have hi2 : i < SAMPLE_TABLE_SIZE := by rw [SAMPLE_TABLE_SIZE_eq]; omega
    have hL := VoltageLookup_le i
    have hv : v / 10 ≤ 50 := by omega
    have hprod : VoltageLookup i * (v / 10) ≤ 1023 * 50 := Nat.mul_le_mul hL hv
    have hmod : VoltageLookup i * (v / 10) % 65536 = VoltageLookup i * (v / 10) :=
      Nat.mod_eq_of_lt (by omega)
    simp [hi2, hmod]

/-- C3 at v = 500 from the state after initSine. -/
theorem C3_CalcSineValues_table_witness :
    (CalcSineValues 500 (initSine initWorld)).ucActiveVoltArray = 0 ∧
    (CalcSineValues 500 (initSine initWorld)).VoltActual = 500 ∧
    (CalcSineValues 500 (initSine initWorld)).VoltageScaled 7 0 = 974 := by
  have h := C3_CalcSineValues_table 500 (initSine initWorld) (by decide) (by decide) (by decide)
  refine ⟨?_, h.2.2.2.2.1, ?_⟩
  · exact h.1.trans (by decide)
  · have h7 := h.2.2.2.2.2 7 (by decide)
    rw [h.1.trans (by decide : (if (initSine initWorld).ucActiveVoltArray = 0 then 1 else 0) = 0)] at h7
    exact h7.trans (by decide)

/-- C4: CalcSineValues writes only the column that was inactive when it was
called: for every state, voltage and row i, the entry of the column that was
active at entry is unchanged (as is every entry outside the other column and
outside rows 0..50); and UpdateSignal changes no table entry at all. -/
theorem C4_table_frame :
    (∀ (v : Nat) (s : World) (i : Nat),
        (CalcSineValues v s).VoltageScaled i s.ucActiveVoltArray =
          s.VoltageScaled i s.ucActiveVoltArray) ∧
    (∀ (v : Nat) (s : World) (i c : Nat),
        (CalcSineValues v s).VoltageScaled i c = s.VoltageScaled i c ∨
          (c = (if s.ucActiveVoltArray = 0 then 1 else 0) ∧ c ≠ s.ucActiveVoltArray ∧
            i < SAMPLE_TABLE_SIZE)) ∧
    (∀ (s : World), (UpdateSignal s).VoltageScaled = s.VoltageScaled) := by
  refine ⟨?_, ?_, ?_⟩
  · intro v s i
    rw [CalcSineValues_eq]
    show (if i < SAMPLE_TABLE_SIZE ∧ s.ucActiveVoltArray = (if s.ucActiveVoltArray = 0 then 1 else 0)
        then _ else s.VoltageScaled i s.ucActiveVoltArray) = _
    have : ¬ (s.ucActiveVoltArray = (if s.ucActiveVoltArray = 0 then 1 else 0)) := by
      split_ifs <;> omega
    simp [this]
  · intro v s i c
    rw [CalcSineValues_eq]
    by_cases h : i < SAMPLE_TABLE_SIZE ∧ c = (if s.ucActiveVoltArray = 0 then 1 else 0)
    · right
      refine ⟨h.2, ?_, h.1⟩
      rw [h.2]; split_ifs <;> omega
    · left
      show (if i < SAMPLE_TABLE_SIZE ∧ c = (if s.ucActiveVoltArray = 0 then 1 else 0)
        then _ else s.VoltageScaled i c) = _
      simp [h]
  · intro s
    unfold UpdateSignal
    exact (WriteDtoASample_frame _ _).2.1

/-! ## The sample cursor -/

/-- C5: cursor traversal.  From the initial cursor (index 0, direction up) the
index used by the n-th call of UpdateSignal (n ≥ 1) is r when r ≤ 50 and
100 - r otherwise, with r = n mod 100; the index sequence has period 100 and
no shorter period; each call moves up from index 0, down from index 50 and
otherwise keeps the direction of the call before, so from the first call on
the direction reverses exactly after a call that used index 0 or 50. -/
theorem C5_cursor_traversal (s : World) (h0 : s.ucVoltageIndex = 0) (h1 : s.Direction = 1) :
    (∀ n, 1 ≤ n → (UpdateSignal^[n] s).ucVoltageIndex =
        (if n % 100 ≤ 50 then n % 100 else 100 - n % 100)) ∧
    (∀ n, (UpdateSignal^[n + 100] s).ucVoltageIndex = (UpdateSignal^[n] s).ucVoltageIndex) ∧
    (∀ p, 0 < p → p < 100 → ∃ n, 1 ≤ n ∧
        (UpdateSignal^[n + p] s).ucVoltageIndex ≠ (UpdateSignal^[n] s).ucVoltageIndex) ∧
    (∀ n, (UpdateSignal^[n + 1] s).Direction =
        (if (UpdateSignal^[n] s).ucVoltageIndex = 0 then 1
         else if (UpdateSignal^[n] s).ucVoltageIndex = 50 then 0
         else (UpdateSignal^[n] s).Direction)) ∧
    (∀ n, 1 ≤ n → ((UpdateSignal^[n + 1] s).Direction ≠ (UpdateSignal^[n] s).Direction ↔
        ((UpdateSignal^[n] s).ucVoltageIndex = 0 ∨ (UpdateSignal^[n] s).ucVoltageIndex = 50))) := by
  have key := cursor_after s h0 h1
  refine ⟨fun n _ => (key n).1, ?_, ?_, ?_, ?_⟩
  · intro n
    rw [(key (n + 100)).1, (key n).1]
    split_ifs <;> omega
  · intro p hp0 hp1
    refine ⟨100, by omega, ?_⟩
    rw [(key (100 + p)).1, (key 100).1]
    split_ifs <;> omega
  · intro n
    rw [Function.iterate_succ_apply', UpdateSignal_direction, SAMPLE_TABLE_SIZE_eq]
  · intro n hn
    rw [(key (n + 1)).2, (key n).2, (key n).1]
    have c1 := tri_cases n
    have c2 := dir_cases n
    have c4 := dir_cases (n + 1)
    generalize (if n % 100 ≤ 50 then n % 100 else 100 - n % 100) = a at *
    generalize (if n = 0 then 1 else if 1 ≤ n % 100 ∧ n % 100 ≤ 50 then 1 else 0) = d at *
    generalize (if n + 1 = 0 then 1 else if 1 ≤ (n + 1) % 100 ∧ (n + 1) % 100 ≤ 50 then 1 else 0)
      = d2 at *
    omega

/-- C5 at the power-on state: the first calls use indices 1, 2 and 3, and the
50th, 51st, 100th and 101st calls use 50, 49, 0 and 1. -/
theorem C5_cursor_traversal_witness :
    (UpdateSignal^[1] initWorld).ucVoltageIndex = 1 ∧
    (UpdateSignal^[2] initWorld).ucVoltageIndex = 2 ∧
    (UpdateSignal^[50] initWorld).ucVoltageIndex = 50 ∧
    (UpdateSignal^[51] initWorld).ucVoltageIndex = 49 ∧
    (UpdateSignal^[100] initWorld).ucVoltageIndex = 0 ∧
    (UpdateSignal^[101] initWorld).ucVoltageIndex = 1 := by
  have h := (C5_cursor_traversal initWorld rfl rfl).1
  exact ⟨h 1 (by decide), h 2 (by decide), h 50 (by decide), h 51 (by decide),
    h 100 (by decide), h 101 (by decide)⟩

/-- C6: for every state, one call of UpdateSignal advances the cursor first (up
from index 0 or when the direction is up and the index is not 50, down
otherwise, in unsigned char arithmetic) and then passes to WriteDtoASample
exactly VoltageScaled[j][a], with j the advanced index and a the active index:
the record of D/A writes grows by that one sample, one two-byte frame goes to
the SPI data register, and the active index is unchanged. -/
theorem C6_UpdateSignal_sample (s : World) :
    (UpdateSignal s).ucVoltageIndex =
      (if s.ucVoltageIndex = 0 ∨ (s.ucVoltageIndex ≠ 50 ∧ s.Direction = 1)
        then (s.ucVoltageIndex + 1) % 256 else (s.ucVoltageIndex + 255) % 256) ∧
    (UpdateSignal s).dtoaSamples =
      s.dtoaSamples ++ [s.VoltageScaled (UpdateSignal s).ucVoltageIndex s.ucActiveVoltArray] ∧
    (UpdateSignal s).DACValue =
      s.VoltageScaled (UpdateSignal s).ucVoltageIndex s.ucActiveVoltArray ∧
    (UpdateSignal s).spdrBytes.length = s.spdrBytes.length + 2 ∧
    (UpdateSignal s).ucActiveVoltArray = s.ucActiveVoltArray := by
  have hidx := UpdateSignal_index s
  refine ⟨?_, ?_, ?_, ?_, ?_⟩
  · rw [hidx, cursorNext, SAMPLE_TABLE_SIZE_eq]
    generalize hd1 : (if s.ucVoltageIndex = 0 then 1
      else if s.ucVoltageIndex = 51 - 1 then 0 else s.Direction) = d1
    split_ifs at hd1 ⊢ <;> first | rfl | omega
  · rw [hidx]
    unfold UpdateSignal
    rw [(WriteDtoASample_frame _ _).1]
    rfl
  · rw [hidx]
    unfold UpdateSignal
    rw [(WriteDtoASample_frame _ _).2.2.2.2.2.1]
    rfl
  · unfold UpdateSignal
    rw [WriteDtoASample_spdr]
    simp
  · unfold UpdateSignal
    exact (WriteDtoASample_frame _ _).2.2.1

/-! ## The tick scheduler -/

/-- C7: tick overrun leaves the scheduler untouched.  For every state in which
the Timer0 compare handler is entered with bMedThreadInProgress = TRUE, the
invocation leaves uiMedThreadCount unchanged, calls no task (neither
heartbeat, UpdateSignal nor RunMenu; the rest of the state changes only by the
one ReportError call), and leaves bMedThreadInProgress TRUE. -/
theorem C7_overrun_leaves_scheduler (RunMenu : World → World) (t : Timer0Statics) (w : World)
    (h : t.bMedThreadInProgress = eBooleanType.TRUE) :
    (ISR_TIMER0_COMPA_vect RunMenu t w).statics.uiMedThreadCount = t.uiMedThreadCount ∧
    (ISR_TIMER0_COMPA_vect RunMenu t w).calls = [] ∧
    (ISR_TIMER0_COMPA_vect RunMenu t w).statics.bMedThreadInProgress = eBooleanType.TRUE ∧
    (ISR_TIMER0_COMPA_vect RunMenu t w).world = ReportError MEDIUM_TASK_OVERRUN w := by
  unfold ISR_TIMER0_COMPA_vect
  simp [h]

/-- C7 at counter 20 (a value at which all three tasks would otherwise be due
on a later tick) with the guard set. -/
theorem C7_overrun_leaves_scheduler_witness :
    (ISR_TIMER0_COMPA_vect ClearError ⟨20, eBooleanType.TRUE⟩ initWorld).statics.uiMedThreadCount
      = 20 ∧
    (ISR_TIMER0_COMPA_vect ClearError ⟨20, eBooleanType.TRUE⟩ initWorld).calls = [] ∧
    (ISR_TIMER0_COMPA_vect ClearError ⟨20, eBooleanType.TRUE⟩ initWorld).statics.bMedThreadInProgress
      = eBooleanType.TRUE := by
  have h := C7_overrun_leaves_scheduler ClearError ⟨20, eBooleanType.TRUE⟩ initWorld rfl
  exact ⟨h.1, h.2.1, h.2.2.1⟩

/-- C8, as stated, fails: entered with the guard set and a framing error
already latched, the handler leaves the latch at SCI_RX_FRAME, so GetError
does not return MEDIUM_TASK_OVERRUN. -/
theorem C8_overrun_lost_behind_latched_error :
    (GetError (ISR_TIMER0_COMPA_vect id ⟨1, eBooleanType.TRUE⟩ framingErrorWorld).world).1
      = SCI_RX_FRAME ∧
    ¬ (∀ (RunMenu : World → World) (t : Timer0Statics) (w : World),
        t.bMedThreadInProgress = eBooleanType.TRUE →
        (GetError (ISR_TIMER0_COMPA_vect RunMenu t w).world).1 = MEDIUM_TASK_OVERRUN) := by
  refine ⟨rfl, fun hall => ?_⟩
  have h := hall id ⟨1, eBooleanType.TRUE⟩ framingErrorWorld rfl
  exact absurd h (by decide)

/-- C8, amended: for every state in which the Timer0 compare handler fires while
the overrun guard is set, the handler makes exactly the one call
ReportError(MEDIUM_TASK_OVERRUN); afterwards GetError returns
MEDIUM_TASK_OVERRUN when the latch was empty (NO_ERROR) at entry, and the
error already latched otherwise. -/
theorem C8_overrun_reported_first_write_wins (RunMenu : World → World) (t : Timer0Statics)
    (w : World) (h : t.bMedThreadInProgress = eBooleanType.TRUE) :
    (ISR_TIMER0_COMPA_vect RunMenu t w).world = ReportError MEDIUM_TASK_OVERRUN w ∧
    (GetError (ISR_TIMER0_COMPA_vect RunMenu t w).world).1 =
      (if w.SystemError = NO_ERROR then MEDIUM_TASK_OVERRUN else w.SystemError) := by
  have hw : (ISR_TIMER0_COMPA_vect RunMenu t w).world = ReportError MEDIUM_TASK_OVERRUN w := by
    unfold ISR_TIMER0_COMPA_vect
    simp [h]
  refine ⟨hw, ?_⟩
  rw [hw]
  unfold GetError ReportError
  split_ifs <;> rfl

/-- C8 amended, at the power-on state (empty latch) with the guard set. -/
theorem C8_overrun_reported_first_write_wins_witness :
    (GetError (ISR_TIMER0_COMPA_vect id ⟨1, eBooleanType.TRUE⟩ initWorld).world).1
      = MEDIUM_TASK_OVERRUN :=
  (C8_overrun_reported_first_write_wins id ⟨1, eBooleanType.TRUE⟩ initWorld rfl).2

/-- C9: tick counter range and wrap.  uiMedThreadCount is initially 1; each
non-overrun invocation of the Timer0 handler maps the counter c to c + 1 when
c < 200 and to 1 when c ≥ 200, where 200 is MAX_MEDIUM_THREAD_TIME / TIMER0_TIME;
and in every reachable state of the handler 1 ≤ uiMedThreadCount ≤ 200. -/
theorem C9_tick_counter_range :
    initTimer0.uiMedThreadCount = 1 ∧
    MAX_MEDIUM_THREAD_TIME_ms / TIMER0_TIME_ms = 200 ∧
    (∀ (RunMenu : World → World) (t : Timer0Statics) (w : World),
        t.bMedThreadInProgress = eBooleanType.FALSE →
        (ISR_TIMER0_COMPA_vect RunMenu t w).statics.uiMedThreadCount =
          (if t.uiMedThreadCount < 200 then t.uiMedThreadCount + 1 else 1)) ∧
    (∀ t : Timer0Statics, Timer0Reachable t →
        1 ≤ t.uiMedThreadCount ∧ t.uiMedThreadCount ≤ 200) := by
  refine ⟨rfl, rfl, ?_, ?_⟩
  · intro RunMenu t w h
    unfold ISR_TIMER0_COMPA_vect
    simp [h, nextMedThreadCount_eq]
  · intro t ht
    induction ht with
    | init => exact ⟨le_refl _, by decide⟩
    | @invoke RunMenu w t _ ih =>
      unfold ISR_TIMER0_COMPA_vect
      by_cases hg : t.bMedThreadInProgress = eBooleanType.TRUE
      · simpa [hg] using ih
      · simp only [hg, if_false, nextMedThreadCount_eq]
        split_ifs <;> omega
    | @inFlight t _ _ ih =>
      simp only [nextMedThreadCount_eq]
      split_ifs <;> omega

/-- C9 at the wrap: the handler takes the counter from 199 to 200 and from 200
to 1, and the state after the first tick is reachable with counter 2. -/
theorem C9_tick_counter_range_witness :
    (ISR_TIMER0_COMPA_vect id ⟨199, eBooleanType.FALSE⟩ initWorld).statics.uiMedThreadCount
      = 200 ∧
    (ISR_TIMER0_COMPA_vect id ⟨200, eBooleanType.FALSE⟩ initWorld).statics.uiMedThreadCount
      = 1 ∧
    (1 ≤ (ISR_TIMER0_COMPA_vect id initTimer0 initWorld).statics.uiMedThreadCount ∧
      (ISR_TIMER0_COMPA_vect id initTimer0 initWorld).statics.uiMedThreadCount ≤ 200) :=
  ⟨C9_tick_counter_range.2.2.1 id ⟨199, eBooleanType.FALSE⟩ initWorld rfl,
   C9_tick_counter_range.2.2.1 id ⟨200, eBooleanType.FALSE⟩ initWorld rfl,
   C9_tick_counter_range.2.2.2 _ (Timer0Reachable.invoke id initWorld Timer0Reachable.init)⟩

/-- C10: dispatch rule and order.  In every non-overrun invocation of the Timer0
handler, with c the counter after the update, the tasks called are exactly the
sublist of [heartbeat, UpdateSignal, RunMenu], in that order, selected by
c mod 20 = 0, c mod floor(2000 / FreqDesired) = 0 and c mod 4 = 0; the state
on exit is the state at entry with those task bodies applied one after the
other, and bMedThreadInProgress is FALSE on exit. -/
theorem C10_dispatch_rule (RunMenu : World → World) (t : Timer0Statics) (w : World)
    (h : t.bMedThreadInProgress = eBooleanType.FALSE) :
    (ISR_TIMER0_COMPA_vect RunMenu t w).calls =
      [TickTask.heartbeat, TickTask.UpdateSignal, TickTask.RunMenu].filter (fun k =>
        match k with
        | TickTask.heartbeat =>
          decide ((ISR_TIMER0_COMPA_vect RunMenu t w).statics.uiMedThreadCount % 20 = 0)
        | TickTask.UpdateSignal =>
          decide ((ISR_TIMER0_COMPA_vect RunMenu t w).statics.uiMedThreadCount
            % (2000 / w.FreqDesired) = 0)
        | TickTask.RunMenu =>
          decide ((ISR_TIMER0_COMPA_vect RunMenu t w).statics.uiMedThreadCount % 4 = 0)) ∧
    (ISR_TIMER0_COMPA_vect RunMenu t w).world =
      (ISR_TIMER0_COMPA_vect RunMenu t w).calls.foldl (fun st k => k.run RunMenu st) w ∧
    (ISR_TIMER0_COMPA_vect RunMenu t w).statics.uiMedThreadCount =
      (if t.uiMedThreadCount < 200 then t.uiMedThreadCount + 1 else 1) ∧
    (ISR_TIMER0_COMPA_vect RunMenu t w).statics.bMedThreadInProgress = eBooleanType.FALSE := by
  have hF : (heartbeat w).FreqDesired = w.FreqDesired := rfl
  unfold ISR_TIMER0_COMPA_vect
  simp only [h, if_false, reduceCtorEq, HEARTBEAT_TICKS_eq, MENU_TICKS_eq, SIGNAL_TICKS_eq,
    ← nextMedThreadCount_eq]
  generalize nextMedThreadCount t.uiMedThreadCount = c
  by_cases h1 : c % 20 = 0 <;> by_cases h2 : c % (2000 / w.FreqDesired) = 0 <;>
    by_cases h3 : c % 4 = 0 <;>
    simp [h1, h2, h3, hF, List.filter, TickTask.run]

/-- C10 at the tick that takes the counter from 199 to 200 with FreqDesired = 40:
all three tasks are due and run in the fixed order. -/
theorem C10_dispatch_rule_witness :
    (ISR_TIMER0_COMPA_vect ClearError ⟨199, eBooleanType.FALSE⟩ initWorld).calls =
      [TickTask.heartbeat, TickTask.UpdateSignal, TickTask.RunMenu] ∧
    (ISR_TIMER0_COMPA_vect ClearError ⟨199, eBooleanType.FALSE⟩ initWorld).statics.uiMedThreadCount
      = 200 ∧
    (ISR_TIMER0_COMPA_vect ClearError ⟨199, eBooleanType.FALSE⟩ initWorld).statics.bMedThreadInProgress
      = eBooleanType.FALSE := by
  have h := C10_dispatch_rule ClearError ⟨199, eBooleanType.FALSE⟩ initWorld rfl
  exact ⟨h.1.trans (by decide), h.2.2.1, h.2.2.2⟩

/-! ## Support: ticks in a row -/

/-- In a non-overrun invocation the two fixed tasks are called exactly when the
updated counter is a multiple of their period. -/
theorem ISR_TIMER0_calls_mem (RunMenu : World → World) (t : Timer0Statics) (w : World)
    (h : t.bMedThreadInProgress = eBooleanType.FALSE) :
    (TickTask.heartbeat ∈ (ISR_TIMER0_COMPA_vect RunMenu t w).calls ↔
      nextMedThreadCount t.uiMedThreadCount % 20 = 0) ∧
    (TickTask.RunMenu ∈ (ISR_TIMER0_COMPA_vect RunMenu t w).calls ↔
      nextMedThreadCount t.uiMedThreadCount % 4 = 0) := by
  unfold ISR_TIMER0_COMPA_vect
  simp only [h, if_false, reduceCtorEq, HEARTBEAT_TICKS_eq, MENU_TICKS_eq]
  generalize nextMedThreadCount t.uiMedThreadCount = c
  by_cases h1 : c % 20 = 0 <;>
    by_cases h2 : c % SIGNAL_TICKS (heartbeat w).FreqDesired = 0 <;>
    by_cases h2b : c % SIGNAL_TICKS w.FreqDesired = 0 <;>
    by_cases h3 : c % 4 = 0 <;>
    simp [h1, h2, h2b, h3]

/-- After n ticks in a row the counter is n mod 200 + 1 and the guard is clear. -/
theorem timer0After_eq (RunMenu : Nat → World → World) (ws : Nat → World) (n : Nat) :
    timer0After RunMenu ws n = ⟨n % 200 + 1, eBooleanType.FALSE⟩ := by
  induction n with
  | zero => rfl
  | succ n ih =>
    rw [timer0After, ih]
    unfold ISR_TIMER0_COMPA_vect
    simp only [if_false, reduceCtorEq, nextMedThreadCount_eq, Timer0Statics.mk.injEq, and_true]
    split_ifs <;> omega

/-- The counter that tick n (n ≥ 1) tests is n mod 200 + 1. -/
theorem tick_count (RunMenu : Nat → World → World) (ws : Nat → World) (n : Nat) (hn : 1 ≤ n) :
    nextMedThreadCount (timer0After RunMenu ws (n - 1)).uiMedThreadCount = n % 200 + 1 ∧
    (timer0After RunMenu ws (n - 1)).bMedThreadInProgress = eBooleanType.FALSE := by
  rw [timer0After_eq, nextMedThreadCount_eq]
  refine ⟨?_, rfl⟩
  show (if (n - 1) % 200 + 1 < 200 then (n - 1) % 200 + 1 + 1 else 1) = n % 200 + 1
  split_ifs <;> omega

/-! ## Cadence of the fixed tasks -/

/-- C11: periodic cadence of the fixed tasks.  In any run of overrun-free Timer0
ticks from the initial state (whatever the state each tick runs on), the
counter after tick n is n mod 200 + 1; heartbeat is dispatched on the n-th
tick iff (n+1) mod 20 = 0 and RunMenu iff (n+1) mod 4 = 0, for every n ≥ 1;
so after a heartbeat dispatch the next one comes exactly 20 ticks later and
after a menu poll the next one exactly 4 ticks later, wrap of the counter
from 200 to 1 included. -/
theorem C11_fixed_task_cadence (RunMenu : Nat → World → World) (ws : Nat → World) :
    (∀ n, (timer0After RunMenu ws n).uiMedThreadCount = n % 200 + 1) ∧
    (∀ n, 1 ≤ n → (TickTask.heartbeat ∈ tickCalls RunMenu ws n ↔ (n + 1) % 20 = 0)) ∧
    (∀ n, 1 ≤ n → (TickTask.RunMenu ∈ tickCalls RunMenu ws n ↔ (n + 1) % 4 = 0)) ∧
    (∀ n, 1 ≤ n → TickTask.heartbeat ∈ tickCalls RunMenu ws n →
      TickTask.heartbeat ∈ tickCalls RunMenu ws (n + 20) ∧
      ∀ k, 0 < k → k < 20 → TickTask.heartbeat ∉ tickCalls RunMenu ws (n + k)) ∧
    (∀ n, 1 ≤ n → TickTask.RunMenu ∈ tickCalls RunMenu ws n →
      TickTask.RunMenu ∈ tickCalls RunMenu ws (n + 4) ∧
      ∀ k, 0 < k → k < 4 → TickTask.RunMenu ∉ tickCalls RunMenu ws (n + k)) := by
  have hb : ∀ n, 1 ≤ n →
      (TickTask.heartbeat ∈ tickCalls RunMenu ws n ↔ (n + 1) % 20 = 0) := by
    intro n hn
    have hc := tick_count RunMenu ws n hn
    unfold tickCalls
    rw [(ISR_TIMER0_calls_mem _ _ _ hc.2).1, hc.1]
    omega
  have hm : ∀ n, 1 ≤ n →
      (TickTask.RunMenu ∈ tickCalls RunMenu ws n ↔ (n + 1) % 4 = 0) := by
    intro n hn
    have hc := tick_count RunMenu ws n hn
    unfold tickCalls
    rw [(ISR_TIMER0_calls_mem _ _ _ hc.2).2, hc.1]
    omega
  refine ⟨fun n => by rw [timer0After_eq], hb, hm, ?_, ?_⟩
  · intro n hn h
    have h0 := (hb n hn).1 h
    refine ⟨(hb (n + 20) (by omega)).2 (by omega), fun k hk0 hk => ?_⟩
    rw [hb (n + k) (by omega)]
    omega
  · intro n hn h
    have h0 := (hm n hn).1 h
    refine ⟨(hm (n + 4) (by omega)).2 (by omega), fun k hk0 hk => ?_⟩
    rw [hm (n + k) (by omega)]
    omega

/-- C11 on a run in which every tick finds the power-on state: tick 199 (counter
200) calls heartbeat and the menu, and the next heartbeat is tick 219,
across the wrap of the counter. -/
theorem C11_fixed_task_cadence_witness :
    TickTask.heartbeat ∈ tickCalls (fun _ => id) (fun _ => initWorld) 199 ∧
    TickTask.heartbeat ∈ tickCalls (fun _ => id) (fun _ => initWorld) 219 ∧
    TickTask.heartbeat ∉ tickCalls (fun _ => id) (fun _ => initWorld) 200 ∧
    TickTask.RunMenu ∈ tickCalls (fun _ => id) (fun _ => initWorld) 203 := by
  have h := C11_fixed_task_cadence (fun _ => id) (fun _ => initWorld)
  have h199 := (h.2.1 199 (by decide)).2 (by decide)
  exact ⟨h199, (h.2.2.2.1 199 (by decide) h199).1,
    (h.2.2.2.1 199 (by decide) h199).2 1 (by decide) (by decide),
    (h.2.2.1 203 (by decide)).2 (by decide)⟩

/-! ## Parameter validation -/

/-- The value `SetFreq` returns. -/
theorem SetFreq_ret (f : Nat) (s : World) :
    (SetFreq f s).1 =
      (if f < 40 ∨ f > 100 then PARAMETER_OUT_OF_RANGE
       else if f % 5 ≠ 0 then INVALID_PARAMETER else NO_ERROR) := by
  unfold SetFreq MIN_FREQUENCY MAX_FREQUENCY FREQUENCY_INCREMENT
  split_ifs <;> rfl

/-- The value `SetVolt` returns. -/
theorem SetVolt_ret (v : Nat) (s : World) :
    (SetVolt v s).1 =
      (if v < 100 ∨ v > 500 then PARAMETER_OUT_OF_RANGE
       else if v % 10 ≠ 0 then INVALID_PARAMETER else NO_ERROR) := by
  unfold SetVolt MIN_VOLTAGE MAX_VOLTAGE VOLTAGE_INCREMENT
  split_ifs <;> rfl

/-- C12: SetFreq classification.  For every f, SetFreq f returns
PARAMETER_OUT_OF_RANGE iff f < 40 or f > 100, INVALID_PARAMETER iff
40 ≤ f ≤ 100 and f mod 5 ≠ 0, and NO_ERROR iff 40 ≤ f ≤ 100 and f mod 5 = 0. -/
theorem C12_SetFreq_classification (f : Nat) (s : World) :
    ((SetFreq f s).1 = PARAMETER_OUT_OF_RANGE ↔ (f < 40 ∨ f > 100)) ∧
    ((SetFreq f s).1 = INVALID_PARAMETER ↔ (40 ≤ f ∧ f ≤ 100 ∧ f % 5 ≠ 0)) ∧
    ((SetFreq f s).1 = NO_ERROR ↔ (40 ≤ f ∧ f ≤ 100 ∧ f % 5 = 0)) := by
  rw [SetFreq_ret]
  split_ifs with h1 h2
  · exact ⟨⟨fun _ => h1, fun _ => rfl⟩,
      ⟨fun h => absurd h (by decide), fun h => by omega⟩,
      ⟨fun h => absurd h (by decide), fun h => by omega⟩⟩
  · exact ⟨⟨fun h => absurd h (by decide), fun h => absurd h h1⟩,
      ⟨fun _ => by omega, fun _ => rfl⟩,
      ⟨fun h => absurd h (by decide), fun h => by omega⟩⟩
  · exact ⟨⟨fun h => absurd h (by decide), fun h => absurd h h1⟩,
      ⟨fun h => absurd h (by decide), fun h => by omega⟩,
      ⟨fun _ => by omega, fun _ => rfl⟩⟩

/-- C13: SetVolt classification.  For every v, SetVolt v returns
PARAMETER_OUT_OF_RANGE iff v < 100 or v > 500, INVALID_PARAMETER iff
100 ≤ v ≤ 500 and v mod 10 ≠ 0, and NO_ERROR iff 100 ≤ v ≤ 500 and
v mod 10 = 0. -/
theorem C13_SetVolt_classification (v : Nat) (s : World) :
    ((SetVolt v s).1 = PARAMETER_OUT_OF_RANGE ↔ (v < 100 ∨ v > 500)) ∧
    ((SetVolt v s).1 = INVALID_PARAMETER ↔ (100 ≤ v ∧ v ≤ 500 ∧ v % 10 ≠ 0)) ∧
    ((SetVolt v s).1 = NO_ERROR ↔ (100 ≤ v ∧ v ≤ 500 ∧ v % 10 = 0)) := by
  rw [SetVolt_ret]
  split_ifs with h1 h2
  · exact ⟨⟨fun _ => h1, fun _ => rfl⟩,
      ⟨fun h => absurd h (by decide), fun h => by omega⟩,
      ⟨fun h => absurd h (by decide), fun h => by omega⟩⟩
  · exact ⟨⟨fun h => absurd h (by decide), fun h => absurd h h1⟩,
      ⟨fun _ => by omega, fun _ => rfl⟩,
      ⟨fun h => absurd h (by decide), fun h => by omega⟩⟩
  · exact ⟨⟨fun h => absurd h (by decide), fun h => absurd h h1⟩,
      ⟨fun h => absurd h (by decide), fun h => by omega⟩,
      ⟨fun _ => by omega, fun _ => rfl⟩⟩

/-- C14: rejected parameters change nothing.  For every state and argument,
when SetFreq or SetVolt returns a value other than NO_ERROR the state after
the call is the state before it, in every variable and register (so in
FreqDesired, VoltDesired, VoltActual, OCR1A, both columns of VoltageScaled,
ucActiveVoltArray and SystemError). -/
theorem C14_rejected_parameter_changes_nothing (x : Nat) (s : World) :
    ((SetFreq x s).1 ≠ NO_ERROR → (SetFreq x s).2 = s) ∧
    ((SetVolt x s).1 ≠ NO_ERROR → (SetVolt x s).2 = s) := by
  constructor
  · unfold SetFreq
    generalize (if x < MIN_FREQUENCY ∨ x > MAX_FREQUENCY then PARAMETER_OUT_OF_RANGE
      else if x % FREQUENCY_INCREMENT ≠ 0 then INVALID_PARAMETER else NO_ERROR) = r
    by_cases hr : r = NO_ERROR <;> simp [hr]
  · unfold SetVolt
    generalize (if x < MIN_VOLTAGE ∨ x > MAX_VOLTAGE then PARAMETER_OUT_OF_RANGE
      else if x % VOLTAGE_INCREMENT ≠ 0 then INVALID_PARAMETER else NO_ERROR) = r
    by_cases hr : r = NO_ERROR <;> simp [hr]

/-- C14 at the power-on state: the off-step frequency 42 and the out-of-range
voltage 510 are rejected and leave the state as it was. -/
theorem C14_rejected_parameter_changes_nothing_witness :
    (SetFreq 42 initWorld).2 = initWorld ∧ (SetVolt 510 initWorld).2 = initWorld :=
  ⟨(C14_rejected_parameter_changes_nothing 42 initWorld).1 (by decide),
   (C14_rejected_parameter_changes_nothing 510 initWorld).2 (by decide)⟩

/-- C15: for every valid frequency f (40 ≤ f ≤ 100, f mod 5 = 0), SetFreq f
returns NO_ERROR, sets FreqDesired to f and OCR1A to floor(F_CPU / (f * 100)),
a value between 800 and 2000 for F_CPU = 8 MHz (with f * 100 ≤ 10000), and
changes nothing else: both columns of VoltageScaled, ucActiveVoltArray,
VoltDesired and VoltActual are as before. -/
theorem C15_SetFreq_effect (f : Nat) (s : World)
    (hlo : 40 ≤ f) (hhi : f ≤ 100) (hstep : f % 5 = 0) :
    (SetFreq f s).1 = NO_ERROR ∧
    (SetFreq f s).2 = { s with FreqDesired := f, OCR1A := F_CPU / (f * 100) } ∧
    (SetFreq f s).2.FreqDesired = f ∧
    (SetFreq f s).2.OCR1A = 8000000 / (f * 100) ∧
    800 ≤ (SetFreq f s).2.OCR1A ∧ (SetFreq f s).2.OCR1A ≤ 2000 ∧
    f * 100 ≤ 10000 ∧
    (SetFreq f s).2.VoltageScaled = s.VoltageScaled ∧
    (SetFreq f s).2.ucActiveVoltArray = s.ucActiveVoltArray ∧
    (SetFreq f s).2.VoltDesired = s.VoltDesired ∧
    (SetFreq f s).2.VoltActual = s.VoltActual := by
  have hret : (SetFreq f s).1 = NO_ERROR := by
    rw [SetFreq_ret]
    have h1 : ¬ (f < 40 ∨ f > 100) := by omega
    simp [h1, hstep]
  have hdiv : 8000000 / (f * 100) = 80000 / f :=
    Nat.mul_div_mul_right 80000 f (by decide : 0 < 100)
  have hlo2 : 800 ≤ 80000 / f := (Nat.le_div_iff_mul_le (by omega)).2 (by omega)
  have hhi2 : 80000 / f ≤ 2000 := by
    have := (Nat.div_lt_iff_lt_mul (by omega : 0 < f)).2 (by omega : 80000 < 2001 * f)
    omega
  have hstate : (SetFreq f s).2 = { s with FreqDesired := f, OCR1A := F_CPU / (f * 100) } := by
    have hcond : ¬ (f < MIN_FREQUENCY ∨ f > MAX_FREQUENCY) := by
      unfold MIN_FREQUENCY MAX_FREQUENCY; omega
    have hstep2 : f % FREQUENCY_INCREMENT = 0 := hstep
    have hmod : f * 100 % 65536 = f * 100 := Nat.mod_eq_of_lt (by omega)
    have hmod2 : F_CPU / (f * 100) % 65536 = F_CPU / (f * 100) := by
      apply Nat.mod_eq_of_lt
      show 8000000 / (f * 100) < 65536
      omega
    unfold SetFreq UpdateFreqCnt
    simp [hcond, hstep2, hmod, hmod2]
  refine ⟨hret, hstate, ?_, ?_, ?_, ?_, by omega, ?_, ?_, ?_, ?_⟩ <;> rw [hstate]
  · show F_CPU / (f * 100) = 8000000 / (f * 100)
    rfl
  · show 800 ≤ 8000000 / (f * 100)
    omega
  · show 8000000 / (f * 100) ≤ 2000
    omega

/-- C15 at f = 45 from the power-on state: OCR1A becomes 1777. -/
theorem C15_SetFreq_effect_witness :
    (SetFreq 45 initWorld).1 = NO_ERROR ∧ (SetFreq 45 initWorld).2.FreqDesired = 45 ∧
    (SetFreq 45 initWorld).2.OCR1A = 1777 := by
  have h := C15_SetFreq_effect 45 initWorld (by decide) (by decide) (by decide)
  exact ⟨h.1, h.2.2.1, h.2.2.2.1.trans (by decide)⟩

/-! ## Support: ring buffers -/

/-- For a pointer inside the array the pointer macro is the successor modulo
the length. -/
theorem INC_CIRC_BUFFER_PTR_mod (p L : Nat) (hp : p < L) :
    INC_CIRC_BUFFER_PTR p 0 L = (p + 1) % L := by
  unfold INC_CIRC_BUFFER_PTR
  split_ifs with h
  · have : p + 1 = L := by omega
    rw [this, Nat.mod_self]
  · exact (Nat.mod_eq_of_lt (by omega)).symm

theorem ringQueued_length (buf : Nat → Nat) (h t L : Nat) :
    (ringQueued buf h t L).length = (h + L - t) % L := by
  simp [ringQueued]

/-- Writing at the head and advancing it appends one byte, when there is room. -/
theorem ringQueued_push (buf : Nat → Nat) (h t L c : Nat) (hL : L = 250 ∨ L = 10)
    (hh : h < L) (ht : t < L) (hroom : (h + 1) % L ≠ t) :
    ringQueued (fun i => if i = h then c else buf i) ((h + 1) % L) t L =
      ringQueued buf h t L ++ [c] := by
  have hq : ((h + 1) % L + L - t) % L = (h + L - t) % L + 1 := by
    rcases hL with rfl | rfl <;> omega
  unfold ringQueued
  rw [hq, List.range_succ, List.map_append]
  congr 1
  · apply List.map_congr_left
    intro k hk
    have hk2 : k < (h + L - t) % L := List.mem_range.1 hk
    have hne : (t + k) % L ≠ h := by rcases hL with rfl | rfl <;> omega
    simp [hne]
  · have he : (t + (h + L - t) % L) % L = h := by rcases hL with rfl | rfl <;> omega
    simp [he]

/-- Writing at the head without moving it leaves the queued bytes alone. -/
theorem ringQueued_write_head (buf : Nat → Nat) (h t L c : Nat) (hL : L = 250 ∨ L = 10)
    (hh : h < L) (ht : t < L) :
    ringQueued (fun i => if i = h then c else buf i) h t L = ringQueued buf h t L := by
  unfold ringQueued
  apply List.map_congr_left
  intro k hk
  have hk2 : k < (h + L - t) % L := List.mem_range.1 hk
  have hne : (t + k) % L ≠ h := by rcases hL with rfl | rfl <;> omega
  simp [hne]

/-- A non-empty buffer holds the byte at the tail, then what is left after the
tail advances. -/
theorem ringQueued_pop (buf : Nat → Nat) (h t L : Nat) (hL : L = 250 ∨ L = 10)
    (hh : h < L) (ht : t < L) (hne : h ≠ t) :
    ringQueued buf h t L = buf t :: ringQueued buf h ((t + 1) % L) L := by
  have hq : (h + L - t) % L = (h + L - (t + 1) % L) % L + 1 := by
    rcases hL with rfl | rfl <;> omega
  unfold ringQueued
  rw [hq, List.range_succ_eq_map, List.map_cons, List.map_map]
  congr 1
  · rw [Nat.add_zero, Nat.mod_eq_of_lt ht]
  · apply List.map_congr_left
    intro k _
    have : (t + (k + 1)) % L = ((t + 1) % L + k) % L := by
      rcases hL with rfl | rfl <;> omega
    simp [this]

/-- The buffer is empty exactly when head and tail coincide. -/
theorem ringQueued_eq_nil (buf : Nat → Nat) (h t L : Nat) (hL : L = 250 ∨ L = 10)
    (hh : h < L) (ht : t < L) :
    ringQueued buf h t L = [] ↔ h = t := by
  rw [← List.length_eq_zero, ringQueued_length]
  rcases hL with rfl | rfl <;> omega

/-- The buffer is full (the next head would meet the tail) exactly when it
holds one byte less than its length. -/
theorem ringQueued_full (buf : Nat → Nat) (h t L : Nat) (hL : L = 250 ∨ L = 10)
    (hh : h < L) (ht : t < L) :
    ((h + 1) % L = t ↔ (ringQueued buf h t L).length = L - 1) ∧
    (ringQueued buf h t L).length ≤ L - 1 := by
  rw [ringQueued_length]
  rcases hL with rfl | rfl <;> omega

/-- Reporting an error touches no serial buffer, pointer or register. -/
theorem ReportError_serial (k : eErrorType) (s : World) :
    (ReportError k s).zOutputChars = s.zOutputChars ∧
    (ReportError k s).ptrOutputCharHead = s.ptrOutputCharHead ∧
    (ReportError k s).ptrOutputCharTail = s.ptrOutputCharTail ∧
    (ReportError k s).zInputChars = s.zInputChars ∧
    (ReportError k s).ptrInputCharHead = s.ptrInputCharHead ∧
    (ReportError k s).ptrInputCharTail = s.ptrInputCharTail ∧
    (ReportError k s).UCSR0B = s.UCSR0B ∧
    (ReportError k s).udr0Bytes = s.udr0Bytes := by
  unfold ReportError
  split_ifs <;> simp

/-- The latch after a report. -/
theorem ReportError_latch (k : eErrorType) (s : World) :
    (ReportError k s).SystemError = if s.SystemError = NO_ERROR then k else s.SystemError := by
  unfold ReportError
  split_ifs <;> rfl

/-- The three status checks touch no serial buffer, pointer or register. -/
theorem USART0_RX_statusErrors_serial (status : Nat) (s : World) :
    (USART0_RX_statusErrors status s).zInputChars = s.zInputChars ∧
    (USART0_RX_statusErrors status s).ptrInputCharHead = s.ptrInputCharHead ∧
    (USART0_RX_statusErrors status s).ptrInputCharTail = s.ptrInputCharTail := by
  unfold USART0_RX_statusErrors
  split_ifs <;> simp [ReportError_serial]

/-- The status checks never latch a buffer overflow, and keep a latched error. -/
theorem USART0_RX_statusErrors_latch (status : Nat) (s : World) :
    (s.SystemError ≠ NO_ERROR → (USART0_RX_statusErrors status s).SystemError = s.SystemError) ∧
    (s.SystemError = NO_ERROR →
      (USART0_RX_statusErrors status s).SystemError ≠ SCI_RX_BUFFER_OVERFLOW) ∧
    (status &&& (1 <<< FE0) = 0 → status &&& (1 <<< DOR0) = 0 → status &&& (1 <<< UPE0) = 0 →
      USART0_RX_statusErrors status s = s) := by
  refine ⟨?_, ?_, ?_⟩
  · intro h
    unfold USART0_RX_statusErrors
    split_ifs <;> simp [ReportError_latch, h]
  · intro h
    unfold USART0_RX_statusErrors
    split_ifs <;> simp [ReportError_latch, h]
  · intro h1 h2 h3
    unfold USART0_RX_statusErrors
    simp [h1, h2, h3]

/-! ## Support: the transmit buffer -/

/-- The loop test of the copy loops: there is room while fewer than 249 bytes
are queued. -/
theorem tx_room_iff (s : World) (hh : s.ptrOutputCharHead < 250)
    (ht : s.ptrOutputCharTail < 250) :
    (INC_CIRC_BUFFER_PTR s.ptrOutputCharHead 0 MAX_OUT_STR_SIZE ≠ s.ptrOutputCharTail ↔
      (txQueued s).length < 249) ∧ (txQueued s).length ≤ 249 := by
  have h := ringQueued_full s.zOutputChars _ _ 250 (Or.inl rfl) hh ht
  rw [show MAX_OUT_STR_SIZE = 250 from rfl, INC_CIRC_BUFFER_PTR_mod _ _ hh]
  unfold txQueued
  rw [show MAX_OUT_STR_SIZE = 250 from rfl]
  omega

/-- One copied character is appended to the queued bytes. -/
theorem SCIWriteString_put_spec (c : Nat) (s : World) (hh : s.ptrOutputCharHead < 250)
    (ht : s.ptrOutputCharTail < 250) (hroom : (txQueued s).length < 249) :
    txQueued (SCIWriteString_put c s) = txQueued s ++ [c] ∧
    (SCIWriteString_put c s).ptrOutputCharHead < 250 ∧
    (SCIWriteString_put c s).ptrOutputCharTail = s.ptrOutputCharTail := by
  have hr := (tx_room_iff s hh ht).1.2 hroom
  rw [show MAX_OUT_STR_SIZE = 250 from rfl, INC_CIRC_BUFFER_PTR_mod _ _ hh] at hr
  refine ⟨?_, ?_, rfl⟩
  · unfold txQueued SCIWriteString_put
    simp only [show MAX_OUT_STR_SIZE = 250 from rfl, INC_CIRC_BUFFER_PTR_mod _ _ hh]
    exact ringQueued_push _ _ _ _ c (Or.inl rfl) hh ht hr
  · show INC_CIRC_BUFFER_PTR s.ptrOutputCharHead 0 MAX_OUT_STR_SIZE < 250
    rw [show MAX_OUT_STR_SIZE = 250 from rfl, INC_CIRC_BUFFER_PTR_mod _ _ hh]
    omega

/-- The copy loop stops with the flag clear when the buffer is full. -/
theorem SCIWriteString_loop_full (Str : List Nat) (s : World)
    (hr : ¬ INC_CIRC_BUFFER_PTR s.ptrOutputCharHead 0 MAX_OUT_STR_SIZE ≠ s.ptrOutputCharTail) :
    SCIWriteString_loop Str s = (s, eBooleanType.FALSE) := by
  cases Str <;> rw [SCIWriteString_loop, if_neg hr]

/-- The copy loop stops with the flag set at the terminating NUL. -/
theorem SCIWriteString_loop_nil (s : World)
    (hr : INC_CIRC_BUFFER_PTR s.ptrOutputCharHead 0 MAX_OUT_STR_SIZE ≠ s.ptrOutputCharTail) :
    SCIWriteString_loop [] s = (s, eBooleanType.TRUE) := by
  rw [SCIWriteString_loop, if_pos hr]

/-- The copy loop copies a non-NUL character and goes on. -/
theorem SCIWriteString_loop_cons (c : Nat) (rest : List Nat) (s : World) (hc : c ≠ 0)
    (hr : INC_CIRC_BUFFER_PTR s.ptrOutputCharHead 0 MAX_OUT_STR_SIZE ≠ s.ptrOutputCharTail) :
    SCIWriteString_loop (c :: rest) s = SCIWriteString_loop rest (SCIWriteString_put c s) := by
  rw [SCIWriteString_loop, if_pos hr, if_pos hc]

/-- The copy loop appends the longest prefix that fits, says whether it saw the
terminating NUL, and changes only the buffer and its head. -/
theorem SCIWriteString_loop_spec (Str : List Nat) :
    ∀ s : World, (∀ c ∈ Str, c ≠ 0) → s.ptrOutputCharHead < 250 → s.ptrOutputCharTail < 250 →
    txQueued (SCIWriteString_loop Str s).1 =
      txQueued s ++ Str.take (249 - (txQueued s).length) ∧
    (SCIWriteString_loop Str s).1.ptrOutputCharHead < 250 ∧
    ((SCIWriteString_loop Str s).2 = eBooleanType.TRUE ↔
      Str.length < 249 - (txQueued s).length) ∧
    (SCIWriteString_loop Str s).1 =
      { s with zOutputChars := (SCIWriteString_loop Str s).1.zOutputChars
               ptrOutputCharHead := (SCIWriteString_loop Str s).1.ptrOutputCharHead } := by
  induction Str with
  | nil =>
    intro s _ hh ht
    have hroom := tx_room_iff s hh ht
    by_cases hr : INC_CIRC_BUFFER_PTR s.ptrOutputCharHead 0 MAX_OUT_STR_SIZE ≠ s.ptrOutputCharTail
    · have hlen := hroom.1.1 hr
      rw [SCIWriteString_loop_nil s hr]
      refine ⟨by simp, hh, ⟨fun _ => ?_, fun _ => rfl⟩, rfl⟩
      simp only [List.length_nil]
      omega
    · have hlen : ¬ (txQueued s).length < 249 := fun h => hr (hroom.1.2 h)
      rw [SCIWriteString_loop_full [] s hr]
      refine ⟨by simp, hh, ⟨fun h => absurd (show eBooleanType.FALSE = eBooleanType.TRUE from h) (by decide),
        fun h => ?_⟩, rfl⟩
      simp only [List.length_nil] at h
      omega
  | cons c rest ih =>
    intro s hnz hh ht
    have hroom := tx_room_iff s hh ht
    have hc : c ≠ 0 := hnz c (List.mem_cons_self _ _)
    by_cases hr : INC_CIRC_BUFFER_PTR s.ptrOutputCharHead 0 MAX_OUT_STR_SIZE ≠ s.ptrOutputCharTail
    · have hlen := hroom.1.1 hr
      have hput := SCIWriteString_put_spec c s hh ht hlen
      have hrec := ih (SCIWriteString_put c s) (fun d hd => hnz d (List.mem_cons_of_mem _ hd))
        hput.2.1 (by rw [hput.2.2]; exact ht)
      rw [SCIWriteString_loop_cons c rest s hc hr]
      refine ⟨?_, hrec.2.1, ?_, ?_⟩
      · rw [hrec.1, hput.1, List.length_append, List.length_singleton, List.append_assoc,
          List.singleton_append]
        have h1 : 249 - (txQueued s).length = (249 - ((txQueued s).length + 1)) + 1 := by omega
        rw [h1, List.take_succ_cons]
      · rw [hrec.2.2.1, hput.1, List.length_append, List.length_singleton, List.length_cons]
        omega
      · rw [hrec.2.2.2]
        rfl
    · have hlen : ¬ (txQueued s).length < 249 := fun h => hr (hroom.1.2 h)
      have hz : 249 - (txQueued s).length = 0 := by omega
      rw [SCIWriteString_loop_full _ s hr]
      refine ⟨by simp [hz], hh, ⟨fun h => absurd (show eBooleanType.FALSE = eBooleanType.TRUE from h) (by decide),
        fun h => ?_⟩, rfl⟩
      omega

/-- The queued bytes depend on the buffer and its two pointers only. -/
theorem txQueued_congr (a b : World) (h1 : a.zOutputChars = b.zOutputChars)
    (h2 : a.ptrOutputCharHead = b.ptrOutputCharHead)
    (h3 : a.ptrOutputCharTail = b.ptrOutputCharTail) : txQueued a = txQueued b := by
  unfold txQueued
  rw [h1, h2, h3]

/-- What `SCIWriteString` returns and leaves behind, for a string of non-NUL bytes. -/
theorem SCIWriteString_spec (Str : List Nat) (s : World) (hnz : ∀ c ∈ Str, c ≠ 0)
    (hh : s.ptrOutputCharHead < 250) (ht : s.ptrOutputCharTail < 250) :
    txQueued (SCIWriteString Str s).2 = txQueued s ++ Str.take (249 - (txQueued s).length) ∧
    (SCIWriteString Str s).2.ptrOutputCharHead < 250 ∧
    (SCIWriteString Str s).2.ptrOutputCharTail = s.ptrOutputCharTail ∧
    (SCIWriteString Str s).2.udr0Bytes = s.udr0Bytes ∧
    (SCIWriteString Str s).2.UCSR0B = SET_BIT s.UCSR0B UDRIE0 ∧
    (Str.length < 249 - (txQueued s).length →
      (SCIWriteString Str s).1 = 0 ∧ (SCIWriteString Str s).2.SystemError = s.SystemError) ∧
    (249 - (txQueued s).length ≤ Str.length →
      (SCIWriteString Str s).1 = -1 ∧
      (SCIWriteString Str s).2.SystemError =
        (if s.SystemError = NO_ERROR then SCI_TX_BUFFER_OVERFLOW else s.SystemError)) := by
  have hl := SCIWriteString_loop_spec Str s hnz hh ht
  have hframe := hl.2.2.2
  have hq1 : ∀ w : World, w.zOutputChars = (SCIWriteString_loop Str s).1.zOutputChars →
      w.ptrOutputCharHead = (SCIWriteString_loop Str s).1.ptrOutputCharHead →
      w.ptrOutputCharTail = (SCIWriteString_loop Str s).1.ptrOutputCharTail →
      txQueued w = txQueued s ++ Str.take (249 - (txQueued s).length) :=
    fun w a b c => (txQueued_congr _ _ a b c).trans hl.1
  have htail : (SCIWriteString_loop Str s).1.ptrOutputCharTail = s.ptrOutputCharTail := by
    rw [hframe]
  have herr : (SCIWriteString_loop Str s).1.SystemError = s.SystemError := by rw [hframe]
  have hudr : (SCIWriteString_loop Str s).1.udr0Bytes = s.udr0Bytes := by rw [hframe]
  have hucsr : (SCIWriteString_loop Str s).1.UCSR0B = s.UCSR0B := by rw [hframe]
  by_cases hc : (SCIWriteString_loop Str s).2 = eBooleanType.FALSE
  · have hnot : ¬ Str.length < 249 - (txQueued s).length := by
      intro h
      have := hl.2.2.1.2 h
      rw [hc] at this
      exact absurd this (by decide)
    have hS : SCIWriteString Str s = (-1, ReportError SCI_TX_BUFFER_OVERFLOW
        { (SCIWriteString_loop Str s).1 with
          UCSR0B := SET_BIT (SCIWriteString_loop Str s).1.UCSR0B UDRIE0 }) := by
      unfold SCIWriteString
      simp only [hc, if_true]
    have hR := ReportError_serial SCI_TX_BUFFER_OVERFLOW
        { (SCIWriteString_loop Str s).1 with
          UCSR0B := SET_BIT (SCIWriteString_loop Str s).1.UCSR0B UDRIE0 }
    rw [hS]
    refine ⟨hq1 _ hR.1 hR.2.1 hR.2.2.1, ?_, ?_, ?_, ?_, fun h => absurd h hnot, fun _ => ⟨rfl, ?_⟩⟩
    · show (ReportError _ _).ptrOutputCharHead < 250
      rw [hR.2.1]; exact hl.2.1
    · show (ReportError _ _).ptrOutputCharTail = _
      rw [hR.2.2.1]; exact htail
    · show (ReportError _ _).udr0Bytes = _
      rw [hR.2.2.2.2.2.2.2]; exact hudr
    · show (ReportError _ _).UCSR0B = _
      rw [hR.2.2.2.2.2.2.1]
      show SET_BIT (SCIWriteString_loop Str s).1.UCSR0B UDRIE0 = _
      rw [hucsr]
    · show (ReportError _ _).SystemError = _
      rw [ReportError_latch]
      show (if (SCIWriteString_loop Str s).1.SystemError = NO_ERROR then _
        else (SCIWriteString_loop Str s).1.SystemError) = _
      rw [herr]
  · have hT : (SCIWriteString_loop Str s).2 = eBooleanType.TRUE := by
      cases h : (SCIWriteString_loop Str s).2
      · exact absurd h hc
      · rfl
    have hlt : Str.length < 249 - (txQueued s).length := hl.2.2.1.1 hT
    have hS : SCIWriteString Str s = (0,
        { (SCIWriteString_loop Str s).1 with
          UCSR0B := SET_BIT (SCIWriteString_loop Str s).1.UCSR0B UDRIE0 }) := by
      unfold SCIWriteString
      simp only [hc, if_false]
    rw [hS]
    refine ⟨hq1 _ rfl rfl rfl, hl.2.1, htail, hudr, ?_, fun _ => ⟨rfl, herr⟩,
      fun h => absurd hlt (by omega)⟩
    show SET_BIT (SCIWriteString_loop Str s).1.UCSR0B UDRIE0 = _
    rw [hucsr]

/-- Clearing the bit UDRIE0 leaves it clear. -/
theorem CLEAR_BIT_UDRIE0 (p : Nat) : (CLEAR_BIT p UDRIE0).testBit UDRIE0 = false := by
  unfold CLEAR_BIT
  rw [Nat.testBit_and]
  have : (255 - (1 <<< UDRIE0)).testBit UDRIE0 = false := by decide
  rw [this, Bool.and_false]

/-- Setting the bit UDRIE0 leaves it set. -/
theorem SET_BIT_UDRIE0 (p : Nat) : (SET_BIT p UDRIE0).testBit UDRIE0 = true := by
  unfold SET_BIT
  rw [show (256 : Nat) = 2 ^ 8 from rfl, Nat.testBit_mod_two_pow, Nat.testBit_or]
  have h1 : (1 <<< UDRIE0).testBit UDRIE0 = true := by decide
  have h2 : decide (UDRIE0 < 8) = true := by decide
  rw [h1, h2]
  simp

/-- One invocation of the transmit handler on a non-empty buffer sends the
oldest byte and re-arms itself exactly when bytes remain. -/
theorem ISR_USART0_UDRE_spec (s : World) (hh : s.ptrOutputCharHead < 250)
    (ht : s.ptrOutputCharTail < 250) (b : Nat) (rest : List Nat)
    (hq : txQueued s = b :: rest) :
    (ISR_USART0_UDRE_vect s).udr0Bytes = s.udr0Bytes ++ [b] ∧
    txQueued (ISR_USART0_UDRE_vect s) = rest ∧
    (ISR_USART0_UDRE_vect s).ptrOutputCharHead = s.ptrOutputCharHead ∧
    (ISR_USART0_UDRE_vect s).ptrOutputCharTail < 250 ∧
    ((ISR_USART0_UDRE_vect s).UCSR0B.testBit UDRIE0 = true ↔ rest ≠ []) := by
  have hne : s.ptrOutputCharHead ≠ s.ptrOutputCharTail := by
    intro h
    have h0 := (ringQueued_eq_nil s.zOutputChars _ _ 250 (Or.inl rfl) hh ht).2 h
    have hq2 : ringQueued s.zOutputChars s.ptrOutputCharHead s.ptrOutputCharTail 250
        = b :: rest := hq
    rw [h0] at hq2
    exact List.noConfusion hq2
  have hpop := ringQueued_pop s.zOutputChars _ _ 250 (Or.inl rfl) hh ht hne
  have hq2 : ringQueued s.zOutputChars s.ptrOutputCharHead s.ptrOutputCharTail 250
      = b :: rest := hq
  rw [hpop] at hq2
  have hb : s.zOutputChars s.ptrOutputCharTail = b := (List.cons.inj hq2).1
  have hrest : ringQueued s.zOutputChars s.ptrOutputCharHead
      ((s.ptrOutputCharTail + 1) % 250) 250 = rest := (List.cons.inj hq2).2
  have hinc : INC_CIRC_BUFFER_PTR s.ptrOutputCharTail 0 MAX_OUT_STR_SIZE
      = (s.ptrOutputCharTail + 1) % 250 := INC_CIRC_BUFFER_PTR_mod _ 250 ht
  have ht2 : (s.ptrOutputCharTail + 1) % 250 < 250 := Nat.mod_lt _ (by decide)
  have hnil := ringQueued_eq_nil s.zOutputChars s.ptrOutputCharHead
    ((s.ptrOutputCharTail + 1) % 250) 250 (Or.inl rfl) hh ht2
  rw [hrest] at hnil
  by_cases hc : (s.ptrOutputCharTail + 1) % 250 ≠ s.ptrOutputCharHead
  · have hS : ISR_USART0_UDRE_vect s =
        { s with UCSR0B := SET_BIT (CLEAR_BIT s.UCSR0B UDRIE0) UDRIE0
                 ptrOutputCharTail := (s.ptrOutputCharTail + 1) % 250
                 udr0Bytes := s.udr0Bytes ++ [b] } := by
      unfold ISR_USART0_UDRE_vect
      simp only [hinc, hb, hc, if_true, ne_eq, not_false_eq_true]
    rw [hS]
    refine ⟨rfl, hrest, rfl, ht2, ?_⟩
    show (SET_BIT (CLEAR_BIT s.UCSR0B UDRIE0) UDRIE0).testBit UDRIE0 = true ↔ rest ≠ []
    rw [SET_BIT_UDRIE0]
    exact ⟨fun _ h => hc (hnil.1 h).symm, fun _ => rfl⟩
  · have hS : ISR_USART0_UDRE_vect s =
        { s with UCSR0B := CLEAR_BIT s.UCSR0B UDRIE0
                 ptrOutputCharTail := (s.ptrOutputCharTail + 1) % 250
                 udr0Bytes := s.udr0Bytes ++ [b] } := by
      unfold ISR_USART0_UDRE_vect
      simp only [hinc, hb, hc, if_false]
    have heq : s.ptrOutputCharHead = (s.ptrOutputCharTail + 1) % 250 := by
      by_contra h
      exact hc (fun h2 => h h2.symm)
    rw [hS]
    refine ⟨rfl, hrest, rfl, ht2, ?_⟩
    show (CLEAR_BIT s.UCSR0B UDRIE0).testBit UDRIE0 = true ↔ rest ≠ []
    rw [CLEAR_BIT_UDRIE0]
    exact ⟨fun h => absurd h (by decide), fun h => absurd (hnil.2 heq) h⟩

/-- As many invocations of the transmit handler as bytes are queued send the
queued bytes in order, leave the buffer empty, keep the interrupt armed
until the last byte and leave it disarmed after it. -/
theorem ISR_USART0_UDRE_drain (l : List Nat) :
    ∀ s : World, s.ptrOutputCharHead < 250 → s.ptrOutputCharTail < 250 → txQueued s = l →
    (ISR_USART0_UDRE_vect^[l.length] s).udr0Bytes = s.udr0Bytes ++ l ∧
    (ISR_USART0_UDRE_vect^[l.length] s).ptrOutputCharTail =
      (ISR_USART0_UDRE_vect^[l.length] s).ptrOutputCharHead ∧
    (ISR_USART0_UDRE_vect^[l.length] s).ptrOutputCharHead = s.ptrOutputCharHead ∧
    (1 ≤ l.length → (ISR_USART0_UDRE_vect^[l.length] s).UCSR0B.testBit UDRIE0 = false) ∧
    (∀ k, 1 ≤ k → k < l.length → (ISR_USART0_UDRE_vect^[k] s).UCSR0B.testBit UDRIE0 = true) := by
  induction l with
  | nil =>
    intro s hh ht hq
    have h0 := (ringQueued_eq_nil s.zOutputChars _ _ 250 (Or.inl rfl) hh ht).1 hq
    refine ⟨by simp, h0.symm, rfl, fun h => absurd h (by decide), fun k _ hk => ?_⟩
    exact absurd hk (Nat.not_lt_zero k)
  | cons b rest ih =>
    intro s hh ht hq
    have h1 := ISR_USART0_UDRE_spec s hh ht b rest hq
    have h2 := ih (ISR_USART0_UDRE_vect s) (by rw [h1.2.2.1]; exact hh) h1.2.2.2.1 h1.2.1
    simp only [List.length_cons, Function.iterate_succ_apply]
    refine ⟨?_, h2.2.1, ?_, fun _ => ?_, fun k hk1 hk2 => ?_⟩
    · rw [h2.1, h1.1, List.append_assoc, List.singleton_append]
    · rw [h2.2.2.1, h1.2.2.1]
    · by_cases hr : 1 ≤ rest.length
      · exact h2.2.2.2.1 hr
      · have hnil : rest = [] := List.length_eq_zero.1 (by omega)
        subst hnil
        have hb := h1.2.2.2.2
        simp only [List.length_nil, Function.iterate_zero, id_eq]
        cases hbit : (ISR_USART0_UDRE_vect s).UCSR0B.testBit UDRIE0
        · rfl
        · exact absurd rfl (hb.1 hbit)
    · obtain ⟨j, rfl⟩ : ∃ j, k = j + 1 := ⟨k - 1, by omega⟩
      rw [Function.iterate_succ_apply]
      by_cases hj : 1 ≤ j
      · exact h2.2.2.2.2 j hj (by omega)
      · have hj0 : j = 0 := by omega
        subst hj0
        simp only [Function.iterate_zero, id_eq]
        apply h1.2.2.2.2.2
        intro hnil
        rw [hnil] at hk2
        simp at hk2

/-! ## The transmit buffer -/

/-- C16: TX enqueue accepts a prefix.  For every transmit buffer state (both
pointers inside the 250-byte array, so q ≤ 249 bytes queued) and every string
of n non-NUL bytes followed by its NUL, SCIWriteString appends exactly the
first min(n, 249 - q) bytes of the string, in order, after the bytes already
queued; those bytes and the tail pointer are unchanged. -/
theorem C16_tx_enqueue_prefix (s : World) (Str : List Nat)
    (hh : s.ptrOutputCharHead < 250) (ht : s.ptrOutputCharTail < 250)
    (hnz : ∀ c ∈ Str, c ≠ 0) :
    (txQueued s).length ≤ 249 ∧
    txQueued (SCIWriteString Str s).2 =
      txQueued s ++ Str.take (min Str.length (249 - (txQueued s).length)) ∧
    (SCIWriteString Str s).2.ptrOutputCharTail = s.ptrOutputCharTail ∧
    (SCIWriteString Str s).2.ptrOutputCharHead < 250 := by
  have h := SCIWriteString_spec Str s hnz hh ht
  refine ⟨(tx_room_iff s hh ht).2, ?_, h.2.2.1, h.2.1⟩
  rw [h.1]
  congr 1
  by_cases hc : Str.length ≤ 249 - (txQueued s).length
  · rw [Nat.min_eq_left hc, List.take_of_length_le hc, List.take_of_length_le (le_refl _)]
  · rw [Nat.min_eq_right (by omega)]

/-- C16 at the power-on state with the prompt string: the five characters are
queued and the tail stays at 0. -/
theorem C16_tx_enqueue_prefix_witness :
    txQueued (SCIWriteString promptString initWorld).2 = [99, 109, 100, 62, 32] ∧
    (SCIWriteString promptString initWorld).2.ptrOutputCharTail = 0 := by
  have h := C16_tx_enqueue_prefix initWorld promptString (by decide) (by decide) (by decide)
  exact ⟨h.2.1.trans (by decide), h.2.2.1⟩

/-- C17: evaluation of SCIWriteString at the failing input.  For every transmit
buffer state holding q bytes and every string of n non-NUL bytes, the call
returns 0 (with the error latch untouched) iff n < 249 - q and returns -1
(after ReportError(SCI_TX_BUFFER_OVERFLOW)) iff n ≥ 249 - q; so a string that
fits exactly, n = 249 - q, is copied whole and still reported as an overflow.
From the empty buffer of the power-on state 248 bytes return 0, and 249
bytes are all queued yet return -1 with SCI_TX_BUFFER_OVERFLOW latched. -/
theorem C17_exact_fit_reported_as_overflow :
    (∀ (s : World) (Str : List Nat), s.ptrOutputCharHead < 250 → s.ptrOutputCharTail < 250 →
      (∀ c ∈ Str, c ≠ 0) →
      ((SCIWriteString Str s).1 = 0 ↔ Str.length < 249 - (txQueued s).length) ∧
      ((SCIWriteString Str s).1 = -1 ↔ 249 - (txQueued s).length ≤ Str.length) ∧
      ((SCIWriteString Str s).1 = 0 → (SCIWriteString Str s).2.SystemError = s.SystemError) ∧
      ((SCIWriteString Str s).1 = -1 → (SCIWriteString Str s).2.SystemError =
        (if s.SystemError = NO_ERROR then SCI_TX_BUFFER_OVERFLOW else s.SystemError)) ∧
      (Str.length = 249 - (txQueued s).length →
        (SCIWriteString Str s).1 = -1 ∧
        txQueued (SCIWriteString Str s).2 = txQueued s ++ Str)) ∧
    (SCIWriteString (List.replicate 248 65) initWorld).1 = 0 ∧
    (SCIWriteString (List.replicate 249 65) initWorld).1 = -1 ∧
    txQueued (SCIWriteString (List.replicate 249 65) initWorld).2 = List.replicate 249 65 ∧
    (SCIWriteString (List.replicate 249 65) initWorld).2.SystemError
      = SCI_TX_BUFFER_OVERFLOW := by
  have gen : ∀ (s : World) (Str : List Nat), s.ptrOutputCharHead < 250 →
      s.ptrOutputCharTail < 250 → (∀ c ∈ Str, c ≠ 0) →
      ((SCIWriteString Str s).1 = 0 ↔ Str.length < 249 - (txQueued s).length) ∧
      ((SCIWriteString Str s).1 = -1 ↔ 249 - (txQueued s).length ≤ Str.length) ∧
      ((SCIWriteString Str s).1 = 0 → (SCIWriteString Str s).2.SystemError = s.SystemError) ∧
      ((SCIWriteString Str s).1 = -1 → (SCIWriteString Str s).2.SystemError =
        (if s.SystemError = NO_ERROR then SCI_TX_BUFFER_OVERFLOW else s.SystemError)) ∧
      (Str.length = 249 - (txQueued s).length →
        (SCIWriteString Str s).1 = -1 ∧
        txQueued (SCIWriteString Str s).2 = txQueued s ++ Str) := by
    intro s Str hh ht hnz
    have h := SCIWriteString_spec Str s hnz hh ht
    have hok := h.2.2.2.2.2.1
    have hov := h.2.2.2.2.2.2
    by_cases hc : Str.length < 249 - (txQueued s).length
    · have h0 := hok hc
      refine ⟨⟨fun _ => hc, fun _ => h0.1⟩, ⟨fun h1 => ?_, fun h1 => absurd hc (by omega)⟩,
        fun _ => h0.2, fun h1 => ?_, fun h1 => absurd hc (by omega)⟩
      · rw [h0.1] at h1
        exact absurd h1 (by decide)
      · rw [h0.1] at h1
        exact absurd h1 (by decide)
    · have h1 := hov (by omega)
      refine ⟨⟨fun h2 => ?_, fun h2 => absurd h2 hc⟩, ⟨fun _ => by omega, fun _ => h1.1⟩,
        fun h2 => ?_, fun _ => h1.2, fun h2 => ⟨h1.1, ?_⟩⟩
      · rw [h1.1] at h2
        exact absurd h2 (by decide)
      · rw [h1.1] at h2
        exact absurd h2 (by decide)
      · rw [h.1, List.take_of_length_le (by omega)]
  have hnz : ∀ n, ∀ c ∈ List.replicate n 65, c ≠ 0 := by
    intro n c hc
    rw [List.eq_of_mem_replicate hc]
    decide
  have hq0 : txQueued initWorld = [] := by decide
  have g248 := gen initWorld (List.replicate 248 65) (by decide) (by decide) (hnz 248)
  have g249 := gen initWorld (List.replicate 249 65) (by decide) (by decide) (hnz 249)
  rw [hq0] at g248 g249
  simp only [List.length_replicate, List.length_nil, List.nil_append] at g248 g249
  have r249 := g249.2.1.2 (by decide)
  refine ⟨gen, g248.1.2 (by decide), r249, (g249.2.2.2.2 (by decide)).2, ?_⟩
  exact (g249.2.2.2.1 r249).trans (by decide)

/-- C18, as stated, fails for the empty string: SCIWriteString sets UDRIE0 on
every call, so after enqueuing zero bytes into the empty buffer of the
power-on state, and the zero handler invocations that follow, the buffer is
empty but the transmit interrupt is armed. -/
theorem C18_empty_string_leaves_interrupt_armed :
    (SCIWriteString [] initWorld).1 = 0 ∧
    (ISR_USART0_UDRE_vect^[0] (SCIWriteString [] initWorld).2).ptrOutputCharTail =
      (ISR_USART0_UDRE_vect^[0] (SCIWriteString [] initWorld).2).ptrOutputCharHead ∧
    (ISR_USART0_UDRE_vect^[0] (SCIWriteString [] initWorld).2).UCSR0B.testBit UDRIE0 = true ∧
    ¬ (∀ (s : World) (Str : List Nat),
        s.ptrOutputCharHead = s.ptrOutputCharTail → s.ptrOutputCharHead < 250 →
        (∀ c ∈ Str, c ≠ 0) → Str.length < 249 →
        (SCIWriteString Str s).1 = 0 ∧
        (ISR_USART0_UDRE_vect^[Str.length] (SCIWriteString Str s).2).udr0Bytes =
          s.udr0Bytes ++ Str ∧
        (ISR_USART0_UDRE_vect^[Str.length] (SCIWriteString Str s).2).ptrOutputCharTail =
          (ISR_USART0_UDRE_vect^[Str.length] (SCIWriteString Str s).2).ptrOutputCharHead ∧
        (ISR_USART0_UDRE_vect^[Str.length] (SCIWriteString Str s).2).UCSR0B.testBit UDRIE0
          = false) := by
  have hbit : (ISR_USART0_UDRE_vect^[0] (SCIWriteString [] initWorld).2).UCSR0B.testBit UDRIE0
      = true := by decide
  refine ⟨by decide, by decide, hbit, fun hall => ?_⟩
  have h := (hall initWorld [] rfl (by decide) (by decide) (by decide)).2.2.2
  have h2 : (ISR_USART0_UDRE_vect^[0] (SCIWriteString [] initWorld).2).UCSR0B.testBit UDRIE0
      = false := h
  rw [hbit] at h2
  exact absurd h2 (by decide)

/-- C18, amended: TX FIFO round trip.  For every string of n non-NUL bytes with
n < 249, enqueuing it into an empty transmit buffer with SCIWriteString
returns 0 and latches no error, and n successive invocations of the
USART0_UDRE handler then write exactly its bytes to UDR0, in order; after
them tail = head (buffer empty).  For n ≥ 1 the handler keeps UDRIE0 set
until the last byte and leaves it clear after the n-th invocation; for the
empty string no invocation follows and UDRIE0 is as SCIWriteString left it,
set. -/
theorem C18_tx_round_trip (s : World) (Str : List Nat)
    (hempty : s.ptrOutputCharHead = s.ptrOutputCharTail) (hh : s.ptrOutputCharHead < 250)
    (hnz : ∀ c ∈ Str, c ≠ 0) (hn : Str.length < 249) :
    (SCIWriteString Str s).1 = 0 ∧
    (SCIWriteString Str s).2.SystemError = s.SystemError ∧
    (ISR_USART0_UDRE_vect^[Str.length] (SCIWriteString Str s).2).udr0Bytes =
      s.udr0Bytes ++ Str ∧
    (ISR_USART0_UDRE_vect^[Str.length] (SCIWriteString Str s).2).ptrOutputCharTail =
      (ISR_USART0_UDRE_vect^[Str.length] (SCIWriteString Str s).2).ptrOutputCharHead ∧
    (1 ≤ Str.length →
      (ISR_USART0_UDRE_vect^[Str.length] (SCIWriteString Str s).2).UCSR0B.testBit UDRIE0
        = false) ∧
    (∀ k, 1 ≤ k → k < Str.length →
      (ISR_USART0_UDRE_vect^[k] (SCIWriteString Str s).2).UCSR0B.testBit UDRIE0 = true) ∧
    (Str = [] → (SCIWriteString Str s).2.UCSR0B.testBit UDRIE0 = true) := by
  have ht : s.ptrOutputCharTail < 250 := by rw [← hempty]; exact hh
  have hq0 : txQueued s = [] :=
    (ringQueued_eq_nil s.zOutputChars _ _ 250 (Or.inl rfl) hh ht).2 hempty
  have h := SCIWriteString_spec Str s hnz hh ht
  rw [hq0] at h
  simp only [List.length_nil, List.nil_append, Nat.sub_zero] at h
  have hq : txQueued (SCIWriteString Str s).2 = Str := by
    rw [h.1, List.take_of_length_le (by omega)]
  have hok := h.2.2.2.2.2.1 hn
  have hd := ISR_USART0_UDRE_drain Str (SCIWriteString Str s).2 h.2.1
    (by rw [h.2.2.1]; exact ht) hq
  refine ⟨hok.1, hok.2, ?_, hd.2.1, hd.2.2.2.1, hd.2.2.2.2, fun _ => ?_⟩
  · rw [hd.1, h.2.2.2.1]
  · rw [h.2.2.2.2.1]
    exact SET_BIT_UDRIE0 _

/-- C18 amended, at the power-on state with the prompt string: five handler
invocations send c, m, d, >, space in that order and leave the buffer empty
with UDRIE0 clear. -/
theorem C18_tx_round_trip_witness :
    (SCIWriteString promptString initWorld).1 = 0 ∧
    (ISR_USART0_UDRE_vect^[5] (SCIWriteString promptString initWorld).2).udr0Bytes =
      [99, 109, 100, 62, 32] ∧
    (ISR_USART0_UDRE_vect^[5] (SCIWriteString promptString initWorld).2).ptrOutputCharTail =
      (ISR_USART0_UDRE_vect^[5] (SCIWriteString promptString initWorld).2).ptrOutputCharHead ∧
    (ISR_USART0_UDRE_vect^[5] (SCIWriteString promptString initWorld).2).UCSR0B.testBit UDRIE0
      = false := by
  have h := C18_tx_round_trip initWorld promptString rfl (by decide) (by decide) (by decide)
  exact ⟨h.1, h.2.2.1, h.2.2.2.1, h.2.2.2.2.1 (by decide)⟩

/-! ## Support: the receive buffer -/

/-- The queued bytes depend on the buffer and its two pointers only. -/
theorem rxQueued_congr (a b : World) (h1 : a.zInputChars = b.zInputChars)
    (h2 : a.ptrInputCharHead = b.ptrInputCharHead)
    (h3 : a.ptrInputCharTail = b.ptrInputCharTail) : rxQueued a = rxQueued b := by
  unfold rxQueued
  rw [h1, h2, h3]

/-- The receive buffer is full (the next head would meet the tail) exactly when
nine bytes are queued. -/
theorem rx_full_iff (s : World) (hh : s.ptrInputCharHead < 10) (ht : s.ptrInputCharTail < 10) :
    (INC_CIRC_BUFFER_PTR s.ptrInputCharHead 0 MAX_IN_STR_SIZE = s.ptrInputCharTail ↔
      (rxQueued s).length = 9) ∧ (rxQueued s).length ≤ 9 := by
  have h := ringQueued_full s.zInputChars _ _ 10 (Or.inr rfl) hh ht
  rw [show MAX_IN_STR_SIZE = 10 from rfl, INC_CIRC_BUFFER_PTR_mod _ _ hh]
  unfold rxQueued
  rw [show MAX_IN_STR_SIZE = 10 from rfl]
  omega

/-- The latch after the status checks, against the latch before them. -/
theorem USART0_RX_statusErrors_overflow (status : Nat) (s : World)
    (h : (USART0_RX_statusErrors status s).SystemError = SCI_RX_BUFFER_OVERFLOW) :
    s.SystemError = SCI_RX_BUFFER_OVERFLOW := by
  have hl := USART0_RX_statusErrors_latch status s
  by_cases h0 : s.SystemError = NO_ERROR
  · exact absurd h (hl.2.1 h0)
  · rw [← hl.1 h0]; exact h

/-- The receive handler on a buffer that is not full: the byte is stored and
no overflow is reported. -/
theorem ISR_USART0_RX_room (status data : Nat) (s : World) (hh : s.ptrInputCharHead < 10)
    (ht : s.ptrInputCharTail < 10) (hroom : (rxQueued s).length < 9) :
    ISR_USART0_RX_vect status data s =
      USART0_RX_statusErrors (status % 256)
        { s with
          zInputChars := fun i => if i = s.ptrInputCharHead then data else s.zInputChars i
          ptrInputCharHead := INC_CIRC_BUFFER_PTR s.ptrInputCharHead 0 MAX_IN_STR_SIZE } ∧
    rxQueued (ISR_USART0_RX_vect status data s) = rxQueued s ++ [data] ∧
    (ISR_USART0_RX_vect status data s).ptrInputCharHead < 10 ∧
    (ISR_USART0_RX_vect status data s).ptrInputCharTail = s.ptrInputCharTail ∧
    ((ISR_USART0_RX_vect status data s).SystemError = SCI_RX_BUFFER_OVERFLOW →
      s.SystemError = SCI_RX_BUFFER_OVERFLOW) := by
  have hfull := rx_full_iff s hh ht
  have hne : ¬ INC_CIRC_BUFFER_PTR s.ptrInputCharHead 0 MAX_IN_STR_SIZE = s.ptrInputCharTail :=
    fun h => by have := hfull.1.1 h; omega
  have hS : ISR_USART0_RX_vect status data s =
      USART0_RX_statusErrors (status % 256)
        { s with
          zInputChars := fun i => if i = s.ptrInputCharHead then data else s.zInputChars i
          ptrInputCharHead := INC_CIRC_BUFFER_PTR s.ptrInputCharHead 0 MAX_IN_STR_SIZE } := by
    unfold ISR_USART0_RX_vect
    simp only [hne, if_false]
  have hser := USART0_RX_statusErrors_serial (status % 256)
        { s with
          zInputChars := fun i => if i = s.ptrInputCharHead then data else s.zInputChars i
          ptrInputCharHead := INC_CIRC_BUFFER_PTR s.ptrInputCharHead 0 MAX_IN_STR_SIZE }
  have hinc : INC_CIRC_BUFFER_PTR s.ptrInputCharHead 0 MAX_IN_STR_SIZE
      = (s.ptrInputCharHead + 1) % 10 := INC_CIRC_BUFFER_PTR_mod _ 10 hh
  rw [hinc] at hne
  refine ⟨hS, ?_, ?_, ?_, ?_⟩
  · rw [hS, rxQueued_congr _ _ hser.1 hser.2.1 hser.2.2]
    unfold rxQueued
    simp only [show MAX_IN_STR_SIZE = 10 from rfl, INC_CIRC_BUFFER_PTR_mod _ _ hh]
    exact ringQueued_push _ _ _ _ data (Or.inr rfl) hh ht hne
  · rw [hS, hser.2.1]
    show INC_CIRC_BUFFER_PTR s.ptrInputCharHead 0 MAX_IN_STR_SIZE < 10
    rw [hinc]
    exact Nat.mod_lt _ (by decide)
  · rw [hS, hser.2.2]
  · intro h
    rw [hS] at h
    have h2 := USART0_RX_statusErrors_overflow _ _ h
    exact h2

/-- The receive handler on a full buffer: the byte is dropped and the overflow
reported. -/
theorem ISR_USART0_RX_full (status data : Nat) (s : World) (hh : s.ptrInputCharHead < 10)
    (ht : s.ptrInputCharTail < 10) (hfull9 : (rxQueued s).length = 9) :
    ISR_USART0_RX_vect status data s =
      USART0_RX_statusErrors (status % 256)
        (ReportError SCI_RX_BUFFER_OVERFLOW
          { s with
            zInputChars :=
              fun i => if i = s.ptrInputCharHead then data else s.zInputChars i }) ∧
    rxQueued (ISR_USART0_RX_vect status data s) = rxQueued s ∧
    (ISR_USART0_RX_vect status data s).ptrInputCharHead = s.ptrInputCharHead ∧
    (ISR_USART0_RX_vect status data s).ptrInputCharTail = s.ptrInputCharTail ∧
    (s.SystemError = NO_ERROR →
      (ISR_USART0_RX_vect status data s).SystemError = SCI_RX_BUFFER_OVERFLOW) := by
  have hfull := rx_full_iff s hh ht
  have heq : INC_CIRC_BUFFER_PTR s.ptrInputCharHead 0 MAX_IN_STR_SIZE = s.ptrInputCharTail :=
    hfull.1.2 hfull9
  have hS : ISR_USART0_RX_vect status data s =
      USART0_RX_statusErrors (status % 256)
        (ReportError SCI_RX_BUFFER_OVERFLOW
          { s with
            zInputChars :=
              fun i => if i = s.ptrInputCharHead then data else s.zInputChars i }) := by
    unfold ISR_USART0_RX_vect
    simp only [heq, if_true]
  have hser := USART0_RX_statusErrors_serial (status % 256)
        (ReportError SCI_RX_BUFFER_OVERFLOW
          { s with
            zInputChars :=
              fun i => if i = s.ptrInputCharHead then data else s.zInputChars i })
  have hrep := ReportError_serial SCI_RX_BUFFER_OVERFLOW
          { s with
            zInputChars :=
              fun i => if i = s.ptrInputCharHead then data else s.zInputChars i }
  refine ⟨hS, ?_, ?_, ?_, ?_⟩
  · rw [hS, rxQueued_congr _ _ hser.1 hser.2.1 hser.2.2,
      rxQueued_congr _ _ hrep.2.2.2.1 hrep.2.2.2.2.1 hrep.2.2.2.2.2.1]
    unfold rxQueued
    exact ringQueued_write_head _ _ _ _ data (Or.inr rfl) hh ht
  · rw [hS, hser.2.1, hrep.2.2.2.2.1]
  · rw [hS, hser.2.2, hrep.2.2.2.2.2.1]
  · intro h0
    have hl : (ReportError SCI_RX_BUFFER_OVERFLOW
          { s with
            zInputChars :=
              fun i => if i = s.ptrInputCharHead then data else s.zInputChars i }).SystemError
        = SCI_RX_BUFFER_OVERFLOW := by
      rw [ReportError_latch]
      show (if s.SystemError = NO_ERROR then SCI_RX_BUFFER_OVERFLOW else s.SystemError) = _
      rw [if_pos h0]
    rw [hS, (USART0_RX_statusErrors_latch _ _).1 (by rw [hl]; decide), hl]

/-- Receptions that fit are all stored, in order, and report no overflow. -/
theorem receiveAll_spec (rx : List (Nat × Nat)) :
    ∀ s : World, s.ptrInputCharHead < 10 → s.ptrInputCharTail < 10 →
    (rxQueued s).length + rx.length ≤ 9 →
    rxQueued (receiveAll rx s) = rxQueued s ++ rx.map Prod.snd ∧
    (receiveAll rx s).ptrInputCharHead < 10 ∧
    (receiveAll rx s).ptrInputCharTail = s.ptrInputCharTail ∧
    ((receiveAll rx s).SystemError = SCI_RX_BUFFER_OVERFLOW →
      s.SystemError = SCI_RX_BUFFER_OVERFLOW) := by
  induction rx with
  | nil =>
    intro s hh _ _
    exact ⟨by simp [receiveAll], hh, rfl, fun h => h⟩
  | cons r rest ih =>
    intro s hh ht hlen
    simp only [List.length_cons] at hlen
    have h1 := ISR_USART0_RX_room r.1 r.2 s hh ht (by omega)
    have h2 := ih (ISR_USART0_RX_vect r.1 r.2 s) h1.2.2.1 (by rw [h1.2.2.2.1]; exact ht)
      (by rw [h1.2.1, List.length_append, List.length_singleton]; omega)
    have hunf : receiveAll (r :: rest) s = receiveAll rest (ISR_USART0_RX_vect r.1 r.2 s) := rfl
    rw [hunf]
    refine ⟨?_, h2.2.1, ?_, fun h => h1.2.2.2.2 (h2.2.2.2 h)⟩
    · rw [h2.1, h1.2.1, List.map_cons, List.append_assoc, List.singleton_append]
    · rw [h2.2.2.1, h1.2.2.2.1]

/-- A read from a non-empty buffer returns the oldest byte and removes it. -/
theorem SCIReadChar_nonempty (s : World) (hh : s.ptrInputCharHead < 10)
    (ht : s.ptrInputCharTail < 10) (hne : s.ptrInputCharHead ≠ s.ptrInputCharTail) :
    rxQueued s = (SCIReadChar s).1 :: rxQueued (SCIReadChar s).2 ∧
    (SCIReadChar s).2.ptrInputCharHead = s.ptrInputCharHead ∧
    (SCIReadChar s).2.ptrInputCharTail < 10 := by
  have hinc : INC_CIRC_BUFFER_PTR s.ptrInputCharTail 0 MAX_IN_STR_SIZE
      = (s.ptrInputCharTail + 1) % 10 := INC_CIRC_BUFFER_PTR_mod _ 10 ht
  have hS : SCIReadChar s = (s.zInputChars s.ptrInputCharTail,
      { s with ptrInputCharTail := (s.ptrInputCharTail + 1) % 10 }) := by
    unfold SCIReadChar
    rw [if_pos hne, hinc]
  rw [hS]
  refine ⟨?_, rfl, Nat.mod_lt _ (by decide)⟩
  unfold rxQueued
  exact ringQueued_pop s.zInputChars _ _ 10 (Or.inr rfl) hh ht hne

/-- A read from an empty buffer returns 0 and changes nothing. -/
theorem SCIReadChar_empty (s : World) (he : s.ptrInputCharHead = s.ptrInputCharTail) :
    SCIReadChar s = (0, s) := by
  unfold SCIReadChar
  rw [if_neg (fun h => h he)]

/-- As many reads as bytes are queued return the queued bytes, oldest first,
and leave the buffer empty. -/
theorem readChars_spec (k : Nat) :
    ∀ s : World, s.ptrInputCharHead < 10 → s.ptrInputCharTail < 10 →
    (rxQueued s).length = k →
    (readChars k s).1 = rxQueued s ∧
    (readChars k s).2.ptrInputCharHead = (readChars k s).2.ptrInputCharTail := by
  induction k with
  | zero =>
    intro s hh ht hlen
    have hnil : rxQueued s = [] := List.length_eq_zero.1 hlen
    exact ⟨by rw [hnil]; rfl, (ringQueued_eq_nil s.zInputChars _ _ 10 (Or.inr rfl) hh ht).1 hnil⟩
  | succ k ih =>
    intro s hh ht hlen
    have hne : s.ptrInputCharHead ≠ s.ptrInputCharTail := by
      intro h
      have h0 := (ringQueued_eq_nil s.zInputChars _ _ 10 (Or.inr rfl) hh ht).2 h
      have h1 : (rxQueued s).length = 0 := congrArg List.length h0
      omega
    have h1 := SCIReadChar_nonempty s hh ht hne
    have hlen2 : (rxQueued (SCIReadChar s).2).length = k := by
      have := congrArg List.length h1.1
      rw [List.length_cons] at this
      omega
    have h2 := ih (SCIReadChar s).2 (by rw [h1.2.1]; exact hh) h1.2.2 hlen2
    have hunf : readChars (k + 1) s =
        ((SCIReadChar s).1 :: (readChars k (SCIReadChar s).2).1,
          (readChars k (SCIReadChar s).2).2) := rfl
    rw [hunf]
    refine ⟨?_, h2.2⟩
    show (SCIReadChar s).1 :: (readChars k (SCIReadChar s).2).1 = rxQueued s
    rw [h2.1, ← h1.1]

/-- Every receive-buffer event keeps the pointers in the array and keeps
accepted = returned ++ queued. -/
theorem RxEvent_step_inv (e : RxEvent) (tr : RxTrace)
    (hh : tr.s.ptrInputCharHead < 10) (ht : tr.s.ptrInputCharTail < 10)
    (hinv : tr.accepted = tr.returned ++ rxQueued tr.s) :
    (e.step tr).s.ptrInputCharHead < 10 ∧ (e.step tr).s.ptrInputCharTail < 10 ∧
    (e.step tr).accepted = (e.step tr).returned ++ rxQueued (e.step tr).s := by
  cases e with
  | receive status data =>
    have hfull := rx_full_iff tr.s hh ht
    by_cases hf : INC_CIRC_BUFFER_PTR tr.s.ptrInputCharHead 0 MAX_IN_STR_SIZE
        = tr.s.ptrInputCharTail
    · have h1 := ISR_USART0_RX_full status data tr.s hh ht (hfull.1.1 hf)
      refine ⟨?_, ?_, ?_⟩
      · show (ISR_USART0_RX_vect status data tr.s).ptrInputCharHead < 10
        rw [h1.2.2.1]; exact hh
      · show (ISR_USART0_RX_vect status data tr.s).ptrInputCharTail < 10
        rw [h1.2.2.2.1]; exact ht
      · show (if _ then tr.accepted else tr.accepted ++ [data]) =
          tr.returned ++ rxQueued (ISR_USART0_RX_vect status data tr.s)
        rw [if_pos hf, h1.2.1, hinv]
    · have hlt : (rxQueued tr.s).length < 9 := by
        have := hfull.2
        have hne : (rxQueued tr.s).length ≠ 9 := fun h => hf (hfull.1.2 h)
        omega
      have h1 := ISR_USART0_RX_room status data tr.s hh ht hlt
      refine ⟨h1.2.2.1, ?_, ?_⟩
      · show (ISR_USART0_RX_vect status data tr.s).ptrInputCharTail < 10
        rw [h1.2.2.2.1]; exact ht
      · show (if _ then tr.accepted else tr.accepted ++ [data]) =
          tr.returned ++ rxQueued (ISR_USART0_RX_vect status data tr.s)
        rw [if_neg hf, h1.2.1, hinv, List.append_assoc]
  | read =>
    by_cases hne : tr.s.ptrInputCharHead ≠ tr.s.ptrInputCharTail
    · have h1 := SCIReadChar_nonempty tr.s hh ht hne
      refine ⟨?_, h1.2.2, ?_⟩
      · show (SCIReadChar tr.s).2.ptrInputCharHead < 10
        rw [h1.2.1]; exact hh
      · show tr.accepted =
          (if tr.s.ptrInputCharHead ≠ tr.s.ptrInputCharTail
            then tr.returned ++ [(SCIReadChar tr.s).1] else tr.returned)
            ++ rxQueued (SCIReadChar tr.s).2
        rw [if_pos hne, hinv, h1.1, List.append_assoc, List.singleton_append]
    · have he : tr.s.ptrInputCharHead = tr.s.ptrInputCharTail := by
        by_contra h
        exact hne h
      have h1 := SCIReadChar_empty tr.s he
      refine ⟨?_, ?_, ?_⟩
      · show (SCIReadChar tr.s).2.ptrInputCharHead < 10
        rw [h1]; exact hh
      · show (SCIReadChar tr.s).2.ptrInputCharTail < 10
        rw [h1]; exact ht
      · show tr.accepted =
          (if tr.s.ptrInputCharHead ≠ tr.s.ptrInputCharTail
            then tr.returned ++ [(SCIReadChar tr.s).1] else tr.returned)
            ++ rxQueued (SCIReadChar tr.s).2
        rw [if_neg hne, h1, hinv]

/-- Every run of receive-buffer events keeps accepted = returned ++ queued. -/
theorem runRxEvents_inv (es : List RxEvent) :
    ∀ tr : RxTrace, tr.s.ptrInputCharHead < 10 → tr.s.ptrInputCharTail < 10 →
    tr.accepted = tr.returned ++ rxQueued tr.s →
    (runRxEvents es tr).accepted =
      (runRxEvents es tr).returned ++ rxQueued (runRxEvents es tr).s := by
  induction es with
  | nil => intro tr _ _ h; exact h
  | cons e rest ih =>
    intro tr hh ht hinv
    have h1 := RxEvent_step_inv e tr hh ht hinv
    exact ih (e.step tr) h1.1 h1.2.1 h1.2.2

/-! ## The receive buffer -/

/-- C19: RX capacity and drop-newest policy.  Starting from an empty receive
buffer (capacity 10), the first 9 received bytes are all stored, in order,
and no SCI_RX_BUFFER_OVERFLOW is reported (on a buffer that is not full the
handler makes no overflow report, so the latch holds that error afterwards
only if it held it before).  For every receive buffer state that is full
(9 bytes queued), one invocation of the USART0_RX handler leaves the queued
byte sequence, the head pointer and the tail pointer unchanged (the incoming
byte is discarded) and calls ReportError(SCI_RX_BUFFER_OVERFLOW), which
latches that error when the latch was empty. -/
theorem C19_rx_capacity_drop_newest :
    (∀ (s : World) (rx : List (Nat × Nat)),
      s.ptrInputCharHead = s.ptrInputCharTail → s.ptrInputCharHead < 10 → rx.length ≤ 9 →
      rxQueued (receiveAll rx s) = rx.map Prod.snd ∧
      ((receiveAll rx s).SystemError = SCI_RX_BUFFER_OVERFLOW →
        s.SystemError = SCI_RX_BUFFER_OVERFLOW)) ∧
    (∀ (s : World) (status data : Nat),
      s.ptrInputCharHead < 10 → s.ptrInputCharTail < 10 → (rxQueued s).length < 9 →
      ISR_USART0_RX_vect status data s =
        USART0_RX_statusErrors (status % 256)
          { s with
            zInputChars := fun i => if i = s.ptrInputCharHead then data else s.zInputChars i
            ptrInputCharHead := INC_CIRC_BUFFER_PTR s.ptrInputCharHead 0 MAX_IN_STR_SIZE }) ∧
    (∀ (s : World) (status data : Nat),
      s.ptrInputCharHead < 10 → s.ptrInputCharTail < 10 → (rxQueued s).length = 9 →
      rxQueued (ISR_USART0_RX_vect status data s) = rxQueued s ∧
      (ISR_USART0_RX_vect status data s).ptrInputCharHead = s.ptrInputCharHead ∧
      (ISR_USART0_RX_vect status data s).ptrInputCharTail = s.ptrInputCharTail ∧
      ISR_USART0_RX_vect status data s =
        USART0_RX_statusErrors (status % 256)
          (ReportError SCI_RX_BUFFER_OVERFLOW
            { s with
              zInputChars :=
                fun i => if i = s.ptrInputCharHead then data else s.zInputChars i }) ∧
      (s.SystemError = NO_ERROR →
        (ISR_USART0_RX_vect status data s).SystemError = SCI_RX_BUFFER_OVERFLOW)) := by
  refine ⟨?_, ?_, ?_⟩
  · intro s rx he hh hlen
    have ht : s.ptrInputCharTail < 10 := by rw [← he]; exact hh
    have hq0 : rxQueued s = [] :=
      (ringQueued_eq_nil s.zInputChars _ _ 10 (Or.inr rfl) hh ht).2 he
    have h := receiveAll_spec rx s hh ht (by rw [hq0]; simpa using hlen)
    rw [hq0, List.nil_append] at h
    exact ⟨h.1, h.2.2.2⟩
  · intro s status data hh ht hroom
    exact (ISR_USART0_RX_room status data s hh ht hroom).1
  · intro s status data hh ht hfull
    have h := ISR_USART0_RX_full status data s hh ht hfull
    exact ⟨h.2.1, h.2.2.1, h.2.2.2.1, h.1, h.2.2.2.2⟩

/-- C19 at the power-on state: nine bytes 1..9 are all queued, and a tenth and
an eleventh byte are dropped while the latch takes SCI_RX_BUFFER_OVERFLOW. -/
theorem C19_rx_capacity_drop_newest_witness :
    rxQueued (receiveAll [(0, 1), (0, 2), (0, 3), (0, 4), (0, 5), (0, 6), (0, 7), (0, 8), (0, 9)]
      initWorld) = [1, 2, 3, 4, 5, 6, 7, 8, 9] ∧
    rxQueued (ISR_USART0_RX_vect 0 10
      (receiveAll [(0, 1), (0, 2), (0, 3), (0, 4), (0, 5), (0, 6), (0, 7), (0, 8), (0, 9)]
        initWorld)) = [1, 2, 3, 4, 5, 6, 7, 8, 9] ∧
    (ISR_USART0_RX_vect 0 10
      (receiveAll [(0, 1), (0, 2), (0, 3), (0, 4), (0, 5), (0, 6), (0, 7), (0, 8), (0, 9)]
        initWorld)).SystemError = SCI_RX_BUFFER_OVERFLOW := by
  have h1 := (C19_rx_capacity_drop_newest.1 initWorld
    [(0, 1), (0, 2), (0, 3), (0, 4), (0, 5), (0, 6), (0, 7), (0, 8), (0, 9)]
    rfl (by decide) (by decide)).1
  have h2 := C19_rx_capacity_drop_newest.2.2
    (receiveAll [(0, 1), (0, 2), (0, 3), (0, 4), (0, 5), (0, 6), (0, 7), (0, 8), (0, 9)]
      initWorld) 0 10 (by decide) (by decide) (by rw [h1]; rfl)
  exact ⟨h1, h2.1.trans h1, h2.2.2.2.2 (by decide)⟩

/-- C20: RX FIFO round trip.  For every sequence of k ≤ 9 bytes received by the
USART0_RX handler into an empty receive buffer, k successive calls of
SCIReadChar return those bytes in the order received and leave the buffer
empty (head = tail).  More generally, for every interleaving of receptions
and reads from an empty buffer, the accepted bytes are exactly the bytes
the reads returned followed by the bytes still queued: SCIReadChar returns
the accepted bytes in the order they were accepted. -/
theorem C20_rx_round_trip :
    (∀ (s : World) (rx : List (Nat × Nat)),
      s.ptrInputCharHead = s.ptrInputCharTail → s.ptrInputCharHead < 10 → rx.length ≤ 9 →
      (readChars rx.length (receiveAll rx s)).1 = rx.map Prod.snd ∧
      (readChars rx.length (receiveAll rx s)).2.ptrInputCharHead =
        (readChars rx.length (receiveAll rx s)).2.ptrInputCharTail) ∧
    (∀ (s : World) (es : List RxEvent),
      s.ptrInputCharHead = s.ptrInputCharTail → s.ptrInputCharHead < 10 →
      (runRxEvents es ⟨s, [], []⟩).accepted =
        (runRxEvents es ⟨s, [], []⟩).returned ++ rxQueued (runRxEvents es ⟨s, [], []⟩).s ∧
      (runRxEvents es ⟨s, [], []⟩).returned <+: (runRxEvents es ⟨s, [], []⟩).accepted) := by
  refine ⟨?_, ?_⟩
  · intro s rx he hh hlen
    have ht : s.ptrInputCharTail < 10 := by rw [← he]; exact hh
    have hq0 : rxQueued s = [] :=
      (ringQueued_eq_nil s.zInputChars _ _ 10 (Or.inr rfl) hh ht).2 he
    have h := receiveAll_spec rx s hh ht (by rw [hq0]; simpa using hlen)
    rw [hq0, List.nil_append] at h
    have hr := readChars_spec rx.length (receiveAll rx s) h.2.1 (by rw [h.2.2.1]; exact ht)
      (by rw [h.1, List.length_map])
    exact ⟨hr.1.trans h.1, hr.2⟩
  · intro s es he hh
    have ht : s.ptrInputCharTail < 10 := by rw [← he]; exact hh
    have hq0 : rxQueued s = [] :=
      (ringQueued_eq_nil s.zInputChars _ _ 10 (Or.inr rfl) hh ht).2 he
    have h := runRxEvents_inv es ⟨s, [], []⟩ hh ht (by simp [hq0])
    exact ⟨h, ⟨_, h.symm⟩⟩

/-- C20 at the power-on state: the bytes h, i are read back in order, and in
the interleaving receive 1, read, receive 2, receive 3, read the reads
return 1 and then 2 while 1, 2, 3 were accepted. -/
theorem C20_rx_round_trip_witness :
    (readChars 2 (receiveAll [(0, 104), (0, 105)] initWorld)).1 = [104, 105] ∧
    (runRxEvents [RxEvent.receive 0 1, RxEvent.read, RxEvent.receive 0 2,
      RxEvent.receive 0 3, RxEvent.read] ⟨initWorld, [], []⟩).returned <+:
    (runRxEvents [RxEvent.receive 0 1, RxEvent.read, RxEvent.receive 0 2,
      RxEvent.receive 0 3, RxEvent.read] ⟨initWorld, [], []⟩).accepted :=
  ⟨(C20_rx_round_trip.1 initWorld [(0, 104), (0, 105)] rfl (by decide) (by decide)).1,
   (C20_rx_round_trip.2 initWorld _ rfl (by decide)).2⟩

/-! ## Support: the copy loops on any string -/

/-- The pointer macro always yields a pointer inside the array. -/
theorem INC_CIRC_BUFFER_PTR_lt (p L : Nat) (hL : 0 < L) : INC_CIRC_BUFFER_PTR p 0 L < L := by
  unfold INC_CIRC_BUFFER_PTR
  split_ifs with h <;> omega

/-- The copy loop stops with the flag set at a NUL character. -/
theorem SCIWriteString_loop_cons_nul (c : Nat) (rest : List Nat) (s : World) (hc : ¬ c ≠ 0)
    (hr : INC_CIRC_BUFFER_PTR s.ptrOutputCharHead 0 MAX_OUT_STR_SIZE ≠ s.ptrOutputCharTail) :
    SCIWriteString_loop (c :: rest) s = (s, eBooleanType.TRUE) := by
  rw [SCIWriteString_loop, if_pos hr, if_neg hc]

/-- On every string the copy loop changes only the buffer and its head, and
keeps the head inside the array. -/
theorem SCIWriteString_loop_frame (Str : List Nat) :
    ∀ s : World,
    (SCIWriteString_loop Str s).1 =
      { s with zOutputChars := (SCIWriteString_loop Str s).1.zOutputChars
               ptrOutputCharHead := (SCIWriteString_loop Str s).1.ptrOutputCharHead } ∧
    (s.ptrOutputCharHead < 250 → (SCIWriteString_loop Str s).1.ptrOutputCharHead < 250) := by
  induction Str with
  | nil =>
    intro s
    by_cases hr : INC_CIRC_BUFFER_PTR s.ptrOutputCharHead 0 MAX_OUT_STR_SIZE ≠ s.ptrOutputCharTail
    · rw [SCIWriteString_loop_nil s hr]
      exact ⟨rfl, fun h => h⟩
    · rw [SCIWriteString_loop_full [] s hr]
      exact ⟨rfl, fun h => h⟩
  | cons c rest ih =>
    intro s
    by_cases hr : INC_CIRC_BUFFER_PTR s.ptrOutputCharHead 0 MAX_OUT_STR_SIZE ≠ s.ptrOutputCharTail
    · by_cases hc : c ≠ 0
      · rw [SCIWriteString_loop_cons c rest s hc hr]
        have h := ih (SCIWriteString_put c s)
        refine ⟨?_, fun _ => h.2 (INC_CIRC_BUFFER_PTR_lt _ 250 (by decide))⟩
        rw [h.1]
        rfl
      · rw [SCIWriteString_loop_cons_nul c rest s hc hr]
        exact ⟨rfl, fun h => h⟩
    · rw [SCIWriteString_loop_full _ s hr]
      exact ⟨rfl, fun h => h⟩

/-- The copy loop of the program-space writer is the copy loop of the RAM writer. -/
theorem SCIWriteString_P_loop_eq (Str : List Nat) :
    ∀ s : World, SCIWriteString_P_loop Str s = SCIWriteString_loop Str s := by
  induction Str with
  | nil =>
    intro s
    rw [SCIWriteString_P_loop, SCIWriteString_loop]
  | cons c rest ih =>
    intro s
    rw [SCIWriteString_P_loop, SCIWriteString_loop, ih]

/-- The program-space writer does what the RAM writer does. -/
theorem SCIWriteString_P_eq (Str : List Nat) (s : World) :
    SCIWriteString_P Str s = SCIWriteString Str s := by
  unfold SCIWriteString_P SCIWriteString
  rw [SCIWriteString_P_loop_eq]

/-- On every string `SCIWriteString` changes only the transmit buffer, its
head, UCSR0B and (through ReportError) the latch and PORTB. -/
theorem SCIWriteString_frame (Str : List Nat) (s : World) :
    (SCIWriteString Str s).2.ptrOutputCharTail = s.ptrOutputCharTail ∧
    (SCIWriteString Str s).2.ptrInputCharHead = s.ptrInputCharHead ∧
    (SCIWriteString Str s).2.ptrInputCharTail = s.ptrInputCharTail ∧
    (SCIWriteString Str s).2.zInputChars = s.zInputChars ∧
    (SCIWriteString Str s).2.UCSR0B = SET_BIT s.UCSR0B UDRIE0 ∧
    (s.ptrOutputCharHead < 250 → (SCIWriteString Str s).2.ptrOutputCharHead < 250) := by
  have hl := SCIWriteString_loop_frame Str s
  have hframe := hl.1
  have h1 : (SCIWriteString_loop Str s).1.ptrOutputCharTail = s.ptrOutputCharTail := by
    rw [hframe]
  have h2 : (SCIWriteString_loop Str s).1.ptrInputCharHead = s.ptrInputCharHead := by
    rw [hframe]
  have h3 : (SCIWriteString_loop Str s).1.ptrInputCharTail = s.ptrInputCharTail := by
    rw [hframe]
  have h4 : (SCIWriteString_loop Str s).1.zInputChars = s.zInputChars := by rw [hframe]
  have h5 : (SCIWriteString_loop Str s).1.UCSR0B = s.UCSR0B := by rw [hframe]
  by_cases hc : (SCIWriteString_loop Str s).2 = eBooleanType.FALSE
  · have hS : SCIWriteString Str s = (-1, ReportError SCI_TX_BUFFER_OVERFLOW
        { (SCIWriteString_loop Str s).1 with
          UCSR0B := SET_BIT (SCIWriteString_loop Str s).1.UCSR0B UDRIE0 }) := by
      unfold SCIWriteString
      simp only [hc, if_true]
    have hR := ReportError_serial SCI_TX_BUFFER_OVERFLOW
        { (SCIWriteString_loop Str s).1 with
          UCSR0B := SET_BIT (SCIWriteString_loop Str s).1.UCSR0B UDRIE0 }
    rw [hS]
    refine ⟨?_, ?_, ?_, ?_, ?_, fun h => ?_⟩
    · show (ReportError _ _).ptrOutputCharTail = _
      rw [hR.2.2.1]; exact h1
    · show (ReportError _ _).ptrInputCharHead = _
      rw [hR.2.2.2.2.1]; exact h2
    · show (ReportError _ _).ptrInputCharTail = _
      rw [hR.2.2.2.2.2.1]; exact h3
    · show (ReportError _ _).zInputChars = _
      rw [hR.2.2.2.1]; exact h4
    · show (ReportError _ _).UCSR0B = _
      rw [hR.2.2.2.2.2.2.1]
      show SET_BIT (SCIWriteString_loop Str s).1.UCSR0B UDRIE0 = _
      rw [h5]
    · show (ReportError _ _).ptrOutputCharHead < 250
      rw [hR.2.1]; exact hl.2 h
  · have hS : SCIWriteString Str s = (0,
        { (SCIWriteString_loop Str s).1 with
          UCSR0B := SET_BIT (SCIWriteString_loop Str s).1.UCSR0B UDRIE0 }) := by
      unfold SCIWriteString
      simp only [hc, if_false]
    rw [hS]
    refine ⟨h1, h2, h3, h4, ?_, fun h => hl.2 h⟩
    show SET_BIT (SCIWriteString_loop Str s).1.UCSR0B UDRIE0 = _
    rw [h5]

/-- The state after one invocation of the transmit handler. -/
theorem ISR_USART0_UDRE_eq (s : World) :
    ISR_USART0_UDRE_vect s =
      { s with
        UCSR0B :=
          if INC_CIRC_BUFFER_PTR s.ptrOutputCharTail 0 MAX_OUT_STR_SIZE ≠ s.ptrOutputCharHead
          then SET_BIT (CLEAR_BIT s.UCSR0B UDRIE0) UDRIE0 else CLEAR_BIT s.UCSR0B UDRIE0
        ptrOutputCharTail := INC_CIRC_BUFFER_PTR s.ptrOutputCharTail 0 MAX_OUT_STR_SIZE
        udr0Bytes := s.udr0Bytes ++ [s.zOutputChars s.ptrOutputCharTail] } := by
  unfold ISR_USART0_UDRE_vect
  by_cases hc : INC_CIRC_BUFFER_PTR s.ptrOutputCharTail 0 MAX_OUT_STR_SIZE ≠ s.ptrOutputCharHead
  · simp only [hc, if_true, ne_eq, not_false_eq_true]
  · simp only [hc, if_false]

/-- On every state the receive handler changes only the receive buffer, its
head and (through ReportError) the latch and PORTB. -/
theorem ISR_USART0_RX_frame (status data : Nat) (s : World) :
    (ISR_USART0_RX_vect status data s).ptrInputCharTail = s.ptrInputCharTail ∧
    (ISR_USART0_RX_vect status data s).ptrOutputCharHead = s.ptrOutputCharHead ∧
    (ISR_USART0_RX_vect status data s).ptrOutputCharTail = s.ptrOutputCharTail ∧
    (ISR_USART0_RX_vect status data s).ptrInputCharHead =
      (if INC_CIRC_BUFFER_PTR s.ptrInputCharHead 0 MAX_IN_STR_SIZE = s.ptrInputCharTail
       then s.ptrInputCharHead
       else INC_CIRC_BUFFER_PTR s.ptrInputCharHead 0 MAX_IN_STR_SIZE) := by
  unfold ISR_USART0_RX_vect USART0_RX_statusErrors
  by_cases hf : INC_CIRC_BUFFER_PTR s.ptrInputCharHead 0 MAX_IN_STR_SIZE = s.ptrInputCharTail
  · simp only [hf, if_true]
    split_ifs <;> simp [ReportError_serial]
  · simp only [hf, if_false]
    split_ifs <;> simp [ReportError_serial]

/-! ## Single operations on the serial buffers -/

/-- C21: for every state in which the receive buffer is empty (head = tail),
SCIReadChar returns the empty sentinel 0 and leaves the whole state, so head,
tail and the buffer contents, unchanged; in every other state it returns the
byte at the tail and moves the tail to the next slot (by the pointer macro,
which for a tail inside the array is tail + 1 modulo 10), changing nothing
else, the head included. -/
theorem C21_SCIReadChar (s : World) :
    (s.ptrInputCharHead = s.ptrInputCharTail → SCIReadChar s = (0, s)) ∧
    (s.ptrInputCharHead ≠ s.ptrInputCharTail →
      (SCIReadChar s).1 = s.zInputChars s.ptrInputCharTail ∧
      (SCIReadChar s).2 =
        { s with ptrInputCharTail :=
            INC_CIRC_BUFFER_PTR s.ptrInputCharTail 0 MAX_IN_STR_SIZE } ∧
      (s.ptrInputCharTail < 10 →
        (SCIReadChar s).2.ptrInputCharTail = (s.ptrInputCharTail + 1) % 10) ∧
      (SCIReadChar s).2.ptrInputCharHead = s.ptrInputCharHead ∧
      (SCIReadChar s).2.zInputChars = s.zInputChars) := by
  refine ⟨fun he => SCIReadChar_empty s he, fun hne => ?_⟩
  have hS : SCIReadChar s = (s.zInputChars s.ptrInputCharTail,
      { s with ptrInputCharTail :=
          INC_CIRC_BUFFER_PTR s.ptrInputCharTail 0 MAX_IN_STR_SIZE }) := by
    unfold SCIReadChar
    rw [if_pos hne]
  rw [hS]
  exact ⟨rfl, rfl, fun ht => INC_CIRC_BUFFER_PTR_mod _ 10 ht, rfl, rfl⟩

/-- C21 at the power-on state (empty buffer) and after one received byte 65:
the first read returns 0 and changes nothing, the second returns 65 and moves
the tail from 0 to 1. -/
theorem C21_SCIReadChar_witness :
    SCIReadChar initWorld = (0, initWorld) ∧
    (SCIReadChar (ISR_USART0_RX_vect 0 65 initWorld)).1 = 65 ∧
    (SCIReadChar (ISR_USART0_RX_vect 0 65 initWorld)).2.ptrInputCharTail = 1 := by
  have h1 := (C21_SCIReadChar initWorld).1 rfl
  have h2 := (C21_SCIReadChar (ISR_USART0_RX_vect 0 65 initWorld)).2 (by decide)
  exact ⟨h1, h2.1.trans (by decide), (h2.2.2.1 (by decide)).trans (by decide)⟩

/-- C22: for every transmit buffer state, one invocation of the USART0_UDRE
handler writes the byte stored at the tail to UDR0 (one byte, nothing else),
moves the tail to the next slot (tail + 1 modulo 250 for a tail inside the
array), leaves the head and the buffer alone, and on exit UDRIE0 is set iff
the new tail differs from the head. -/
theorem C22_UDRE_handler (s : World) :
    (ISR_USART0_UDRE_vect s).udr0Bytes = s.udr0Bytes ++ [s.zOutputChars s.ptrOutputCharTail] ∧
    (ISR_USART0_UDRE_vect s).ptrOutputCharTail =
      INC_CIRC_BUFFER_PTR s.ptrOutputCharTail 0 MAX_OUT_STR_SIZE ∧
    (s.ptrOutputCharTail < 250 →
      (ISR_USART0_UDRE_vect s).ptrOutputCharTail = (s.ptrOutputCharTail + 1) % 250) ∧
    (ISR_USART0_UDRE_vect s).ptrOutputCharHead = s.ptrOutputCharHead ∧
    (ISR_USART0_UDRE_vect s).zOutputChars = s.zOutputChars ∧
    ((ISR_USART0_UDRE_vect s).UCSR0B.testBit UDRIE0 = true ↔
      (ISR_USART0_UDRE_vect s).ptrOutputCharTail ≠ (ISR_USART0_UDRE_vect s).ptrOutputCharHead) := by
  rw [ISR_USART0_UDRE_eq]
  refine ⟨rfl, rfl, fun ht => INC_CIRC_BUFFER_PTR_mod _ 250 ht, rfl, rfl, ?_⟩
  show (if INC_CIRC_BUFFER_PTR s.ptrOutputCharTail 0 MAX_OUT_STR_SIZE ≠ s.ptrOutputCharHead
      then SET_BIT (CLEAR_BIT s.UCSR0B UDRIE0) UDRIE0
      else CLEAR_BIT s.UCSR0B UDRIE0).testBit UDRIE0 = true ↔
    INC_CIRC_BUFFER_PTR s.ptrOutputCharTail 0 MAX_OUT_STR_SIZE ≠ s.ptrOutputCharHead
  by_cases hc : INC_CIRC_BUFFER_PTR s.ptrOutputCharTail 0 MAX_OUT_STR_SIZE ≠ s.ptrOutputCharHead
  · rw [if_pos hc, SET_BIT_UDRIE0]
    exact ⟨fun _ => hc, fun _ => rfl⟩
  · rw [if_neg hc, CLEAR_BIT_UDRIE0]
    exact ⟨fun h => absurd h (by decide), fun h => absurd h hc⟩

/-- C22 after the prompt string was queued in the power-on state: the first
invocation sends the character c (99), moves the tail to 1 and keeps UDRIE0
set, as four bytes remain. -/
theorem C22_UDRE_handler_witness :
    (ISR_USART0_UDRE_vect (SCIWriteString promptString initWorld).2).udr0Bytes = [99] ∧
    (ISR_USART0_UDRE_vect (SCIWriteString promptString initWorld).2).ptrOutputCharTail = 1 ∧
    (ISR_USART0_UDRE_vect (SCIWriteString promptString initWorld).2).UCSR0B.testBit UDRIE0
      = true := by
  have h := C22_UDRE_handler (SCIWriteString promptString initWorld).2
  exact ⟨h.1.trans (by decide), (h.2.2.1 (by decide)).trans (by decide),
    h.2.2.2.2.2.2 (by rw [h.2.2.1 (by decide), h.2.2.2.1]; decide)⟩

/-- C23: for every state and every string (the empty string and strings that do
not fit included), SCIWriteString and SCIWriteString_P return with the
UDRIE0 bit of UCSR0B set. -/
theorem C23_write_arms_transmit_interrupt (Str : List Nat) (s : World) :
    (SCIWriteString Str s).2.UCSR0B.testBit UDRIE0 = true ∧
    (SCIWriteString_P Str s).2.UCSR0B.testBit UDRIE0 = true := by
  have h := (SCIWriteString_frame Str s).2.2.2.2.1
  rw [SCIWriteString_P_eq, h]
  exact ⟨SET_BIT_UDRIE0 _, SET_BIT_UDRIE0 _⟩

/-- C24: single-owner pointers.  For every state and every argument,
SCIWriteString and SCIWriteString_P leave ptrOutputCharTail unchanged, the
USART0_UDRE handler leaves ptrOutputCharHead unchanged, SCIReadChar leaves
ptrInputCharHead unchanged and the USART0_RX handler leaves ptrInputCharTail
unchanged; and none of them changes a pointer of the buffer of the other
direction. -/
theorem C24_single_owner_pointers (s : World) (Str : List Nat) (status data : Nat) :
    ((SCIWriteString Str s).2.ptrOutputCharTail = s.ptrOutputCharTail ∧
      (SCIWriteString Str s).2.ptrInputCharHead = s.ptrInputCharHead ∧
      (SCIWriteString Str s).2.ptrInputCharTail = s.ptrInputCharTail) ∧
    ((SCIWriteString_P Str s).2.ptrOutputCharTail = s.ptrOutputCharTail ∧
      (SCIWriteString_P Str s).2.ptrInputCharHead = s.ptrInputCharHead ∧
      (SCIWriteString_P Str s).2.ptrInputCharTail = s.ptrInputCharTail) ∧
    ((ISR_USART0_UDRE_vect s).ptrOutputCharHead = s.ptrOutputCharHead ∧
      (ISR_USART0_UDRE_vect s).ptrInputCharHead = s.ptrInputCharHead ∧
      (ISR_USART0_UDRE_vect s).ptrInputCharTail = s.ptrInputCharTail) ∧
    ((SCIReadChar s).2.ptrInputCharHead = s.ptrInputCharHead ∧
      (SCIReadChar s).2.ptrOutputCharHead = s.ptrOutputCharHead ∧
      (SCIReadChar s).2.ptrOutputCharTail = s.ptrOutputCharTail) ∧
    ((ISR_USART0_RX_vect status data s).ptrInputCharTail = s.ptrInputCharTail ∧
      (ISR_USART0_RX_vect status data s).ptrOutputCharHead = s.ptrOutputCharHead ∧
      (ISR_USART0_RX_vect status data s).ptrOutputCharTail = s.ptrOutputCharTail) := by
  have hw := SCIWriteString_frame Str s
  have hrx := ISR_USART0_RX_frame status data s
  refine ⟨⟨hw.1, hw.2.1, hw.2.2.1⟩, ?_, ?_, ?_, ⟨hrx.1, hrx.2.1, hrx.2.2.1⟩⟩
  · rw [SCIWriteString_P_eq]
    exact ⟨hw.1, hw.2.1, hw.2.2.1⟩
  · rw [ISR_USART0_UDRE_eq]
    exact ⟨rfl, rfl, rfl⟩
  · unfold SCIReadChar
    split_ifs <;> exact ⟨rfl, rfl, rfl⟩

/-! ## Arithmetic and bounds of the sample table -/

/-- C25: no overflow in the scaling arithmetic.  For every valid voltage v
(100 ≤ v ≤ 500, v mod 10 = 0) and every i in 0..50 the product
VoltageLookup[i] * floor(v/10) is at most 1023 * 50 = 51150 < 2^16, so the
16-bit computation of a table entry in CalcSineValues equals the exact value
floor(VoltageLookup[i] * floor(v/10) / 50); at full scale v = 500 the entry
equals VoltageLookup[i]. -/
theorem C25_scaling_no_overflow (v i : Nat) (s : World)
    (hlo : 100 ≤ v) (hhi : v ≤ 500) (hstep : v % 10 = 0) (hi : i ≤ 50) :
    VoltageLookup i * (v / 10) ≤ 1023 * 50 ∧
    1023 * 50 = 51150 ∧ 51150 < 2 ^ 16 ∧
    VoltageLookup i * (v / 10) % 65536 = VoltageLookup i * (v / 10) ∧
    (CalcSineValues_entry v i s).VoltageScaled i s.ucActiveVoltArray =
      VoltageLookup i * (v / 10) / 50 ∧
    (CalcSineValues v s).VoltageScaled i (CalcSineValues v s).ucActiveVoltArray =
      VoltageLookup i * (v / 10) / 50 ∧
    (v = 500 →
      (CalcSineValues v s).VoltageScaled i (CalcSineValues v s).ucActiveVoltArray =
        VoltageLookup i) := by
  have hs := hstep
  have hL := VoltageLookup_le i
  have hv : v / 10 ≤ 50 := by omega
  have hprod : VoltageLookup i * (v / 10) ≤ 1023 * 50 := Nat.mul_le_mul hL hv
  have hmod : VoltageLookup i * (v / 10) % 65536 = VoltageLookup i * (v / 10) :=
    Nat.mod_eq_of_lt (by omega)
  have hi2 : i < SAMPLE_TABLE_SIZE := by rw [SAMPLE_TABLE_SIZE_eq]; omega
  have hcalc : (CalcSineValues v s).VoltageScaled i (CalcSineValues v s).ucActiveVoltArray =
      VoltageLookup i * (v / 10) / 50 := by
    rw [CalcSineValues_eq]
    simp [hi2, hmod]
  refine ⟨hprod, by decide, by decide, hmod, ?_, hcalc, fun h500 => ?_⟩
  · unfold CalcSineValues_entry
    simp [hmod]
  · rw [hcalc, h500]
    exact Nat.mul_div_cancel _ (by decide)

/-- C25 at v = 500, i = 0 and at v = 100, i = 1 from the power-on state: the
entries are 1023 and 204. -/
theorem C25_scaling_no_overflow_witness :
    (CalcSineValues 500 initWorld).VoltageScaled 0 (CalcSineValues 500 initWorld).ucActiveVoltArray
      = 1023 ∧
    (CalcSineValues 100 initWorld).VoltageScaled 1 (CalcSineValues 100 initWorld).ucActiveVoltArray
      = 204 := by
  have h1 := C25_scaling_no_overflow 500 0 initWorld (by decide) (by decide) (by decide)
    (by decide)
  have h2 := C25_scaling_no_overflow 100 1 initWorld (by decide) (by decide) (by decide)
    (by decide)
  exact ⟨(h1.2.2.2.2.2.2 rfl).trans (by decide), h2.2.2.2.2.2.1.trans (by decide)⟩

/-- From an index inside the table the cursor advance stays inside it, whatever
the direction. -/
theorem cursorNext_le (idx dir : Nat) (h : idx ≤ 50) : cursorNext idx dir ≤ 50 := by
  unfold cursorNext
  rw [SAMPLE_TABLE_SIZE_eq]
  generalize hd1 : (if idx = 0 then 1 else if idx = 51 - 1 then 0 else dir) = d1
  split_ifs at hd1 ⊢ <;> omega

/-- The state `SetFreq` leaves: updated when the value is accepted, else as before. -/
theorem SetFreq_state (x : Nat) (s : World) :
    (SetFreq x s).2 =
      if (SetFreq x s).1 = NO_ERROR then UpdateFreqCnt { s with FreqDesired := x } else s := by
  unfold SetFreq
  generalize (if x < MIN_FREQUENCY ∨ x > MAX_FREQUENCY then PARAMETER_OUT_OF_RANGE
    else if x % FREQUENCY_INCREMENT ≠ 0 then INVALID_PARAMETER else NO_ERROR) = r
  by_cases hr : r = NO_ERROR <;> simp [hr]

/-- The state `SetVolt` leaves: recomputed when the value is accepted, else as before. -/
theorem SetVolt_state (x : Nat) (s : World) :
    (SetVolt x s).2 =
      if (SetVolt x s).1 = NO_ERROR then CalcSineValues x { s with VoltDesired := x } else s := by
  unfold SetVolt
  generalize (if x < MIN_VOLTAGE ∨ x > MAX_VOLTAGE then PARAMETER_OUT_OF_RANGE
    else if x % VOLTAGE_INCREMENT ≠ 0 then INVALID_PARAMETER else NO_ERROR) = r
  by_cases hr : r = NO_ERROR <;> simp [hr]

/-- The functions that set the parameters leave the cursor alone and keep the
active index at 0 or 1 once it is so. -/
theorem SetFreq_SetVolt_cursor (x : Nat) (s : World) :
    (SetFreq x s).2.ucVoltageIndex = s.ucVoltageIndex ∧
    (SetFreq x s).2.ucActiveVoltArray = s.ucActiveVoltArray ∧
    (SetVolt x s).2.ucVoltageIndex = s.ucVoltageIndex ∧
    ((SetVolt x s).2.ucActiveVoltArray = s.ucActiveVoltArray ∨
      (SetVolt x s).2.ucActiveVoltArray = (if s.ucActiveVoltArray = 0 then 1 else 0)) := by
  rw [SetFreq_state, SetVolt_state]
  refine ⟨?_, ?_, ?_, ?_⟩
  · split_ifs <;> rfl
  · split_ifs <;> rfl
  · by_cases h : (SetVolt x s).1 = NO_ERROR
    · rw [if_pos h, CalcSineValues_eq]
    · rw [if_neg h]
  · by_cases h : (SetVolt x s).1 = NO_ERROR
    · right
      rw [if_pos h, CalcSineValues_eq]
    · left
      rw [if_neg h]

/-- C26: table access is always in bounds.  In every state reachable from an
initial state (cursor index 0, active index 0, as the C initialisers set
them) by any sequence of UpdateSignal, CalcSineValues, SetFreq and SetVolt
calls with any arguments, 0 ≤ ucVoltageIndex ≤ 50 and ucActiveVoltArray is 0
or 1; so the entry the next UpdateSignal reads has its row in 0..50 and its
column in {0, 1}, and every entry a CalcSineValues call changes has its row
in 0..50 and its column in {0, 1}. -/
theorem C26_table_access_in_bounds (s0 s : World)
    (h0 : s0.ucVoltageIndex = 0) (ha : s0.ucActiveVoltArray = 0) (hr : SineReachable s0 s) :
    s.ucVoltageIndex ≤ 50 ∧
    (s.ucActiveVoltArray = 0 ∨ s.ucActiveVoltArray = 1) ∧
    (UpdateSignal s).ucVoltageIndex ≤ 50 ∧
    (UpdateSignal s).DACValue =
      s.VoltageScaled (UpdateSignal s).ucVoltageIndex s.ucActiveVoltArray ∧
    (∀ (v i c : Nat), (CalcSineValues v s).VoltageScaled i c ≠ s.VoltageScaled i c →
      i ≤ 50 ∧ (c = 0 ∨ c = 1)) := by
  have inv : s.ucVoltageIndex ≤ 50 ∧ (s.ucActiveVoltArray = 0 ∨ s.ucActiveVoltArray = 1) := by
    induction hr with
    | init => exact ⟨by omega, Or.inl ha⟩
    | @updateSignal s _ ih =>
      refine ⟨?_, ?_⟩
      · rw [UpdateSignal_index]
        exact cursorNext_le _ _ ih.1
      · have : (UpdateSignal s).ucActiveVoltArray = s.ucActiveVoltArray := by
          unfold UpdateSignal
          exact (WriteDtoASample_frame _ _).2.2.1
        rw [this]
        exact ih.2
    | @calcSineValues v s _ ih =>
      rw [CalcSineValues_eq]
      refine ⟨ih.1, ?_⟩
      show (if s.ucActiveVoltArray = 0 then 1 else 0) = 0 ∨
        (if s.ucActiveVoltArray = 0 then 1 else 0) = 1
      split_ifs
      · exact Or.inr rfl
      · exact Or.inl rfl
    | @setFreq f s _ ih =>
      have h := SetFreq_SetVolt_cursor f s
      rw [h.1, h.2.1]
      exact ih
    | @setVolt v s _ ih =>
      have h := SetFreq_SetVolt_cursor v s
      rw [h.2.2.1]
      refine ⟨ih.1, ?_⟩
      rcases h.2.2.2 with h1 | h1
      · rw [h1]; exact ih.2
      · rw [h1]
        split_ifs
        · exact Or.inr rfl
        · exact Or.inl rfl
  refine ⟨inv.1, inv.2, ?_, ?_, ?_⟩
  · rw [UpdateSignal_index]
    exact cursorNext_le _ _ inv.1
  · rw [UpdateSignal_index]
    unfold UpdateSignal
    rw [(WriteDtoASample_frame _ _).2.2.2.2.2.1]
    rfl
  · intro v i c hne
    rw [CalcSineValues_eq] at hne
    by_cases hc : i < SAMPLE_TABLE_SIZE ∧ c = (if s.ucActiveVoltArray = 0 then 1 else 0)
    · rw [SAMPLE_TABLE_SIZE_eq] at hc
      refine ⟨by omega, ?_⟩
      rw [hc.2]
      split_ifs
      · exact Or.inr rfl
      · exact Or.inl rfl
    · exfalso
      apply hne
      show (if i < SAMPLE_TABLE_SIZE ∧ c = (if s.ucActiveVoltArray = 0 then 1 else 0)
        then _ else s.VoltageScaled i c) = _
      rw [if_neg hc]

/-- C26 from the power-on state: after SetVolt 500 and fifty calls of
UpdateSignal the cursor is inside the table and the active column is 0 or 1. -/
theorem C26_table_access_in_bounds_witness :
    (UpdateSignal^[50] (SetVolt 500 initWorld).2).ucVoltageIndex ≤ 50 ∧
    ((UpdateSignal^[50] (SetVolt 500 initWorld).2).ucActiveVoltArray = 0 ∨
      (UpdateSignal^[50] (SetVolt 500 initWorld).2).ucActiveVoltArray = 1) := by
  have hreach : ∀ n, SineReachable initWorld (UpdateSignal^[n] (SetVolt 500 initWorld).2) := by
    intro n
    induction n with
    | zero => exact SineReachable.setVolt 500 SineReachable.init
    | succ n ih =>
      rw [Function.iterate_succ_apply']
      exact SineReachable.updateSignal ih
  have h := C26_table_access_in_bounds initWorld _ rfl rfl (hreach 50)
  exact ⟨h.1, h.2.1⟩

/-! ## Bounds of the ring buffer pointers -/

/-- C27: ring-buffer pointer bounds.  The pointer macro maps the last slot back
to the first and every other slot to its successor; and in every state
reachable from SCIInitialize by any sequence of SCIWriteString,
SCIWriteString_P, SCIReadChar, USART0_RX and USART0_UDRE invocations,
ptrOutputCharHead and ptrOutputCharTail point to one of the 250 slots of
zOutputChars and ptrInputCharHead and ptrInputCharTail to one of the 10
slots of zInputChars (so every read and write through them is inside its
array). -/
theorem C27_pointer_bounds :
    (∀ L p : Nat, 0 < L → p < L →
      INC_CIRC_BUFFER_PTR p 0 L = (if p = L - 1 then 0 else p + 1) ∧
      INC_CIRC_BUFFER_PTR p 0 L < L) ∧
    (∀ s : World, SerialReachable s →
      s.ptrOutputCharHead < 250 ∧ s.ptrOutputCharTail < 250 ∧
      s.ptrInputCharHead < 10 ∧ s.ptrInputCharTail < 10) := by
  constructor
  · intro L p hL hp
    refine ⟨?_, INC_CIRC_BUFFER_PTR_lt p L hL⟩
    unfold INC_CIRC_BUFFER_PTR
    by_cases h : p = L - 1
    · rw [if_pos (by omega), if_pos h]
    · rw [if_neg (by omega), if_neg h]
  · intro s hr
    induction hr with
    | init s =>
      have h1 := SCIWriteString_frame welcomeString
        { s with
          UCSR0B := (1 <<< RXCIE0) ||| (1 <<< RXEN0) ||| (1 <<< TXEN0)
          ptrInputCharHead := 0
          ptrInputCharTail := 0
          ptrOutputCharHead := 0
          ptrOutputCharTail := 0 }
      have h2 := SCIWriteString_frame promptString
        (SCIWriteString welcomeString
          { s with
            UCSR0B := (1 <<< RXCIE0) ||| (1 <<< RXEN0) ||| (1 <<< TXEN0)
            ptrInputCharHead := 0
            ptrInputCharTail := 0
            ptrOutputCharHead := 0
            ptrOutputCharTail := 0 }).2
      unfold SCIInitialize
      simp only [SCIWriteString_P_eq]
      refine ⟨h2.2.2.2.2.2 (h1.2.2.2.2.2 (show (0 : Nat) < 250 by decide)), ?_, ?_, ?_⟩
      · rw [h2.1, h1.1]
        show (0 : Nat) < 250
        decide
      · rw [h2.2.1, h1.2.1]
        show (0 : Nat) < 10
        decide
      · rw [h2.2.2.1, h1.2.2.1]
        show (0 : Nat) < 10
        decide
    | @writeString Str s _ ih =>
      have h := SCIWriteString_frame Str s
      rw [h.1, h.2.1, h.2.2.1]
      exact ⟨h.2.2.2.2.2 ih.1, ih.2.1, ih.2.2.1, ih.2.2.2⟩
    | @writeString_P Str s _ ih =>
      have h := SCIWriteString_frame Str s
      rw [SCIWriteString_P_eq, h.1, h.2.1, h.2.2.1]
      exact ⟨h.2.2.2.2.2 ih.1, ih.2.1, ih.2.2.1, ih.2.2.2⟩
    | @readChar s _ ih =>
      unfold SCIReadChar
      split_ifs
      · exact ⟨ih.1, ih.2.1, ih.2.2.1, INC_CIRC_BUFFER_PTR_lt _ 10 (by decide)⟩
      · exact ih
    | @receive status data s _ ih =>
      have h := ISR_USART0_RX_frame status data s
      rw [h.1, h.2.1, h.2.2.1, h.2.2.2]
      refine ⟨ih.1, ih.2.1, ?_, ih.2.2.2⟩
      split_ifs
      · exact ih.2.2.1
      · exact INC_CIRC_BUFFER_PTR_lt _ 10 (by decide)
    | @transmit s _ ih =>
      rw [ISR_USART0_UDRE_eq]
      exact ⟨ih.1, INC_CIRC_BUFFER_PTR_lt _ 250 (by decide), ih.2.2.1, ih.2.2.2⟩

/-- C27 right after SCIInitialize on the power-on state, and after one more
invocation of the transmit handler. -/
theorem C27_pointer_bounds_witness :
    (SCIInitialize initWorld).ptrOutputCharHead < 250 ∧
    (ISR_USART0_UDRE_vect (SCIInitialize initWorld)).ptrOutputCharTail < 250 :=
  ⟨(C27_pointer_bounds.2 _ (SerialReachable.init initWorld)).1,
   (C27_pointer_bounds.2 _ (SerialReachable.transmit (SerialReachable.init initWorld))).2.1⟩

/-! ## Receive errors -/

/-- C28: receive errors are reported as distinct kinds with a fixed priority.
For every invocation of the USART0_RX handler entered with an empty error
latch, with the status the handler reads at its entry (before it reads the
data register), the latch afterwards holds the first applicable entry of
SCI_RX_BUFFER_OVERFLOW if the buffer was full, SCI_RX_FRAME if FE0 is set,
SCI_RX_DATA_OVERRUN if DOR0 is set, SCI_RX_PARITY if UPE0 is set, and
NO_ERROR if none applies.  The buffer is full when the next head would meet
the tail, which for pointers inside the array means nine bytes queued. -/
theorem C28_receive_error_priority (UCSR0A UDR0 : Nat) (s : World)
    (h0 : s.SystemError = NO_ERROR) :
    (ISR_USART0_RX_vect UCSR0A UDR0 s).SystemError =
      (if INC_CIRC_BUFFER_PTR s.ptrInputCharHead 0 MAX_IN_STR_SIZE = s.ptrInputCharTail
        then SCI_RX_BUFFER_OVERFLOW
       else if UCSR0A % 256 &&& (1 <<< FE0) ≠ 0 then SCI_RX_FRAME
       else if UCSR0A % 256 &&& (1 <<< DOR0) ≠ 0 then SCI_RX_DATA_OVERRUN
       else if UCSR0A % 256 &&& (1 <<< UPE0) ≠ 0 then SCI_RX_PARITY
       else NO_ERROR) ∧
    (s.ptrInputCharHead < 10 → s.ptrInputCharTail < 10 →
      (INC_CIRC_BUFFER_PTR s.ptrInputCharHead 0 MAX_IN_STR_SIZE = s.ptrInputCharTail ↔
        (rxQueued s).length = 9)) := by
  refine ⟨?_, fun hh ht => (rx_full_iff s hh ht).1⟩
  unfold ISR_USART0_RX_vect USART0_RX_statusErrors
  by_cases hf : INC_CIRC_BUFFER_PTR s.ptrInputCharHead 0 MAX_IN_STR_SIZE = s.ptrInputCharTail <;>
    by_cases h1 : UCSR0A % 256 &&& (1 <<< FE0) ≠ 0 <;>
    by_cases h2 : UCSR0A % 256 &&& (1 <<< DOR0) ≠ 0 <;>
    by_cases h3 : UCSR0A % 256 &&& (1 <<< UPE0) ≠ 0 <;>
    simp only [hf, h1, h2, h3, if_true, if_false, ne_eq, not_false_eq_true, ReportError_latch,
      h0, reduceCtorEq]

/-- C28 at the power-on state: with FE0, DOR0 and UPE0 all set the latch takes
SCI_RX_FRAME, with DOR0 and UPE0 set SCI_RX_DATA_OVERRUN, and with a clean
status it stays NO_ERROR. -/
theorem C28_receive_error_priority_witness :
    (ISR_USART0_RX_vect 28 65 initWorld).SystemError = SCI_RX_FRAME ∧
    (ISR_USART0_RX_vect 12 65 initWorld).SystemError = SCI_RX_DATA_OVERRUN ∧
    (ISR_USART0_RX_vect 0 65 initWorld).SystemError = NO_ERROR :=
  ⟨(C28_receive_error_priority 28 65 initWorld rfl).1.trans (by decide),
   (C28_receive_error_priority 12 65 initWorld rfl).1.trans (by decide),
   (C28_receive_error_priority 0 65 initWorld rfl).1.trans (by decide)⟩

/-! ## The D/A frame -/

/-- C29: DAC frame byte split.  For every sample value v with 0 ≤ v ≤ 1023,
WriteDtoASample v writes exactly two bytes to SPDR, first the most
significant byte floor(4v / 256) and then the least significant byte
(4v) mod 256, so that first * 256 + second = 4 * v; the four top bits of
the 16-bit frame are zero (the first byte is below 16) and the two bottom
bits are zero (the second byte is a multiple of 4). -/
theorem C29_dac_frame_bytes (v : Nat) (s : World) (hv : v ≤ 1023) :
    (WriteDtoASample v s).spdrBytes = s.spdrBytes ++ [4 * v / 256, 4 * v % 256] ∧
    (4 * v / 256) * 256 + 4 * v % 256 = 4 * v ∧
    4 * v < 2 ^ 12 ∧ 4 * v / 256 < 16 ∧
    4 * v % 4 = 0 ∧ (4 * v % 256) % 4 = 0 := by
  refine ⟨?_, by omega, by omega, by omega, by omega, by omega⟩
  rw [WriteDtoASample_spdr]
  have h1 : v * 4 % 65536 / 256 % 256 = 4 * v / 256 := by omega
  have h2 : v * 4 % 65536 % 256 = 4 * v % 256 := by omega
  rw [h1, h2]

/-- C29 at the full-scale sample 1023 from the power-on state: the frame is the
two bytes 15 and 252. -/
theorem C29_dac_frame_bytes_witness :
    (WriteDtoASample 1023 initWorld).spdrBytes = [15, 252] :=
  (C29_dac_frame_bytes 1023 initWorld (by decide)).1.trans (by decide)

/-! ## The memory read of the menu -/

/-- The limit on `Length`, step by step, with the constants written out. -/
theorem readMemory_limit_cases (A L : Nat) :
    ∃ L1 L2 : Nat,
      L1 = (if (A + L + 65535) % 65536 > 1279 then (1279 + 65536 - A + 1) % 65536 else L) ∧
      L2 = (if L1 = 0 then 1 else L1) ∧
      readMemory_limit A L = (if L2 > 64 then 64 else L2) :=
  ⟨_, _, rfl, rfl, rfl⟩

/-- The read loop dereferences consecutive addresses (modulo 2^16). -/
theorem readMemory_loop_eq (n : Nat) (m : MemRead) (hA : m.Address < 65536) :
    readMemory_loop n m =
      ⟨(m.Address + n) % 65536,
        m.reads ++ (List.range n).map (fun i => (m.Address + i) % 65536)⟩ := by
  induction n with
  | zero =>
    show m = _
    simp [Nat.mod_eq_of_lt hA]
  | succ n ih =>
    unfold readMemory_loop at ih ⊢
    rw [List.range_succ, List.foldl_append, ih]
    simp only [List.foldl_cons, List.foldl_nil, readMemory_pass, List.map_append, List.map_cons,
      List.map_nil, List.append_assoc, MemRead.mk.injEq, and_true]
    omega

/-- The addresses the memory read dereferences, in closed form. -/
theorem readMemory_eq (A L : Nat) (hA : A < 65536) :
    readMemory A L = (List.range (readMemory_limit A L)).map (fun i => (A + i) % 65536) := by
  unfold readMemory
  rw [readMemory_loop_eq _ _ hA]
  simp

/-- C30: evaluation of the memory read at the failing input.  The loop always
reads at least 1 and at most 0x40 bytes, and every address it dereferences is
in [0x100, 0x4FF] as long as Address + Length - 1 does not wrap around in 16
bits (Address + Length ≤ 65536).  When it wraps (Address + Length > 65536)
the first limit does not fire, Length is cut to 0x40 and the loop reads
Address .. Address + 0x3F; for Address = 0x4FF and Length = 0xFFFF these are
0x4FF .. 0x53E, of which all but the first lie above 0x4FF. -/
theorem C30_memory_read_limit_wraps :
    (∀ A L : Nat, 0x100 ≤ A → A ≤ 0x4FF → L < 65536 →
      1 ≤ (readMemory A L).length ∧ (readMemory A L).length ≤ 0x40) ∧
    (∀ A L : Nat, 0x100 ≤ A → A ≤ 0x4FF → A + L ≤ 65536 →
      ∀ a ∈ readMemory A L, 0x100 ≤ a ∧ a ≤ 0x4FF) ∧
    (∀ A L : Nat, 0x100 ≤ A → A ≤ 0x4FF → L < 65536 → 65536 < A + L →
      readMemory A L = (List.range 0x40).map (fun i => A + i)) ∧
    readMemory_limit 0x4FF 0xFFFF = 0x40 ∧
    readMemory 0x4FF 0xFFFF = (List.range 0x40).map (fun i => 0x4FF + i) ∧
    0x53E ∈ readMemory 0x4FF 0xFFFF ∧
    ¬ (∀ A L : Nat, 0x100 ≤ A → A ≤ 0x4FF → L < 65536 →
        ∀ a ∈ readMemory A L, 0x100 ≤ a ∧ a ≤ 0x4FF) := by
  have hlen : ∀ A L : Nat, 1 ≤ readMemory_limit A L ∧ readMemory_limit A L ≤ 64 := by
    intro A L
    obtain ⟨L1, L2, h1, h2, h3⟩ := readMemory_limit_cases A L
    rw [h3]
    split_ifs at h2 ⊢ <;> omega
  have hwrap : ∀ A L : Nat, 0x100 ≤ A → A ≤ 0x4FF → L < 65536 → 65536 < A + L →
      readMemory A L = (List.range 0x40).map (fun i => A + i) := by
    intro A L hA1 hA2 hL hw
    have hlim : readMemory_limit A L = 64 := by
      obtain ⟨L1, L2, h1, h2, h3⟩ := readMemory_limit_cases A L
      rw [h3]
      split_ifs at h1 h2 ⊢ <;> omega
    rw [readMemory_eq A L (by omega), hlim]
    apply List.map_congr_left
    intro i hi
    have hi2 : i < 64 := List.mem_range.1 hi
    exact Nat.mod_eq_of_lt (by omega)
  have hbad : readMemory 0x4FF 0xFFFF = (List.range 0x40).map (fun i => 0x4FF + i) :=
    hwrap 0x4FF 0xFFFF (by decide) (by decide) (by decide) (by decide)
  have hmem : 0x53E ∈ readMemory 0x4FF 0xFFFF := by
    rw [hbad]
    exact List.mem_map.2 ⟨0x3F, List.mem_range.2 (by decide), by decide⟩
  refine ⟨?_, ?_, hwrap, ?_, hbad, hmem, ?_⟩
  · intro A L hA1 hA2 hL
    rw [readMemory_eq A L (by omega), List.length_map, List.length_range]
    exact hlen A L
  · intro A L hA1 hA2 hL a ha
    rw [readMemory_eq A L (by omega)] at ha
    obtain ⟨i, hi, hia⟩ := List.mem_map.1 ha
    have hi2 : i < readMemory_limit A L := List.mem_range.1 hi
    obtain ⟨L1, L2, h1, h2, h3⟩ := readMemory_limit_cases A L
    rw [h3] at hi2
    have hsmall : A + i ≤ 0x4FF := by
      split_ifs at h1 h2 hi2 <;> omega
    rw [Nat.mod_eq_of_lt (by omega)] at hia
    omega
  · obtain ⟨L1, L2, h1, h2, h3⟩ := readMemory_limit_cases 0x4FF 0xFFFF
    rw [h3]
    split_ifs at h1 h2 ⊢ <;> omega
  · intro hall
    have := (hall 0x4FF 0xFFFF (by decide) (by decide) (by decide) 0x53E hmem).2
    omega

/-! ## The overrun guard without nesting -/

/-- An invocation entered with the guard clear takes the task branch: the
state on exit is the state at entry with the bodies of the called tasks
applied in call order, and nothing else. -/
theorem ISR_TIMER0_world (RunMenu : World → World) (t : Timer0Statics) (w : World)
    (h : t.bMedThreadInProgress = eBooleanType.FALSE) :
    (ISR_TIMER0_COMPA_vect RunMenu t w).world =
      (ISR_TIMER0_COMPA_vect RunMenu t w).calls.foldl (fun st k => k.run RunMenu st) w := by
  unfold ISR_TIMER0_COMPA_vect
  simp only [h, if_false, reduceCtorEq]
  generalize nextMedThreadCount t.uiMedThreadCount = c
  by_cases h1 : c % HEARTBEAT_TICKS = 0 <;>
    by_cases h2 : c % SIGNAL_TICKS (heartbeat w).FreqDesired = 0 <;>
    by_cases h2b : c % SIGNAL_TICKS w.FreqDesired = 0 <;>
    by_cases h3 : c % MENU_TICKS = 0 <;>
    simp [h1, h2, h2b, h3, TickTask.run]

/-- C34: the overrun branch is unreachable without nesting.  In a run of Timer0
handler invocations from the initial statics, each run to completion before
the next begins (whatever state each tick runs on and whatever the menu body
does), the guard bMedThreadInProgress is FALSE at the entry and at the exit
of every invocation; so every invocation takes the task branch (its exit
state is the entry state with the dispatched task bodies applied, without
the ReportError(MEDIUM_TASK_OVERRUN) of the overrun branch) and the counter
advances on every tick. -/
theorem C34_overrun_unreachable_without_nesting (RunMenu : Nat → World → World)
    (ws : Nat → World) (n : Nat) :
    (timer0After RunMenu ws n).bMedThreadInProgress = eBooleanType.FALSE ∧
    (timer0After RunMenu ws (n + 1)).bMedThreadInProgress = eBooleanType.FALSE ∧
    (ISR_TIMER0_COMPA_vect (RunMenu (n + 1)) (timer0After RunMenu ws n) (ws (n + 1))).world =
      (tickCalls RunMenu ws (n + 1)).foldl (fun st k => k.run (RunMenu (n + 1)) st)
        (ws (n + 1)) ∧
    (timer0After RunMenu ws (n + 1)).uiMedThreadCount =
      nextMedThreadCount (timer0After RunMenu ws n).uiMedThreadCount ∧
    (timer0After RunMenu ws (n + 1)).uiMedThreadCount ≠
      (timer0After RunMenu ws n).uiMedThreadCount := by
  have h0 : (timer0After RunMenu ws n).bMedThreadInProgress = eBooleanType.FALSE := by
    rw [timer0After_eq]
  have h1 : (timer0After RunMenu ws (n + 1)).bMedThreadInProgress = eBooleanType.FALSE := by
    rw [timer0After_eq]
  refine ⟨h0, h1, ?_, ?_, ?_⟩
  · exact ISR_TIMER0_world _ _ _ h0
  · rw [timer0After_eq, timer0After_eq, nextMedThreadCount_eq]
    show (n + 1) % 200 + 1 = if n % 200 + 1 < 200 then n % 200 + 1 + 1 else 1
    split_ifs <;> omega
  · rw [timer0After_eq, timer0After_eq]
    show (n + 1) % 200 + 1 ≠ n % 200 + 1
    omega

/-! ## The two writers -/

/-- C38: the RAM writer and the program-space writer are the same function.  For
every state (transmit buffer, pointers, UCSR0B, error latch) and every byte
string, SCIWriteString_P and SCIWriteString give the same return value and
the same state after. -/
theorem C38_writers_agree (Str : List Nat) (s : World) :
    (SCIWriteString_P Str s).1 = (SCIWriteString Str s).1 ∧
    (SCIWriteString_P Str s).2 = (SCIWriteString Str s).2 ∧
    (SCIWriteString_P Str s).2.zOutputChars = (SCIWriteString Str s).2.zOutputChars ∧
    (SCIWriteString_P Str s).2.ptrOutputCharHead = (SCIWriteString Str s).2.ptrOutputCharHead ∧
    (SCIWriteString_P Str s).2.ptrOutputCharTail = (SCIWriteString Str s).2.ptrOutputCharTail ∧
    (SCIWriteString_P Str s).2.UCSR0B = (SCIWriteString Str s).2.UCSR0B ∧
    (SCIWriteString_P Str s).2.SystemError = (SCIWriteString Str s).2.SystemError := by
  rw [SCIWriteString_P_eq]
  exact ⟨rfl, rfl, rfl, rfl, rfl, rfl, rfl⟩

/-! ## The error LED and the latch -/

/-- Clearing the error LED bit of an 8-bit register leaves its other bits. -/
theorem CLEAR_BIT_ERROR_LED_other (p b : Nat) (hp : p < 256) (hb : b ≠ ERROR_LED_BIT) :
    (CLEAR_BIT p ERROR_LED_BIT).testBit b = p.testBit b := by
  unfold CLEAR_BIT
  rw [Nat.testBit_and]
  by_cases h8 : b < 8
  · have : (255 - (1 <<< ERROR_LED_BIT)).testBit b = true := by
      have hb5 : b ≠ 5 := hb
      interval_cases b <;> first | rfl | exact absurd rfl hb5
    rw [this, Bool.and_true]
  · have h1 : p.testBit b = false :=
      Nat.testBit_eq_false_of_lt (lt_of_lt_of_le hp
        (by
          calc 256 = 2 ^ 8 := rfl
            _ ≤ 2 ^ b := Nat.pow_le_pow_right (by decide) (by omega)))
    rw [h1, Bool.false_and]

/-- Setting the error LED bit of an 8-bit register leaves its other bits. -/
theorem SET_BIT_ERROR_LED_other (p b : Nat) (hp : p < 256) (hb : b ≠ ERROR_LED_BIT) :
    (SET_BIT p ERROR_LED_BIT).testBit b = p.testBit b := by
  unfold SET_BIT
  rw [show (256 : Nat) = 2 ^ 8 from rfl, Nat.testBit_mod_two_pow, Nat.testBit_or]
  by_cases h8 : b < 8
  · have : (1 <<< ERROR_LED_BIT).testBit b = false := by
      have hb5 : b ≠ 5 := hb
      interval_cases b <;> first | rfl | exact absurd rfl hb5
    rw [this, Bool.or_false]
    simp [h8]
  · have h1 : p.testBit b = false :=
      Nat.testBit_eq_false_of_lt (lt_of_lt_of_le hp
        (by
          calc 256 = 2 ^ 8 := rfl
            _ ≤ 2 ^ b := Nat.pow_le_pow_right (by decide) (by omega)))
    rw [h1]
    simp [h8]

/-- From the power-on state PORTB is 0xFF or 0xDF after any latch calls, and it
is 0xDF whenever an error is latched. -/
theorem latch_led_inv (cs : List LatchCall) :
    ∀ s : World, (s.PORTB = 255 ∧ s.SystemError = NO_ERROR) ∨ s.PORTB = 223 →
      ((runLatchCalls cs s).PORTB = 255 ∧ (runLatchCalls cs s).SystemError = NO_ERROR) ∨
        (runLatchCalls cs s).PORTB = 223 := by
  induction cs with
  | nil => intro s h; exact h
  | cons c rest ih =>
    intro s h
    show ((runLatchCalls rest (c.run s)).PORTB = 255 ∧ _) ∨ _
    apply ih
    cases c with
    | report k =>
      show ((ReportError k s).PORTB = 255 ∧ (ReportError k s).SystemError = NO_ERROR) ∨
        (ReportError k s).PORTB = 223
      unfold ReportError
      rcases h with ⟨hp, he⟩ | hp
      · right; rw [if_pos he]; show CLEAR_BIT s.PORTB ERROR_LED_BIT = 223; rw [hp]; rfl
      · right
        by_cases he : s.SystemError = NO_ERROR
        · rw [if_pos he]; show CLEAR_BIT s.PORTB ERROR_LED_BIT = 223; rw [hp]; rfl
        · rw [if_neg he]; exact hp
    | clear =>
      left
      refine ⟨?_, rfl⟩
      show SET_BIT s.PORTB ERROR_LED_BIT = 255
      rcases h with ⟨hp, _⟩ | hp <;> rw [hp] <;> rfl
    | get => exact h

/-- Without a ReportError(NO_ERROR) among the calls, PORTB is 0xFF with an empty
latch and 0xDF with a latched error. -/
theorem latch_led_inv_strict (cs : List LatchCall) (hcs : LatchCall.report NO_ERROR ∉ cs) :
    ∀ s : World, (s.PORTB = 255 ∧ s.SystemError = NO_ERROR) ∨
        (s.PORTB = 223 ∧ s.SystemError ≠ NO_ERROR) →
      ((runLatchCalls cs s).PORTB = 255 ∧ (runLatchCalls cs s).SystemError = NO_ERROR) ∨
        ((runLatchCalls cs s).PORTB = 223 ∧ (runLatchCalls cs s).SystemError ≠ NO_ERROR) := by
  induction cs with
  | nil => intro s h; exact h
  | cons c rest ih =>
    intro s h
    show ((runLatchCalls rest (c.run s)).PORTB = 255 ∧ _) ∨ _
    apply ih (fun hm => hcs (List.mem_cons_of_mem _ hm))
    cases c with
    | report k =>
      have hk : k ≠ NO_ERROR := fun hk => hcs (by rw [hk]; exact List.mem_cons_self _ _)
      show ((ReportError k s).PORTB = 255 ∧ (ReportError k s).SystemError = NO_ERROR) ∨
        ((ReportError k s).PORTB = 223 ∧ (ReportError k s).SystemError ≠ NO_ERROR)
      unfold ReportError
      rcases h with ⟨hp, he⟩ | ⟨hp, he⟩
      · right; rw [if_pos he]
        exact ⟨by show CLEAR_BIT s.PORTB ERROR_LED_BIT = 223; rw [hp]; rfl, hk⟩
      · right; rw [if_neg he]; exact ⟨hp, he⟩
    | clear =>
      left
      refine ⟨?_, rfl⟩
      show SET_BIT s.PORTB ERROR_LED_BIT = 255
      rcases h with ⟨hp, _⟩ | ⟨hp, _⟩ <;> rw [hp] <;> rfl
    | get => exact h

/-- C35 as stated fails: ReportError(NO_ERROR) on the power-on state lights the
error LED (bit ERROR_LED_BIT of PORTB becomes 0) while the latch still reads
NO_ERROR, so the LED bit is 0 without SystemError ≠ NO_ERROR. -/
theorem C35_report_no_error_lights_led :
    (runLatchCalls [LatchCall.report NO_ERROR] initWorld).SystemError = NO_ERROR ∧
    (runLatchCalls [LatchCall.report NO_ERROR] initWorld).PORTB = 0xDF ∧
    ¬ ((runLatchCalls [LatchCall.report NO_ERROR] initWorld).PORTB.testBit ERROR_LED_BIT = false ↔
        (runLatchCalls [LatchCall.report NO_ERROR] initWorld).SystemError ≠ NO_ERROR) := by
  refine ⟨rfl, rfl, ?_⟩
  intro h
  exact h.1 rfl rfl

/-- C35, amended: the error indicator mirrors the latch when only real errors
are reported.  From the power-on state (SystemError = NO_ERROR, PORTB = 0xFF),
after any sequence of ReportError(k), ClearError and GetError calls: no bit
of PORTB other than ERROR_LED_BIT differs from its power-on value; a latched
error implies that the LED bit is 0; and if no call was ReportError(NO_ERROR),
the LED bit is 0 iff SystemError ≠ NO_ERROR.  Each of the three operations,
on any 8-bit PORTB, leaves every bit other than ERROR_LED_BIT unchanged. -/
theorem C35_led_mirrors_latch (cs : List LatchCall) :
    (∀ b, b ≠ ERROR_LED_BIT →
      (runLatchCalls cs initWorld).PORTB.testBit b = initWorld.PORTB.testBit b) ∧
    ((runLatchCalls cs initWorld).SystemError ≠ NO_ERROR →
      (runLatchCalls cs initWorld).PORTB.testBit ERROR_LED_BIT = false) ∧
    (LatchCall.report NO_ERROR ∉ cs →
      ((runLatchCalls cs initWorld).PORTB.testBit ERROR_LED_BIT = false ↔
        (runLatchCalls cs initWorld).SystemError ≠ NO_ERROR)) ∧
    (∀ (c : LatchCall) (s : World) (b : Nat), s.PORTB < 256 → b ≠ ERROR_LED_BIT →
      (c.run s).PORTB.testBit b = s.PORTB.testBit b) := by
  have h0 : (initWorld.PORTB = 255 ∧ initWorld.SystemError = NO_ERROR) ∨ initWorld.PORTB = 223 :=
    Or.inl ⟨rfl, rfl⟩
  have hinv := latch_led_inv cs initWorld h0
  refine ⟨?_, ?_, ?_, ?_⟩
  · intro b hb
    rcases hinv with ⟨hp, _⟩ | hp
    · rw [hp]; rfl
    · rw [hp]
      exact CLEAR_BIT_ERROR_LED_other 255 b (by decide) hb
  · intro he
    rcases hinv with ⟨_, hn⟩ | hp
    · exact absurd hn he
    · rw [hp]; rfl
  · intro hcs
    rcases latch_led_inv_strict cs hcs initWorld (Or.inl ⟨rfl, rfl⟩) with ⟨hp, he⟩ | ⟨hp, he⟩
    · rw [hp, he]
      exact ⟨fun h => absurd h (by decide), fun h => absurd rfl h⟩
    · rw [hp]
      exact ⟨fun _ => he, fun _ => rfl⟩
  · intro c s b hp hb
    cases c with
    | report k =>
      show (ReportError k s).PORTB.testBit b = s.PORTB.testBit b
      unfold ReportError
      split_ifs
      · exact CLEAR_BIT_ERROR_LED_other _ _ hp hb
      · rfl
    | clear => exact SET_BIT_ERROR_LED_other _ _ hp hb
    | get => rfl

/-- C35 (amended) on a concrete run: an overrun is reported, read, and cleared. -/
theorem C35_led_mirrors_latch_witness :
    (runLatchCalls [LatchCall.report MEDIUM_TASK_OVERRUN, LatchCall.get] initWorld).PORTB.testBit
        ERROR_LED_BIT = false ∧
    (runLatchCalls [LatchCall.report MEDIUM_TASK_OVERRUN, LatchCall.get] initWorld).SystemError
        ≠ NO_ERROR :=
  have h := (C35_led_mirrors_latch
    [LatchCall.report MEDIUM_TASK_OVERRUN, LatchCall.get]).2.2.1 (by decide)
  ⟨h.2 (by decide), by decide⟩

/-! ## Cadence of the waveform task in the tick handler -/

/-- In a non-overrun invocation the waveform task is called exactly when the
updated counter is a multiple of the divisor for the frequency at entry. -/
theorem ISR_TIMER0_calls_mem_signal (RunMenu : World → World) (t : Timer0Statics) (w : World)
    (h : t.bMedThreadInProgress = eBooleanType.FALSE) :
    TickTask.UpdateSignal ∈ (ISR_TIMER0_COMPA_vect RunMenu t w).calls ↔
      nextMedThreadCount t.uiMedThreadCount % SIGNAL_TICKS w.FreqDesired = 0 := by
  have hF : (heartbeat w).FreqDesired = w.FreqDesired := rfl
  unfold ISR_TIMER0_COMPA_vect
  simp only [h, if_false, reduceCtorEq, HEARTBEAT_TICKS_eq, MENU_TICKS_eq]
  generalize nextMedThreadCount t.uiMedThreadCount = c
  by_cases h1 : c % 20 = 0 <;>
    by_cases h2 : c % SIGNAL_TICKS w.FreqDesired = 0 <;>
    by_cases h3 : c % 4 = 0 <;>
    simp [h1, h2, h3, hF]

/-- With the frequency held at f, tick n (n ≥ 1) of an overrun-free run calls
the waveform task exactly when its counter n mod 200 + 1 is a multiple of
floor(2000 / f). -/
theorem signal_dispatch_iff (RunMenu : Nat → World → World) (ws : Nat → World) (f : Nat)
    (hf : ∀ k, (ws k).FreqDesired = f) (n : Nat) (hn : 1 ≤ n) :
    TickTask.UpdateSignal ∈ tickCalls RunMenu ws n ↔ (n % 200 + 1) % (2000 / f) = 0 := by
  have hc := tick_count RunMenu ws n hn
  unfold tickCalls
  rw [ISR_TIMER0_calls_mem_signal _ _ _ hc.2, hc.1, SIGNAL_TICKS_eq, hf]

/-- C36: cadence of the waveform task in the tick handler, with the frequency
held at a valid f and M = floor(2000 / f).  Tick n (n ≥ 1) dispatches
UpdateSignal iff (n mod 200 + 1) mod M = 0.  When M divides 200 (exactly for
f = 40, 50, 80, 100) consecutive dispatches are M ticks apart, wrap included.
For the nine other valid frequencies the last dispatch before the wrap is at
tick 199 - 200 mod M and the next one at tick 199 + M, with none between:
M + 200 mod M ticks apart, not M. -/
theorem C36_refresh_cadence_breaks_at_wrap (RunMenu : Nat → World → World) (ws : Nat → World)
    (f : Nat) (hf : ∀ k, (ws k).FreqDesired = f) (h1 : 40 ≤ f) (h2 : f ≤ 100)
    (h3 : f % 5 = 0) :
    (∀ n, 1 ≤ n →
      (TickTask.UpdateSignal ∈ tickCalls RunMenu ws n ↔ (n % 200 + 1) % (2000 / f) = 0)) ∧
    (200 % (2000 / f) = 0 ↔ f = 40 ∨ f = 50 ∨ f = 80 ∨ f = 100) ∧
    (200 % (2000 / f) = 0 → ∀ n, 1 ≤ n → TickTask.UpdateSignal ∈ tickCalls RunMenu ws n →
      TickTask.UpdateSignal ∈ tickCalls RunMenu ws (n + 2000 / f) ∧
      ∀ k, 0 < k → k < 2000 / f → TickTask.UpdateSignal ∉ tickCalls RunMenu ws (n + k)) ∧
    (200 % (2000 / f) ≠ 0 →
      TickTask.UpdateSignal ∈ tickCalls RunMenu ws (199 - 200 % (2000 / f)) ∧
      TickTask.UpdateSignal ∈ tickCalls RunMenu ws (199 + 2000 / f) ∧
      (∀ k, 199 - 200 % (2000 / f) < k → k < 199 + 2000 / f →
        TickTask.UpdateSignal ∉ tickCalls RunMenu ws k) ∧
      (199 + 2000 / f) - (199 - 200 % (2000 / f)) = 2000 / f + 200 % (2000 / f)) := by
  have hd := signal_dispatch_iff RunMenu ws f hf
  have hcases : f = 40 ∨ f = 45 ∨ f = 50 ∨ f = 55 ∨ f = 60 ∨ f = 65 ∨ f = 70 ∨ f = 75 ∨
      f = 80 ∨ f = 85 ∨ f = 90 ∨ f = 95 ∨ f = 100 := by omega
  have hM : 20 ≤ 2000 / f ∧ 2000 / f ≤ 50 ∧ 200 % (2000 / f) < 50 := by
    rcases hcases with h | h | h | h | h | h | h | h | h | h | h | h | h <;> subst h <;> decide
  refine ⟨hd, ?_, ?_, ?_⟩
  · rcases hcases with h | h | h | h | h | h | h | h | h | h | h | h | h <;> subst h <;> decide
  · intro hdiv n hn hin
    have h0 := (hd n hn).1 hin
    refine ⟨(hd (n + 2000 / f) (by omega)).2 ?_, fun k hk0 hk => ?_⟩
    · rcases hcases with h | h | h | h | h | h | h | h | h | h | h | h | h <;> subst h <;>
        norm_num at hdiv h0 ⊢ <;> omega
    · rw [hd (n + k) (by omega)]
      rcases hcases with h | h | h | h | h | h | h | h | h | h | h | h | h <;> subst h <;>
        norm_num at hdiv h0 hk ⊢ <;> omega
  · intro hdiv
    refine ⟨(hd _ ?_).2 ?_, (hd _ (by omega)).2 ?_, fun k hk1 hk2 => ?_, ?_⟩
    · rcases hcases with h | h | h | h | h | h | h | h | h | h | h | h | h <;> subst h <;> decide
    · rcases hcases with h | h | h | h | h | h | h | h | h | h | h | h | h <;> subst h <;> decide
    · rcases hcases with h | h | h | h | h | h | h | h | h | h | h | h | h <;> subst h <;> decide
    · have hk : 1 ≤ k := by omega
      rw [hd k hk]
      have hmod : (k < 200 ∧ k % 200 = k) ∨ (200 ≤ k ∧ k < 400 ∧ k % 200 = k - 200) := by
        omega
      generalize k % 200 = r at hmod
      rcases hcases with h | h | h | h | h | h | h | h | h | h | h | h | h <;> subst h <;>
        norm_num at hdiv hk1 hk2 ⊢ <;> omega
    · rcases hcases with h | h | h | h | h | h | h | h | h | h | h | h | h <;> subst h <;> decide

/-- C36 at f = 45 (M = 44), every tick on the power-on state with the frequency
set to 45: the waveform task is dispatched at tick 175 (counter 176) and next
at tick 243 (counter 44), 68 ticks later. -/
theorem C36_refresh_cadence_breaks_at_wrap_witness :
    TickTask.UpdateSignal ∈
      tickCalls (fun _ => id) (fun _ => { initWorld with FreqDesired := 45 }) 175 ∧
    TickTask.UpdateSignal ∈
      tickCalls (fun _ => id) (fun _ => { initWorld with FreqDesired := 45 }) 243 ∧
    (∀ k, 175 < k → k < 243 → TickTask.UpdateSignal ∉
      tickCalls (fun _ => id) (fun _ => { initWorld with FreqDesired := 45 }) k) ∧
    TickTask.UpdateSignal ∉
      tickCalls (fun _ => id) (fun _ => { initWorld with FreqDesired := 45 }) (175 + 44) :=
  have h := C36_refresh_cadence_breaks_at_wrap (fun _ => id)
    (fun _ => { initWorld with FreqDesired := 45 }) 45 (fun _ => rfl) (by decide) (by decide)
    (by decide)
  have h4 := h.2.2.2 (by decide)
  ⟨h4.1, h4.2.1, h4.2.2.1, h4.2.2.1 219 (by decide) (by decide)⟩

/-! ## The transmit interrupt and the queue -/

/-- The copy loop reads a string up to its first NUL. -/
theorem SCIWriteString_loop_takeWhile (Str : List Nat) :
    ∀ s : World, SCIWriteString_loop Str s =
      SCIWriteString_loop (Str.takeWhile (fun c => decide (c ≠ 0))) s := by
  induction Str with
  | nil => intro s; rfl
  | cons c rest ih =>
    intro s
    by_cases hr : INC_CIRC_BUFFER_PTR s.ptrOutputCharHead 0 MAX_OUT_STR_SIZE ≠ s.ptrOutputCharTail
    · by_cases hc : c ≠ 0
      · rw [List.takeWhile_cons_of_pos (by simpa using hc), SCIWriteString_loop_cons c _ s hc hr,
          SCIWriteString_loop_cons c _ s hc hr, ih]
      · rw [List.takeWhile_cons_of_neg (by simpa using hc), SCIWriteString_loop_cons_nul c _ s hc hr,
          SCIWriteString_loop_nil s hr]
    · rw [SCIWriteString_loop_full _ s hr, SCIWriteString_loop_full _ s hr]

/-- The writer reads a string up to its first NUL. -/
theorem SCIWriteString_takeWhile (Str : List Nat) (s : World) :
    SCIWriteString Str s = SCIWriteString (Str.takeWhile (fun c => decide (c ≠ 0))) s := by
  unfold SCIWriteString
  rw [← SCIWriteString_loop_takeWhile]

/-- A writer call on a trace that satisfies the invariant, with a string whose
first byte is not NUL. -/
theorem TxInv_write (u : List Nat) (tr : TxTrace) (Str : List Nat) (hinv : TxInv u tr)
    (hne : Str.headD 0 ≠ 0) :
    TxInv u { s := (SCIWriteString Str tr.s).2
              accepted := tr.accepted ++
                (txQueued (SCIWriteString Str tr.s).2).drop (txQueued tr.s).length } := by
  obtain ⟨hh, ht, _, sent, hsent, hacc⟩ := hinv
  have hnz : ∀ c ∈ Str.takeWhile (fun c => decide (c ≠ 0)), c ≠ 0 := by
    intro c hc
    simpa using List.mem_takeWhile_imp hc
  have hspec := SCIWriteString_spec _ tr.s hnz hh ht
  rw [← SCIWriteString_takeWhile] at hspec
  obtain ⟨hq, hh2, ht2, hudr, _, _, _⟩ := hspec
  have hne2 : txQueued (SCIWriteString Str tr.s).2 ≠ [] := by
    rw [hq]
    cases Str with
    | nil => exact absurd rfl hne
    | cons c rest =>
      have hc : c ≠ 0 := hne
      rw [List.takeWhile_cons_of_pos (by simpa using hc)]
      intro h
      have hlen := congrArg List.length h
      have hroom := (tx_room_iff tr.s hh ht).2
      rw [List.append_eq_nil] at h
      have h1 := h.1
      have h2 := h.2
      rw [h1] at h2
      simp at h2
  refine ⟨hh2, by rw [ht2]; exact ht, fun _ heq => hne2 ?_, sent, by rw [hudr]; exact hsent, ?_⟩
  · exact (ringQueued_eq_nil _ _ _ 250 (Or.inl rfl) hh2 (by rw [ht2]; exact ht)).2 heq.symm
  · show tr.accepted ++ _ = _
    rw [hq, List.drop_left, hacc, List.append_assoc]

/-- Every event that is not a write of the empty string keeps the invariant. -/
theorem TxEvent_step_inv (u : List Nat) (tr : TxTrace) (e : TxEvent) (hinv : TxInv u tr)
    (he : e.emptyString = false) : TxInv u (e.step tr) := by
  cases e with
  | writeString Str =>
    exact TxInv_write u tr Str hinv (by simpa [TxEvent.emptyString] using he)
  | writeString_P Str_P =>
    show TxInv u { s := (SCIWriteString_P Str_P tr.s).2
                   accepted := tr.accepted ++
                     (txQueued (SCIWriteString_P Str_P tr.s).2).drop (txQueued tr.s).length }
    rw [SCIWriteString_P_eq]
    exact TxInv_write u tr Str_P hinv (by simpa [TxEvent.emptyString] using he)
  | transmit =>
    show TxInv u (if tr.s.UCSR0B.testBit UDRIE0 then { tr with s := ISR_USART0_UDRE_vect tr.s }
      else tr)
    by_cases hb : tr.s.UCSR0B.testBit UDRIE0 = true
    · rw [if_pos hb]
      obtain ⟨hh, ht, harm, sent, hsent, hacc⟩ := hinv
      have hne := harm hb
      have hq : txQueued tr.s ≠ [] := fun h =>
        hne ((ringQueued_eq_nil _ _ _ 250 (Or.inl rfl) hh ht).1 h).symm
      obtain ⟨b, rest, hbr⟩ := List.exists_cons_of_ne_nil hq
      obtain ⟨h1, h2, h3, h4, h5⟩ := ISR_USART0_UDRE_spec tr.s hh ht b rest hbr
      refine ⟨by rw [h3]; exact hh, h4, fun hset heq => ?_, sent ++ [b], ?_, ?_⟩
      · have hrest := h5.1 hset
        apply hrest
        rw [← h2]
        exact (ringQueued_eq_nil _ _ _ 250 (Or.inl rfl) (by rw [h3]; exact hh) h4).2 heq.symm
      · show (ISR_USART0_UDRE_vect tr.s).udr0Bytes = _
        rw [h1, hsent, List.append_assoc]
      · show tr.accepted = _
        rw [hacc, hbr]
        show _ = sent ++ [b] ++ txQueued (ISR_USART0_UDRE_vect tr.s)
        rw [h2, List.append_assoc, List.singleton_append]
    · rw [if_neg hb]
      exact hinv

/-- Every run of events without a write of the empty string keeps the invariant. -/
theorem runTxEvents_inv (u : List Nat) (es : List TxEvent) :
    ∀ tr : TxTrace, TxInv u tr → (∀ e ∈ es, e.emptyString = false) →
      TxInv u (runTxEvents es tr) := by
  induction es with
  | nil => intro tr h _; exact h
  | cons e rest ih =>
    intro tr h hes
    show TxInv u (runTxEvents rest (e.step tr))
    exact ih _ (TxEvent_step_inv u tr e h (hes e (List.mem_cons_self _ _)))
      (fun e2 h2 => hes e2 (List.mem_cons_of_mem _ h2))

/-- The invariant holds right after `SCIInitialize`. -/
theorem initTxTrace_inv (s0 : World) : TxInv s0.udr0Bytes (initTxTrace s0) := by
  have hP : ∀ (Str : List Nat) (s : World), SCIWriteString_P Str s = SCIWriteString Str s :=
    SCIWriteString_P_eq
  unfold initTxTrace SCIInitialize
  simp only [hP]
  generalize hs1 : ({ s0 with
    UCSR0B := (1 <<< RXCIE0) ||| (1 <<< RXEN0) ||| (1 <<< TXEN0)
    ptrInputCharHead := 0
    ptrInputCharTail := 0
    ptrOutputCharHead := 0
    ptrOutputCharTail := 0 } : World) = s1
  have hh1 : s1.ptrOutputCharHead = 0 := by rw [← hs1]
  have ht1 : s1.ptrOutputCharTail = 0 := by rw [← hs1]
  have hu1 : s1.udr0Bytes = s0.udr0Bytes := by rw [← hs1]
  have hq1 : txQueued s1 = [] :=
    (ringQueued_eq_nil _ _ _ 250 (Or.inl rfl) (by rw [hh1]; decide) (by rw [ht1]; decide)).2
      (by rw [hh1, ht1])
  obtain ⟨a1, a2, a3, a4, _, _, _⟩ := SCIWriteString_spec welcomeString s1 (by decide)
    (by rw [hh1]; decide) (by rw [ht1]; decide)
  rw [hq1] at a1
  obtain ⟨b1, b2, b3, b4, b5, _, _⟩ := SCIWriteString_spec promptString
    (SCIWriteString welcomeString s1).2 (by decide) a2 (by rw [a3, ht1]; decide)
  rw [a1] at b1
  have hq : txQueued (SCIWriteString promptString (SCIWriteString welcomeString s1).2).2
      = welcomeString ++ promptString := by
    rw [b1]; rfl
  refine ⟨b2, by rw [b3, a3, ht1]; decide, fun _ heq => ?_, [], ?_, ?_⟩
  · have h2 : txQueued (SCIWriteString promptString (SCIWriteString welcomeString s1).2).2 = [] :=
      (ringQueued_eq_nil
        (SCIWriteString promptString (SCIWriteString welcomeString s1).2).2.zOutputChars _ _ 250
        (Or.inl rfl) b2 (by rw [b3, a3, ht1]; decide)).2 heq.symm
    rw [hq] at h2
    exact absurd h2 (by decide)
  · show (SCIWriteString promptString (SCIWriteString welcomeString s1).2).2.udr0Bytes = _
    rw [b4, a4, hu1, List.append_nil]
  · show welcomeString ++ promptString = [] ++ _
    rw [hq, List.nil_append]

/-- C33 as stated fails: from SCIInitialize on the power-on state, 46 invocations
of the transmit handler empty the buffer, and SCIWriteString of the empty
string then sets UDRIE0 while tail = head.  The next invocation of the
handler sends the stale byte under the tail, so 47 bytes are written to UDR0
although only 46 were copied into the buffer. -/
theorem C33_empty_string_arms_empty_buffer :
    (runTxEvents (List.replicate 46 TxEvent.transmit ++ [TxEvent.writeString []])
      (initTxTrace initWorld)).s.UCSR0B.testBit UDRIE0 = true ∧
    (runTxEvents (List.replicate 46 TxEvent.transmit ++ [TxEvent.writeString []])
      (initTxTrace initWorld)).s.ptrOutputCharTail =
    (runTxEvents (List.replicate 46 TxEvent.transmit ++ [TxEvent.writeString []])
      (initTxTrace initWorld)).s.ptrOutputCharHead ∧
    (runTxEvents (List.replicate 46 TxEvent.transmit ++
        [TxEvent.writeString [], TxEvent.transmit]) (initTxTrace initWorld)).s.udr0Bytes =
      welcomeString ++ promptString ++ [0] ∧
    (runTxEvents (List.replicate 46 TxEvent.transmit ++
        [TxEvent.writeString [], TxEvent.transmit]) (initTxTrace initWorld)).accepted =
      welcomeString ++ promptString := by
  set_option maxRecDepth 100000 in
  refine ⟨by decide, by decide, by decide, by decide⟩

/-- C33, amended: the transmit interrupt is never armed on an empty buffer when
no writer is called with the empty string.  In every state reached from
SCIInitialize by SCIWriteString and SCIWriteString_P calls on strings whose
first byte is not NUL and by invocations of the USART0_UDRE handler (which
happen only while UDRIE0 is set), UDRIE0 set implies tail ≠ head, and the
bytes written to UDR0 since the start are a prefix of the bytes the writers
copied into the buffer, the rest of which is exactly what is still queued. -/
theorem C33_transmit_armed_only_when_queued (s0 : World) (es : List TxEvent)
    (hes : ∀ e ∈ es, e.emptyString = false) :
    ((runTxEvents es (initTxTrace s0)).s.UCSR0B.testBit UDRIE0 = true →
      (runTxEvents es (initTxTrace s0)).s.ptrOutputCharTail ≠
        (runTxEvents es (initTxTrace s0)).s.ptrOutputCharHead) ∧
    ∃ sent, (runTxEvents es (initTxTrace s0)).s.udr0Bytes = s0.udr0Bytes ++ sent ∧
      (runTxEvents es (initTxTrace s0)).accepted =
        sent ++ txQueued (runTxEvents es (initTxTrace s0)).s := by
  have h := runTxEvents_inv s0.udr0Bytes es (initTxTrace s0) (initTxTrace_inv s0) hes
  exact ⟨h.2.2.1, h.2.2.2⟩

/-- C33 (amended) on a concrete run from the power-on state: two bytes are sent,
the string "ok" is written, one more byte is sent. -/
theorem C33_transmit_armed_only_when_queued_witness :
    ((runTxEvents [TxEvent.transmit, TxEvent.transmit, TxEvent.writeString [111, 107],
        TxEvent.transmit] (initTxTrace initWorld)).s.UCSR0B.testBit UDRIE0 = true →
      (runTxEvents [TxEvent.transmit, TxEvent.transmit, TxEvent.writeString [111, 107],
        TxEvent.transmit] (initTxTrace initWorld)).s.ptrOutputCharTail ≠
      (runTxEvents [TxEvent.transmit, TxEvent.transmit, TxEvent.writeString [111, 107],
        TxEvent.transmit] (initTxTrace initWorld)).s.ptrOutputCharHead) ∧
    (runTxEvents [TxEvent.transmit, TxEvent.transmit, TxEvent.writeString [111, 107],
        TxEvent.transmit] (initTxTrace initWorld)).s.udr0Bytes = [87, 101, 108] :=
  ⟨(C33_transmit_armed_only_when_queued initWorld
      [TxEvent.transmit, TxEvent.transmit, TxEvent.writeString [111, 107], TxEvent.transmit]
      (by decide)).1, by decide⟩

/-! ## Support: integer and string conversion -/

/-- A value in the range of a 16-bit `int` is stored unchanged. -/
theorem int16_id (x : Int) (h1 : -32768 ≤ x) (h2 : x ≤ 32767) : int16 x = x := by
  unfold int16
  omega

/-- The digit loop writes `digitChar d` for a digit d of base 10 or 16. -/
theorem _itoa_digit_eq (d b : Nat) (hb : b = 10 ∨ b = 16) (hd : d < b) (rev : List Nat) :
    _itoa_digit (d : Int) (b : Int) rev = digitChar d :: rev := by
  rcases hb with rfl | rfl <;> interval_cases d <;> simp [_itoa_digit, digitChar]

/-- The digit loop of `_itoa` ends within its 16 passes on every value below
2^16 and leaves the digits, most significant first, in front of `rev`. -/
theorem _itoa_loop_digits (b : Nat) (hb : b = 10 ∨ b = 16) :
    ∀ (fuel n : Nat) (rev : List Nat), n < 2 ^ fuel →
      _itoa_loop fuel (n : Int) (b : Int) rev =
        some ((Nat.digits b n).reverse.map digitChar ++ rev) := by
  have hb1 : 1 < b := by rcases hb with rfl | rfl <;> decide
  intro fuel
  induction fuel with
  | zero =>
    intro n rev hn
    have h0 : n = 0 := by simpa using hn
    subst h0
    simp [_itoa_loop]
  | succ fuel ih =>
    intro n rev hn
    by_cases h0 : n = 0
    · subst h0
      simp [_itoa_loop]
    · have hpos : 0 < n := Nat.pos_of_ne_zero h0
      have hne : (n : Int) ≠ 0 := by exact_mod_cast h0
      have hlt : n / b < 2 ^ fuel := by
        apply Nat.div_lt_of_lt_mul
        calc n < 2 ^ (fuel + 1) := hn
          _ = 2 * 2 ^ fuel := by ring
          _ ≤ b * 2 ^ fuel := Nat.mul_le_mul_right _ hb1
      rw [_itoa_loop, if_pos hne, ← Int.ofNat_tdiv, ← Int.ofNat_tmod,
        _itoa_digit_eq _ _ hb (Nat.mod_lt _ (by omega)), ih _ _ hlt, Nat.digits_def' hb1 hpos]
      simp

/-- The power loop of `_atoi` multiplies by the base, while the product fits. -/
theorem _atoi_power_eq (b : Nat) (hb : b = 10 ∨ b = 16) :
    ∀ (k p : Nat), p * b ^ k ≤ 32767 →
      _atoi_power (b : Int) k (p : Int) = ((p * b ^ k : Nat) : Int) := by
  intro k
  induction k with
  | zero => intro p _; simp [_atoi_power]
  | succ k ih =>
    intro p hp
    have hb1 : 1 ≤ b ^ k := Nat.one_le_pow _ _ (by rcases hb with rfl | rfl <;> decide)
    have hpb : p * b ≤ 32767 := by
      calc p * b ≤ p * b * b ^ k := Nat.le_mul_of_pos_right _ hb1
        _ = p * b ^ (k + 1) := by ring
        _ ≤ 32767 := hp
    have hstep : (if (b : Int) = 16 then
        int16 ((if (b : Int) = 10 then int16 ((p : Int) * 10) else (p : Int)) * 16)
        else (if (b : Int) = 10 then int16 ((p : Int) * 10) else (p : Int))) = ((p * b : Nat) : Int) := by
      rcases hb with rfl | rfl
      · have h10 : int16 ((p : Int) * 10) = ((p * 10 : Nat) : Int) := by
          rw [int16_id _ (by omega) (by omega)]; push_cast; ring
        simp [h10]
      · have h16 : int16 ((p : Int) * 16) = ((p * 16 : Nat) : Int) := by
          rw [int16_id _ (by omega) (by omega)]; push_cast; ring
        simp [h16]
    rw [_atoi_power, hstep, ih (p * b) (by rw [Nat.mul_assoc, ← Nat.pow_succ']; exact hp)]
    congr 1
    ring

/-- The term `_atoi` adds for the character of a digit d below 16. -/
theorem _atoi_term_digitChar (d : Nat) (hd : d < 16) (power : Int) :
    _atoi_term (digitChar d) power = int16 ((d : Int) * power) := by
  interval_cases d <;> simp [_atoi_term, digitChar]

/-- The second loop of `_atoi` on the characters of the digits ds (most
significant first), entered with the power of the first digit: it adds the
value of the digits, as long as the sum fits a 16-bit `int`. -/
theorem _atoi_loop_digits (b : Nat) (hb : b = 10 ∨ b = 16) :
    ∀ (ds rest : List Nat) (power : Int) (acc : Nat),
      (∀ d ∈ ds, d < b) →
      (ds ≠ [] → power = ((b ^ (ds.length - 1) : Nat) : Int)) →
      acc + Nat.ofDigits b ds.reverse ≤ 32767 →
      _atoi_loop (b : Int) ds.length (ds.map digitChar ++ rest) power (acc : Int) =
        ((acc + Nat.ofDigits b ds.reverse : Nat) : Int) := by
  have hbpos : 0 < b := by rcases hb with rfl | rfl <;> decide
  intro ds
  induction ds with
  | nil =>
    intro rest power acc _ _ _
    simp [_atoi_loop]
  | cons d ds ih =>
    intro rest power acc hds hpow hsum
    have hd : d < b := hds d (List.mem_cons_self _ _)
    have hd16 : d < 16 := by rcases hb with rfl | rfl <;> omega
    have hp : power = ((b ^ ds.length : Nat) : Int) := by
      simpa using hpow (List.cons_ne_nil _ _)
    have hval : Nat.ofDigits b (d :: ds).reverse =
        Nat.ofDigits b ds.reverse + b ^ ds.length * d := by
      rw [List.reverse_cons, Nat.ofDigits_append, List.length_reverse, Nat.ofDigits_singleton]
    rw [hval] at hsum ⊢
    have hterm : _atoi_term (digitChar d) power = ((b ^ ds.length * d : Nat) : Int) := by
      rw [_atoi_term_digitChar d hd16, hp]
      have he : (d : Int) * ((b ^ ds.length : Nat) : Int) = ((b ^ ds.length * d : Nat) : Int) := by
        push_cast; ring
      rw [he]
      exact int16_id _ (by omega) (by omega)
    have hacc : int16 ((acc : Int) + ((b ^ ds.length * d : Nat) : Int)) =
        ((acc + b ^ ds.length * d : Nat) : Int) := by
      rw [int16_id _ (by omega) (by omega)]
      push_cast
      rfl
    have hpow2 : ds ≠ [] →
        Int.tdiv power (b : Int) = ((b ^ (ds.length - 1) : Nat) : Int) := by
      intro hne
      obtain ⟨k, hk⟩ : ∃ k, ds.length = k + 1 :=
        Nat.exists_eq_succ_of_ne_zero (fun h => hne (List.length_eq_zero.1 h))
      rw [hp, ← Int.ofNat_tdiv, hk, Nat.pow_succ, Nat.mul_div_cancel _ hbpos]
      rfl
    show _atoi_loop (b : Int) (ds.length + 1) (digitChar d :: (ds.map digitChar ++ rest))
      power (acc : Int) = _
    rw [_atoi_loop]
    simp only [List.headD_cons, List.tail_cons]
    rw [hterm, hacc, ih rest _ (acc + b ^ ds.length * d)
      (fun e he => hds e (List.mem_cons_of_mem _ he)) hpow2 (by omega)]
    have hsumeq : acc + b ^ ds.length * d + Nat.ofDigits b ds.reverse =
        acc + (Nat.ofDigits b ds.reverse + b ^ ds.length * d) := by omega
    rw [hsumeq]

/-- The characters `_itoa` writes for digits are the ten digits and the lower
case letters a to f; only the digit 0 gives the character 0. -/
theorem digitChar_range (d : Nat) (hd : d < 16) :
    ((48 ≤ digitChar d ∧ digitChar d ≤ 57) ∨ (97 ≤ digitChar d ∧ digitChar d ≤ 102)) ∧
    (d < 10 → 48 ≤ digitChar d ∧ digitChar d ≤ 57) ∧
    (digitChar d = 48 → d = 0) := by
  unfold digitChar
  split_ifs <;> omega

/-- The two conversions on a positive value n up to 32767, base 10 or 16: the
digit loop of `_itoa` ends and leaves a non-empty string of digit characters
without a leading 0, on which the two loops of `_atoi` compute n. -/
theorem itoa_atoi_digits (b n : Nat) (hb : b = 10 ∨ b = 16) (hn1 : 1 ≤ n) (hn2 : n ≤ 32767) :
    ∃ chars : List Nat,
      _itoa_loop 16 (n : Int) (b : Int) [] = some chars ∧
      chars ≠ [] ∧
      (∀ c ∈ chars, (48 ≤ c ∧ c ≤ 57) ∨ (b = 16 ∧ 97 ≤ c ∧ c ≤ 102)) ∧
      chars.head? ≠ some 48 ∧
      _atoi_loop (b : Int) chars.length (chars ++ [0])
        (_atoi_power (b : Int) (chars.length - 1) 1) 0 = (n : Int) := by
  have hb1 : 1 < b := by rcases hb with rfl | rfl <;> decide
  have hn0 : n ≠ 0 := by omega
  have hne : Nat.digits b n ≠ [] := Nat.digits_ne_nil_iff_ne_zero.2 hn0
  have hds : ∀ d ∈ (Nat.digits b n).reverse, d < b := fun d hd =>
    Nat.digits_lt_base hb1 (List.mem_reverse.1 hd)
  have hlen : 1 ≤ (Nat.digits b n).length := List.length_pos.2 hne
  refine ⟨(Nat.digits b n).reverse.map digitChar, ?_, ?_, ?_, ?_, ?_⟩
  · have h := _itoa_loop_digits b hb 16 n [] (by omega)
    rw [List.append_nil] at h
    exact h
  · intro h
    rw [List.map_eq_nil_iff, List.reverse_eq_nil_iff] at h
    exact hne h
  · intro c hc
    obtain ⟨d, hd, rfl⟩ := List.mem_map.1 hc
    have hdb := hds d hd
    have hr := digitChar_range d (by rcases hb with rfl | rfl <;> omega)
    rcases hb with rfl | rfl
    · exact Or.inl (hr.2.1 hdb)
    · rcases hr.1 with h | h
      · exact Or.inl h
      · exact Or.inr ⟨rfl, h⟩
  · rw [List.head?_map, List.head?_reverse, List.getLast?_eq_getLast _ hne]
    intro h
    have h2 : digitChar ((Nat.digits b n).getLast hne) = 48 := by simpa using h
    have hlast : (Nat.digits b n).getLast hne < 16 := by
      have := Nat.digits_lt_base hb1 (List.getLast_mem hne)
      rcases hb with rfl | rfl <;> omega
    exact Nat.getLast_digit_ne_zero b hn0 ((digitChar_range _ hlast).2.2 h2)
  · have hpowle : b ^ ((Nat.digits b n).length - 1) ≤ 32767 := by
      have h := Nat.base_pow_length_digits_le b n hb1 hn0
      obtain ⟨k, hk⟩ : ∃ k, (Nat.digits b n).length = k + 1 :=
        Nat.exists_eq_succ_of_ne_zero (by omega)
      rw [hk] at h ⊢
      rw [Nat.pow_succ, Nat.mul_comm] at h
      have h3 : b ^ k ≤ n := Nat.le_of_mul_le_mul_left h (by omega)
      simpa using le_trans h3 hn2
    have hpow := _atoi_power_eq b hb ((Nat.digits b n).length - 1) 1 (by simpa using hpowle)
    rw [Nat.one_mul] at hpow
    have hloop := _atoi_loop_digits b hb (Nat.digits b n).reverse [0]
      ((b ^ ((Nat.digits b n).length - 1) : Nat) : Int) 0 hds
      (fun _ => by rw [List.length_reverse])
      (by rw [List.reverse_reverse, Nat.ofDigits_digits]; omega)
    rw [List.reverse_reverse, Nat.ofDigits_digits, Nat.zero_add, List.length_reverse] at hloop
    rw [List.length_map, List.length_reverse]
    have h1 : ((1 : Nat) : Int) = 1 := rfl
    have h0 : ((0 : Nat) : Int) = 0 := rfl
    rw [h1] at hpow
    rw [h0] at hloop
    rw [hpow]
    exact hloop

/-- A buffer that holds characters other than NUL followed by a NUL holds
that C string, with or without a minus sign in front. -/
theorem cString_append_nul (str : List Nat) (hc : ∀ c ∈ str, c ≠ 0) :
    cString (str ++ [0]) = str ∧ cString (45 :: (str ++ [0])) = 45 :: str := by
  have h1 : cString (str ++ [0]) = str := by
    unfold cString
    rw [List.takeWhile_append_of_pos (fun a ha => by simpa using hc a ha)]
    simp
  refine ⟨h1, ?_⟩
  have h2 : cString (45 :: (str ++ [0])) = 45 :: cString (str ++ [0]) := by
    unfold cString
    rw [List.takeWhile_cons_of_pos (by decide)]
  rw [h2, h1]

/-- The function `_atoi` on a buffer that holds a non-empty string without a
minus sign, and on the same string with a minus sign in front: the sign is
set aside, the two loops run on the rest, and the result is negated. -/
theorem _atoi_sign (str : List Nat) (b : Int) (hne : str ≠ [])
    (hc : ∀ c ∈ str, c ≠ 0 ∧ c ≠ 45) :
    _atoi (str ++ [0]) b =
      _atoi_loop b str.length (str ++ [0]) (_atoi_power b (str.length - 1) 1) 0 ∧
    _atoi (45 :: (str ++ [0])) b =
      int16 (- _atoi_loop b str.length (str ++ [0]) (_atoi_power b (str.length - 1) 1) 0) := by
  have hcs := cString_append_nul str (fun c h => (hc c h).1)
  obtain ⟨c0, cs, rfl⟩ := List.exists_cons_of_ne_nil hne
  have hc0 : c0 ≠ 45 := (hc c0 (List.mem_cons_self _ _)).2
  constructor
  · unfold _atoi strlen
    rw [hcs.1]
    have hhead : ((c0 :: cs) ++ [0]).headD 0 = c0 := rfl
    simp only [hhead, hc0, decide_False, Bool.false_eq_true, if_false, List.length_cons]
    have e1 : (((cs.length + 1 : Nat) : Int) - 1).toNat = cs.length + 1 - 1 := by omega
    have e2 : ((cs.length + 1 : Nat) : Int).toNat = cs.length + 1 := by omega
    rw [e1, e2]
  · unfold _atoi strlen
    rw [hcs.2]
    have hhead : (45 :: ((c0 :: cs) ++ [0])).headD 0 = 45 := rfl
    simp only [hhead, decide_True, if_true, List.length_cons, List.tail_cons]
    have e1 : (((cs.length + 1 + 1 : Nat) : Int) - 1 - 1).toNat = cs.length + 1 - 1 := by omega
    have e2 : (((cs.length + 1 + 1 : Nat) : Int) - 1).toNat = cs.length + 1 := by omega
    rw [e1, e2]

/-! ## Integer and string round trip -/

/-- C39: integer/string round trip.  For every i with -32767 ≤ i ≤ 32767 and
base b = 10 or b = 16, `_itoa` returns, and the bytes it writes from the start
of the caller's buffer are: a minus sign exactly when i is negative, then a
non-empty string of digit characters (0 to 9, and the lower-case letters a to
f for base 16) that is "0" for i = 0 and has no leading 0 otherwise, then the
terminating NUL, with no NUL before it; and `_atoi` of that buffer with base
b returns i. -/
theorem C39_itoa_atoi_round_trip (i b : Int) (h1 : -32767 ≤ i) (h2 : i ≤ 32767)
    (hb : b = 10 ∨ b = 16) :
    ∃ digits : List Nat,
      _itoa i b = some ((if i < 0 then [45] else []) ++ digits ++ [0]) ∧
      digits ≠ [] ∧
      (∀ c ∈ digits, (48 ≤ c ∧ c ≤ 57) ∨ (b = 16 ∧ 97 ≤ c ∧ c ≤ 102)) ∧
      (i = 0 → digits = [48]) ∧
      (i ≠ 0 → digits.head? ≠ some 48) ∧
      cString ((if i < 0 then [45] else []) ++ digits ++ [0]) =
        (if i < 0 then [45] else []) ++ digits ∧
      _atoi ((if i < 0 then [45] else []) ++ digits ++ [0]) b = i := by
  obtain ⟨bn, hbn, hbn2⟩ : ∃ bn : Nat, b = (bn : Int) ∧ (bn = 10 ∨ bn = 16) := by
    rcases hb with rfl | rfl
    · exact ⟨10, rfl, Or.inl rfl⟩
    · exact ⟨16, rfl, Or.inr rfl⟩
  subst hbn
  by_cases h0 : i = 0
  · subst h0
    refine ⟨[48], ?_, by decide, ?_, fun _ => rfl, fun h => absurd rfl h, ?_, ?_⟩
    · simp [_itoa]
    · intro c hc
      have : c = 48 := by simpa using hc
      subst this
      exact Or.inl ⟨le_refl _, by decide⟩
    · simp [cString]
    · rcases hbn2 with rfl | rfl <;> decide
  · by_cases hneg : i < 0
    · obtain ⟨n, hn⟩ : ∃ n : Nat, i = -(n : Int) := ⟨(-i).toNat, by omega⟩
      subst hn
      obtain ⟨chars, c1, c2, c3, c4, c5⟩ := itoa_atoi_digits bn n hbn2 (by omega) (by omega)
      have hchars : ∀ c ∈ chars, c ≠ 0 ∧ c ≠ 45 := by
        intro c hc
        rcases c3 c hc with h | h <;> omega
      have hcs := cString_append_nul chars (fun c h => (hchars c h).1)
      have hat := (_atoi_sign chars (bn : Int) c2 hchars).2
      refine ⟨chars, ?_, c2, ?_, fun h => absurd h h0, fun _ => c4, ?_, ?_⟩
      · unfold _itoa
        have e : int16 (-(-(n : Int))) = (n : Int) := by
          rw [neg_neg]
          exact int16_id _ (by omega) (by omega)
        simp only [h0, if_false, hneg, if_true, e, c1]
        rw [(List.takeWhile_eq_self_iff).2 (fun c hc => by simpa using (hchars c hc).1)]
      · intro c hc
        rcases c3 c hc with h | h
        · exact Or.inl h
        · exact Or.inr ⟨by rw [h.1]; rfl, h.2⟩
      · simp only [hneg, if_true]
        exact hcs.2
      · simp only [hneg, if_true]
        rw [show ([45] ++ chars ++ [0] : List Nat) = 45 :: (chars ++ [0]) from rfl, hat, c5]
        exact int16_id _ (by omega) (by omega)
    · obtain ⟨n, hn⟩ : ∃ n : Nat, i = (n : Int) := ⟨i.toNat, by omega⟩
      subst hn
      obtain ⟨chars, c1, c2, c3, c4, c5⟩ := itoa_atoi_digits bn n hbn2 (by omega) (by omega)
      have hchars : ∀ c ∈ chars, c ≠ 0 ∧ c ≠ 45 := by
        intro c hc
        rcases c3 c hc with h | h <;> omega
      have hcs := cString_append_nul chars (fun c h => (hchars c h).1)
      have hat := (_atoi_sign chars (bn : Int) c2 hchars).1
      refine ⟨chars, ?_, c2, ?_, fun h => absurd h h0, fun _ => c4, ?_, ?_⟩
      · unfold _itoa
        simp only [h0, if_false, hneg, c1]
        rw [(List.takeWhile_eq_self_iff).2 (fun c hc => by simpa using (hchars c hc).1)]
      · intro c hc
        rcases c3 c hc with h | h
        · exact Or.inl h
        · exact Or.inr ⟨by rw [h.1]; rfl, h.2⟩
      · simp only [hneg, if_false, List.nil_append]
        exact hcs.1
      · simp only [hneg, if_false, List.nil_append]
        rw [hat, c5]

/-- C39 at i = -255 in base 16: `_itoa` writes the string -ff and `_atoi` reads
-255 back. -/
theorem C39_itoa_atoi_round_trip_witness :
    _itoa (-255) 16 = some [45, 102, 102, 0] ∧ _atoi [45, 102, 102, 0] 16 = -255 ∧
    ∃ digits : List Nat,
      _itoa (-255) 16 = some ((if (-255 : Int) < 0 then [45] else []) ++ digits ++ [0]) ∧
      digits ≠ [] ∧
      (∀ c ∈ digits, (48 ≤ c ∧ c ≤ 57) ∨ ((16 : Int) = 16 ∧ 97 ≤ c ∧ c ≤ 102)) ∧
      ((-255 : Int) = 0 → digits = [48]) ∧
      ((-255 : Int) ≠ 0 → digits.head? ≠ some 48) ∧
      cString ((if (-255 : Int) < 0 then [45] else []) ++ digits ++ [0]) =
        (if (-255 : Int) < 0 then [45] else []) ++ digits ∧
      _atoi ((if (-255 : Int) < 0 then [45] else []) ++ digits ++ [0]) 16 = -255 :=
  ⟨rfl, rfl,
    C39_itoa_atoi_round_trip (-255) 16 (by decide) (by decide) (Or.inr rfl)⟩

/-! ## Support: what leaves the parameters, the table and the D/A record alone -/

theorem SameSine_refl (a : World) : SameSine a a := ⟨rfl, rfl, rfl, rfl⟩

theorem SameSine_trans {a b c : World} (h1 : SameSine a b) (h2 : SameSine b c) :
    SameSine a c :=
  ⟨h1.1.trans h2.1, h1.2.1.trans h2.2.1, h1.2.2.1.trans h2.2.2.1, h1.2.2.2.trans h2.2.2.2⟩

theorem DacInv_of_SameSine {a b : World} (h : SameSine a b) (hb : DacInv b) : DacInv a := by
  unfold DacInv
  rw [h.1, h.2.1, h.2.2.1, h.2.2.2]
  exact hb

theorem ReportError_SameSine (k : eErrorType) (s : World) : SameSine (ReportError k s) s := by
  unfold ReportError
  split_ifs
  · exact ⟨rfl, rfl, rfl, rfl⟩
  · exact SameSine_refl s

theorem SCIWriteString_SameSine (Str : List Nat) (s : World) :
    SameSine (SCIWriteString Str s).2 s := by
  have hframe := (SCIWriteString_loop_frame Str s).1
  have h1 : SameSine (SCIWriteString_loop Str s).1 s := by
    rw [hframe]
    exact ⟨rfl, rfl, rfl, rfl⟩
  unfold SCIWriteString
  by_cases hc : (SCIWriteString_loop Str s).2 = eBooleanType.FALSE
  · simp only [hc, if_true]
    exact SameSine_trans (ReportError_SameSine _ _)
      (SameSine_trans ⟨rfl, rfl, rfl, rfl⟩ h1)
  · simp only [hc, if_false]
    exact SameSine_trans ⟨rfl, rfl, rfl, rfl⟩ h1

theorem ISR_USART0_RX_SameSine (status data : Nat) (s : World) :
    SameSine (ISR_USART0_RX_vect status data s) s := by
  have hst : ∀ (st : Nat) (w : World), SameSine (USART0_RX_statusErrors st w) w := by
    intro st w
    unfold USART0_RX_statusErrors
    split_ifs <;>
      first
      | exact SameSine_refl _
      | exact ReportError_SameSine _ _
      | exact SameSine_trans (ReportError_SameSine _ _) (ReportError_SameSine _ _)
      | exact SameSine_trans (ReportError_SameSine _ _)
          (SameSine_trans (ReportError_SameSine _ _) (ReportError_SameSine _ _))
  unfold ISR_USART0_RX_vect
  refine SameSine_trans (hst _ _) ?_
  split_ifs
  · exact SameSine_trans (ReportError_SameSine _ _) ⟨rfl, rfl, rfl, rfl⟩
  · exact ⟨rfl, rfl, rfl, rfl⟩

theorem ISR_USART0_UDRE_SameSine (s : World) : SameSine (ISR_USART0_UDRE_vect s) s := by
  rw [ISR_USART0_UDRE_eq]
  exact ⟨rfl, rfl, rfl, rfl⟩

theorem SCIInitialize_SameSine (s : World) : SameSine (SCIInitialize s) s := by
  unfold SCIInitialize
  simp only [SCIWriteString_P_eq]
  exact SameSine_trans (SCIWriteString_SameSine _ _)
    (SameSine_trans (SCIWriteString_SameSine _ _) ⟨rfl, rfl, rfl, rfl⟩)

/-- A D/A write leaves the two desired parameters alone. -/
theorem WriteDtoASample_VoltDesired (x : Nat) (s : World) :
    (WriteDtoASample x s).VoltDesired = s.VoltDesired := by
  unfold WriteDtoASample ReportError
  cases (s.spi s.dtoaSamples.length).wcolBefore <;>
    cases (s.spi s.dtoaSamples.length).wcolAfterFirst <;>
    simp <;> split_ifs <;> simp

/-! ## Support: the parameters stay valid and the samples stay in range -/

theorem DacInv_WriteDtoASample (x : Nat) (s : World) (hx : x ≤ 1023) (h : DacInv s) :
    DacInv (WriteDtoASample x s) := by
  have hf := WriteDtoASample_frame x s
  unfold DacInv
  rw [hf.2.2.2.2.2.2, WriteDtoASample_VoltDesired, hf.2.1, hf.1]
  refine ⟨h.1, h.2.1, h.2.2.1, h.2.2.2.1, h.2.2.2.2.1, h.2.2.2.2.2.1, h.2.2.2.2.2.2.1, ?_⟩
  intro v hv
  rcases List.mem_append.1 hv with h1 | h1
  · exact h.2.2.2.2.2.2.2 v h1
  · rw [List.mem_singleton.1 h1]
    exact hx

theorem DacInv_UpdateSignal (s : World) (h : DacInv s) : DacInv (UpdateSignal s) := by
  unfold UpdateSignal
  exact DacInv_WriteDtoASample _ _ (h.2.2.2.2.2.2.1 _ _) h

theorem DacInv_CalcSineValues (v : Nat) (s : World) (hv : v ≤ 500) (h : DacInv s) :
    DacInv (CalcSineValues v s) := by
  rw [CalcSineValues_eq]
  refine ⟨h.1, h.2.1, h.2.2.1, h.2.2.2.1, h.2.2.2.2.1, h.2.2.2.2.2.1, ?_, h.2.2.2.2.2.2.2⟩
  intro r c
  show (if r < SAMPLE_TABLE_SIZE ∧ c = (if s.ucActiveVoltArray = 0 then 1 else 0) then
      (VoltageLookup r * (v / 10) % 65536) / 50 else s.VoltageScaled r c) ≤ 1023
  by_cases hc : r < SAMPLE_TABLE_SIZE ∧ c = (if s.ucActiveVoltArray = 0 then 1 else 0)
  · rw [if_pos hc]
    have hL := VoltageLookup_le r
    have hv10 : v / 10 ≤ 50 := by omega
    have hprod : VoltageLookup r * (v / 10) ≤ 1023 * 50 := Nat.mul_le_mul hL hv10
    have hmod : VoltageLookup r * (v / 10) % 65536 ≤ 1023 * 50 :=
      le_trans (Nat.mod_le _ _) hprod
    omega
  · rw [if_neg hc]
    exact h.2.2.2.2.2.2.1 r c

theorem DacInv_SetFreq (x : Nat) (s : World) (h : DacInv s) : DacInv (SetFreq x s).2 := by
  rw [SetFreq_state]
  by_cases hr : (SetFreq x s).1 = NO_ERROR
  · rw [if_pos hr]
    rw [SetFreq_ret] at hr
    have hx : 40 ≤ x ∧ x ≤ 100 ∧ x % 5 = 0 := by
      by_cases h1 : x < 40 ∨ x > 100
      · rw [if_pos h1] at hr
        exact absurd hr (by decide)
      · rw [if_neg h1] at hr
        by_cases h2 : x % 5 ≠ 0
        · rw [if_pos h2] at hr
          exact absurd hr (by decide)
        · omega
    exact ⟨hx.1, hx.2.1, hx.2.2, h.2.2.2.1, h.2.2.2.2.1, h.2.2.2.2.2.1, h.2.2.2.2.2.2.1,
      h.2.2.2.2.2.2.2⟩
  · rw [if_neg hr]
    exact h

theorem DacInv_SetVolt (x : Nat) (s : World) (h : DacInv s) : DacInv (SetVolt x s).2 := by
  rw [SetVolt_state]
  by_cases hr : (SetVolt x s).1 = NO_ERROR
  · rw [if_pos hr]
    rw [SetVolt_ret] at hr
    have hx : 100 ≤ x ∧ x ≤ 500 ∧ x % 10 = 0 := by
      by_cases h1 : x < 100 ∨ x > 500
      · rw [if_pos h1] at hr
        exact absurd hr (by decide)
      · rw [if_neg h1] at hr
        by_cases h2 : x % 10 ≠ 0
        · rw [if_pos h2] at hr
          exact absurd hr (by decide)
        · omega
    apply DacInv_CalcSineValues _ _ hx.2.1
    exact ⟨h.1, h.2.1, h.2.2.1, hx.1, hx.2.1, hx.2.2, h.2.2.2.2.2.2.1, h.2.2.2.2.2.2.2⟩
  · rw [if_neg hr]
    exact h

theorem DacInv_InitDtoA (s : World) (h : DacInv s) : DacInv (InitDtoA s) := by
  unfold InitDtoA
  apply DacInv_WriteDtoASample _ _ (by decide)
  exact h

theorem DacInv_initSine (s : World) (h : DacInv s) : DacInv (initSine s) := by
  unfold initSine
  exact DacInv_InitDtoA _ (DacInv_CalcSineValues _ _ h.2.2.2.2.1 h)

theorem DacInv_RunMenu_WRITE_D2A (zInputStr : List Nat) (s : World) (h : DacInv s) :
    DacInv (RunMenu_WRITE_D2A zInputStr s) := by
  unfold RunMenu_WRITE_D2A
  by_cases h1 : zInputStr.headD 0 ≠ 0
  · rw [if_pos h1]
    by_cases h2 : (_atoi zInputStr 10 % 65536).toNat ≥ 0 ∧ (_atoi zInputStr 10 % 65536).toNat ≤ 1023
    · simp only [h2, and_self, if_true]
      exact DacInv_WriteDtoASample _ _ h2.2 h
    · simp only [h2, if_false]
      exact h
  · rw [if_neg h1]
    exact h

theorem DacInv_MenuCall (c : MenuCall) (s : World) (h : DacInv s) : DacInv (c.run s) := by
  cases c with
  | readChar =>
    show DacInv (SCIReadChar s).2
    unfold SCIReadChar
    split_ifs
    · exact h
    · exact h
  | writeString Str => exact DacInv_of_SameSine (SCIWriteString_SameSine Str s) h
  | writeString_P Str_P =>
    show DacInv (SCIWriteString_P Str_P s).2
    rw [SCIWriteString_P_eq]
    exact DacInv_of_SameSine (SCIWriteString_SameSine Str_P s) h
  | getError => exact h
  | clearError => exact h
  | setFreq Freq => exact DacInv_SetFreq Freq s h
  | setVolt Volt => exact DacInv_SetVolt Volt s h
  | writeD2A zInputStr => exact DacInv_RunMenu_WRITE_D2A zInputStr s h

theorem DacInv_runMenuCalls (cs : List MenuCall) :
    ∀ s : World, DacInv s → DacInv (runMenuCalls cs s) := by
  induction cs with
  | nil => intro s h; exact h
  | cons c rest ih =>
    intro s h
    exact ih _ (DacInv_MenuCall c s h)

theorem DacInv_ISR_TIMER0 (cs : List MenuCall) (t : Timer0Statics) (s : World)
    (h : DacInv s) : DacInv (ISR_TIMER0_COMPA_vect (runMenuCalls cs) t s).world := by
  by_cases hg : t.bMedThreadInProgress = eBooleanType.TRUE
  · unfold ISR_TIMER0_COMPA_vect
    rw [if_pos hg]
    exact DacInv_of_SameSine (ReportError_SameSine _ _) h
  · have hf : t.bMedThreadInProgress = eBooleanType.FALSE := by
      cases hb : t.bMedThreadInProgress with
      | FALSE => rfl
      | TRUE => exact absurd hb hg
    rw [ISR_TIMER0_world _ _ _ hf]
    have key : ∀ (calls : List TickTask) (w : World), DacInv w →
        DacInv (calls.foldl (fun st k => k.run (runMenuCalls cs) st) w) := by
      intro calls
      induction calls with
      | nil => intro w hw; exact hw
      | cons k rest ih =>
        intro w hw
        apply ih
        cases k with
        | heartbeat => exact hw
        | UpdateSignal => exact DacInv_UpdateSignal w hw
        | RunMenu => exact DacInv_runMenuCalls cs w hw
    exact key _ _ h

/-- In every state the firmware can be in, the desired parameters are valid,
the table fits in ten bits and so does every sample written so far. -/
theorem FirmwareReachable_inv {s : World} (h : FirmwareReachable s) : DacInv s := by
  induction h with
  | init =>
    refine ⟨by decide, by decide, by decide, by decide, by decide, by decide, ?_, ?_⟩
    · intro r c; exact Nat.zero_le _
    · intro v hv; exact absurd hv (List.not_mem_nil v)
  | initTimer1 _ ih => exact ih
  | sciInitialize _ ih => exact DacInv_of_SameSine (SCIInitialize_SameSine _) ih
  | initDtoA _ ih => exact DacInv_InitDtoA _ ih
  | initSine _ ih => exact DacInv_initSine _ ih
  | setFreq Freq _ ih => exact DacInv_SetFreq Freq _ ih
  | setVolt Volt _ ih => exact DacInv_SetVolt Volt _ ih
  | timer0 cs t _ ih => exact DacInv_ISR_TIMER0 cs t _ ih
  | timer1 _ ih => exact DacInv_UpdateSignal _ ih
  | usartRx status data _ ih => exact DacInv_of_SameSine (ISR_USART0_RX_SameSine _ _ _) ih
  | usartUdre _ ih => exact DacInv_of_SameSine (ISR_USART0_UDRE_SameSine _) ih
  | unusedInterrupt _ ih => exact DacInv_of_SameSine (ReportError_SameSine _ _) ih

/-- The result of `_atoi` is a 16-bit `int`. -/
theorem _atoi_range (buf : List Nat) (base : Int) :
    -32768 ≤ _atoi buf base ∧ _atoi buf base ≤ 32767 := by
  have hint : ∀ x : Int, -32768 ≤ int16 x ∧ int16 x ≤ 32767 := by
    intro x
    unfold int16
    omega
  have hloop : ∀ (n : Nat) (b : List Nat) (power acc : Int),
      (-32768 ≤ acc ∧ acc ≤ 32767) →
      (-32768 ≤ _atoi_loop base n b power acc ∧ _atoi_loop base n b power acc ≤ 32767) := by
    intro n
    induction n with
    | zero => intro b power acc h; exact h
    | succ n ih =>
      intro b power acc _
      rw [_atoi_loop]
      exact ih _ _ _ (hint _)
  unfold _atoi
  simp only []
  split_ifs
  · exact hint _
  · exact hloop _ _ _ _ (by decide)

/-! ## The desired parameters stay valid -/

/-- C31: the desired parameters stay valid and the divisors are never zero.  In
every state reachable from the power-on state (FreqDesired = 40,
VoltDesired = 100) by the initialisation functions, SetFreq, SetVolt and
the interrupt handlers (the menu run by the Timer0 handler making any
sequence of its calls), 40 ≤ FreqDesired ≤ 100 with FreqDesired mod 5 = 0
and 100 ≤ VoltDesired ≤ 500 with VoltDesired mod 10 = 0; so the divisor
floor(2000 / FreqDesired) of the waveform check in the Timer0 handler lies in
[20, 50] and is not zero, and the divisor FreqDesired * 100 of OCR1A is not
zero, fits a 16-bit int, and gives OCR1A = F_CPU / (FreqDesired * 100). -/
theorem C31_desired_parameters_stay_valid (s : World) (h : FirmwareReachable s) :
    (40 ≤ s.FreqDesired ∧ s.FreqDesired ≤ 100 ∧ s.FreqDesired % 5 = 0) ∧
    (100 ≤ s.VoltDesired ∧ s.VoltDesired ≤ 500 ∧ s.VoltDesired % 10 = 0) ∧
    (20 ≤ SIGNAL_TICKS s.FreqDesired ∧ SIGNAL_TICKS s.FreqDesired ≤ 50 ∧
      SIGNAL_TICKS s.FreqDesired ≠ 0 ∧ SIGNAL_TICKS s.FreqDesired = 2000 / s.FreqDesired) ∧
    (s.FreqDesired * 100 % 65536 ≠ 0 ∧ s.FreqDesired * 100 < 32768 ∧
      (UpdateFreqCnt s).OCR1A = F_CPU / (s.FreqDesired * 100)) := by
  have hinv := FirmwareReachable_inv h
  obtain ⟨f1, f2, f3, v1, v2, v3, _, _⟩ := hinv
  refine ⟨⟨f1, f2, f3⟩, ⟨v1, v2, v3⟩, ?_, ?_⟩
  · rw [SIGNAL_TICKS_eq]
    generalize s.FreqDesired = f at f1 f2 f3
    have hcases : f = 40 ∨ f = 45 ∨ f = 50 ∨ f = 55 ∨ f = 60 ∨ f = 65 ∨ f = 70 ∨ f = 75 ∨
        f = 80 ∨ f = 85 ∨ f = 90 ∨ f = 95 ∨ f = 100 := by omega
    rcases hcases with h | h | h | h | h | h | h | h | h | h | h | h | h <;> subst h <;> decide
  · show s.FreqDesired * 100 % 65536 ≠ 0 ∧ s.FreqDesired * 100 < 32768 ∧
      F_CPU / (s.FreqDesired * 100 % 65536) % 65536 = F_CPU / (s.FreqDesired * 100)
    generalize s.FreqDesired = f at f1 f2 f3
    have hcases : f = 40 ∨ f = 45 ∨ f = 50 ∨ f = 55 ∨ f = 60 ∨ f = 65 ∨ f = 70 ∨ f = 75 ∨
        f = 80 ∨ f = 85 ∨ f = 90 ∨ f = 95 ∨ f = 100 := by omega
    rcases hcases with h | h | h | h | h | h | h | h | h | h | h | h | h <;> subst h <;> decide

/-- C31 after SetFreq(45) and a rejected SetVolt(7) from the power-on state: the
frequency is 45, the voltage still 100, and the tick divisor is 44. -/
theorem C31_desired_parameters_stay_valid_witness :
    (SetVolt 7 (SetFreq 45 initWorld).2).2.FreqDesired = 45 ∧
    (SetVolt 7 (SetFreq 45 initWorld).2).2.VoltDesired = 100 ∧
    SIGNAL_TICKS (SetVolt 7 (SetFreq 45 initWorld).2).2.FreqDesired ≠ 0 ∧
    100 ≤ (SetVolt 7 (SetFreq 45 initWorld).2).2.VoltDesired :=
  have h := C31_desired_parameters_stay_valid (SetVolt 7 (SetFreq 45 initWorld).2).2
    (FirmwareReachable.setVolt 7 (FirmwareReachable.setFreq 45 FirmwareReachable.init))
  ⟨rfl, rfl, h.2.2.1.2.2.1, h.2.1.1⟩

/-! ## Every D/A sample fits in ten bits -/

/-- C32: every sample sent to the 10-bit D/A is in range.  In every state
reachable from the power-on state by the initialisation functions, SetFreq,
SetVolt and the interrupt handlers (the table being written by initSine and
SetVolt only), every entry of VoltageScaled is at most 1023 and so is every
value WriteDtoASample has been called with, whose shift by two then fits in
16 bits; the next UpdateSignal passes a value of at most 1023; and the menu
command wv, on any input line, calls WriteDtoASample with the parsed value
when that is between 0 and 1023 and does not call it otherwise. -/
theorem C32_dac_samples_in_range (s : World) (h : FirmwareReachable s) :
    (∀ r c, s.VoltageScaled r c ≤ 1023) ∧
    (∀ v ∈ s.dtoaSamples, v ≤ 1023 ∧ v * 4 % 65536 = v * 4) ∧
    (∃ x : Nat, (UpdateSignal s).dtoaSamples = s.dtoaSamples ++ [x] ∧ x ≤ 1023) ∧
    (∀ zInputStr : List Nat,
      ¬ (0 ≤ _atoi zInputStr 10 ∧ _atoi zInputStr 10 ≤ 1023) →
      (RunMenu_WRITE_D2A zInputStr s).dtoaSamples = s.dtoaSamples) ∧
    (∀ zInputStr : List Nat,
      (RunMenu_WRITE_D2A zInputStr s).dtoaSamples = s.dtoaSamples ∨
      ∃ x : Nat, (RunMenu_WRITE_D2A zInputStr s).dtoaSamples = s.dtoaSamples ++ [x] ∧
        x ≤ 1023 ∧ (x : Int) = _atoi zInputStr 10) := by
  have hinv := FirmwareReachable_inv h
  have htab := hinv.2.2.2.2.2.2.1
  have hlog := hinv.2.2.2.2.2.2.2
  refine ⟨htab, fun v hv => ⟨hlog v hv, ?_⟩, ?_, ?_, ?_⟩
  · have := hlog v hv
    omega
  · refine ⟨_, ?_, htab (cursorNext s.ucVoltageIndex s.Direction) s.ucActiveVoltArray⟩
    unfold UpdateSignal
    rw [(WriteDtoASample_frame _ _).1]
    rfl
  · intro z hz
    have hr := _atoi_range z 10
    unfold RunMenu_WRITE_D2A
    by_cases h1 : z.headD 0 ≠ 0
    · rw [if_pos h1]
      have h2 : ¬ ((_atoi z 10 % 65536).toNat ≥ 0 ∧ (_atoi z 10 % 65536).toNat ≤ 1023) := by
        intro hc
        apply hz
        omega
      simp only [h2, if_false]
    · rw [if_neg h1]
  · intro z
    have hr := _atoi_range z 10
    unfold RunMenu_WRITE_D2A
    by_cases h1 : z.headD 0 ≠ 0
    · rw [if_pos h1]
      by_cases h2 : (_atoi z 10 % 65536).toNat ≥ 0 ∧ (_atoi z 10 % 65536).toNat ≤ 1023
      · right
        simp only [h2, and_self, if_true]
        refine ⟨_, (WriteDtoASample_frame _ _).1, h2.2, ?_⟩
        omega
      · left
        simp only [h2, if_false]
    · left
      rw [if_neg h1]

/-- C32 after initSine on the power-on state: the table and the samples are in
range, and the menu command wv writes 1023 for the line 1023 and nothing for
the lines 1024 and -1. -/
theorem C32_dac_samples_in_range_witness :
    (∀ r c, (initSine initWorld).VoltageScaled r c ≤ 1023) ∧
    (∀ v ∈ (initSine initWorld).dtoaSamples, v ≤ 1023 ∧ v * 4 % 65536 = v * 4) ∧
    (RunMenu_WRITE_D2A [49, 48, 50, 51] (initSine initWorld)).dtoaSamples = [0, 1023] ∧
    (RunMenu_WRITE_D2A [49, 48, 50, 52] (initSine initWorld)).dtoaSamples = [0] ∧
    (RunMenu_WRITE_D2A [45, 49] (initSine initWorld)).dtoaSamples = [0] :=
  have h := C32_dac_samples_in_range (initSine initWorld)
    (FirmwareReachable.initSine FirmwareReachable.init)
  ⟨h.1, h.2.1, by decide, by decide, by decide⟩

/-! ## The empty sentinel of SCIReadChar -/

/-- The loop body of `RunMenu` leaves the receive buffer alone, when the
command switch does. -/
theorem RunMenu_serial_rx (process : List Nat → World → World)
    (hp : ∀ (l : List Nat) (w : World), (process l w).zInputChars = w.zInputChars ∧
      (process l w).ptrInputCharHead = w.ptrInputCharHead ∧
      (process l w).ptrInputCharTail = w.ptrInputCharTail)
    (c : Nat) (m : MenuLine) (s : World) :
    (RunMenu_serial process c m s).zInputChars = s.zInputChars ∧
    (RunMenu_serial process c m s).ptrInputCharHead = s.ptrInputCharHead ∧
    (RunMenu_serial process c m s).ptrInputCharTail = s.ptrInputCharTail := by
  unfold RunMenu_serial
  split_ifs
  · have h1 := hp (zInputStr_string (fun i => if i = m.ptrInputStr then 0 else m.zInputStr i))
      (SCIWriteString_P [10, 13] s).2
    have h2 := SCIWriteString_frame [10, 13] s
    rw [SCIWriteString_P_eq] at h1 ⊢
    exact ⟨h1.1.trans h2.2.2.2.1, h1.2.1.trans h2.2.1, h1.2.2.trans h2.2.2.1⟩
  · have h2 := SCIWriteString_frame [c] s
    exact ⟨h2.2.2.2.1, h2.2.1, h2.2.2.1⟩
  · exact ⟨rfl, rfl, rfl⟩

/-- The drain loop on a buffer whose queued bytes are all non-zero: it ends
within one read more than bytes are queued, runs the loop body on every
queued byte in order, and leaves the buffer empty. -/
theorem RunMenu_drain_spec (process : List Nat → World → World)
    (hp : ∀ (l : List Nat) (w : World), (process l w).zInputChars = w.zInputChars ∧
      (process l w).ptrInputCharHead = w.ptrInputCharHead ∧
      (process l w).ptrInputCharTail = w.ptrInputCharTail)
    (q : List Nat) :
    ∀ (fuel : Nat) (m : MenuLine) (s : World), s.ptrInputCharHead < 10 →
      s.ptrInputCharTail < 10 → rxQueued s = q → (∀ c ∈ q, c ≠ 0) → q.length < fuel →
      ∃ s2, RunMenu_drain process fuel (m, s) = some (runMenuLine q m, s2) ∧
        s2.ptrInputCharHead = s2.ptrInputCharTail ∧ rxQueued s2 = [] := by
  induction q with
  | nil =>
    intro fuel m s hh ht hq _ hfuel
    obtain ⟨k, rfl⟩ : ∃ k, fuel = k + 1 := Nat.exists_eq_succ_of_ne_zero (by
      simp only [List.length_nil] at hfuel; omega)
    have he : s.ptrInputCharHead = s.ptrInputCharTail :=
      (ringQueued_eq_nil s.zInputChars _ _ 10 (Or.inr rfl) hh ht).1 hq
    refine ⟨s, ?_, he, hq⟩
    rw [RunMenu_drain]
    simp only [SCIReadChar_empty s he, ne_eq, not_true_eq_false, if_false]
    rfl
  | cons c rest ih =>
    intro fuel m s hh ht hq hnz hfuel
    obtain ⟨k, rfl⟩ : ∃ k, fuel = k + 1 := Nat.exists_eq_succ_of_ne_zero (by
      simp only [List.length_cons] at hfuel; omega)
    have hne : s.ptrInputCharHead ≠ s.ptrInputCharTail := by
      intro h
      have h0 := (ringQueued_eq_nil s.zInputChars _ _ 10 (Or.inr rfl) hh ht).2 h
      have h1 : rxQueued s = [] := h0
      rw [hq] at h1
      exact List.noConfusion h1
    obtain ⟨r1, r2, r3⟩ := SCIReadChar_nonempty s hh ht hne
    rw [hq] at r1
    have hc : (SCIReadChar s).1 = c := (List.cons.inj r1).1.symm
    have hrest : rxQueued (SCIReadChar s).2 = rest := (List.cons.inj r1).2.symm
    have hc0 : c ≠ 0 := hnz c (List.mem_cons_self _ _)
    have hfr := RunMenu_serial_rx process hp c m (SCIReadChar s).2
    have hq2 : rxQueued (RunMenu_serial process c m (SCIReadChar s).2) = rest := by
      rw [rxQueued_congr _ _ hfr.1 hfr.2.1 hfr.2.2]
      exact hrest
    obtain ⟨s2, h1, h2, h3⟩ := ih k (RunMenu_line c m)
      (RunMenu_serial process c m (SCIReadChar s).2)
      (by rw [hfr.2.1, r2]; exact hh) (by rw [hfr.2.2]; exact r3) hq2
      (fun d hd => hnz d (List.mem_cons_of_mem _ hd))
      (by simp only [List.length_cons] at hfuel; omega)
    refine ⟨s2, ?_, h2, h3⟩
    rw [RunMenu_drain]
    simp only [hc, ne_eq, hc0, not_false_eq_true, if_true]
    exact h1

/-- C37 as stated fails: the receive handler stores whatever byte arrives, so
after the byte 0 is received into the empty buffer the buffer is not empty
(head ≠ tail) and SCIReadChar returns 0.  With the bytes 0 and 65 received,
the drain loop of RunMenu stops at the first read and leaves 65 queued. -/
theorem C37_nul_byte_reads_as_empty :
    (ISR_USART0_RX_vect 0 0 initWorld).ptrInputCharHead ≠
      (ISR_USART0_RX_vect 0 0 initWorld).ptrInputCharTail ∧
    rxQueued (ISR_USART0_RX_vect 0 0 initWorld) = [0] ∧
    (SCIReadChar (ISR_USART0_RX_vect 0 0 initWorld)).1 = 0 ∧
    rxQueued (receiveAll [(0, 0), (0, 65)] initWorld) = [0, 65] ∧
    (RunMenu_drain (fun _ w => w) 10
      (initMenuLine, receiveAll [(0, 0), (0, 65)] initWorld)).map (fun x => rxQueued x.2) =
      some [65] := by
  refine ⟨by decide, by decide, by decide, by decide, by decide⟩

/-- C37, amended: the empty sentinel is unambiguous as long as no NUL byte is
queued.  For every receive buffer state whose queued bytes are all non-zero,
SCIReadChar returns 0 iff the buffer is empty on entry (head = tail), and on a
non-empty buffer it returns the oldest byte, which is non-zero; the drain
loop of RunMenu, whose command switch leaves the receive buffer alone, then
ends within MAX_IN_STR_SIZE reads, runs its body on every queued byte in
order, and leaves the buffer empty. -/
theorem C37_zero_means_empty_without_nul (s : World) (hh : s.ptrInputCharHead < 10)
    (ht : s.ptrInputCharTail < 10) (hnz : ∀ c ∈ rxQueued s, c ≠ 0) :
    ((SCIReadChar s).1 = 0 ↔ s.ptrInputCharHead = s.ptrInputCharTail) ∧
    (s.ptrInputCharHead ≠ s.ptrInputCharTail →
      (SCIReadChar s).1 ≠ 0 ∧ rxQueued s = (SCIReadChar s).1 :: rxQueued (SCIReadChar s).2) ∧
    (∀ (process : List Nat → World → World),
      (∀ (l : List Nat) (w : World), (process l w).zInputChars = w.zInputChars ∧
        (process l w).ptrInputCharHead = w.ptrInputCharHead ∧
        (process l w).ptrInputCharTail = w.ptrInputCharTail) →
      ∀ m : MenuLine, ∃ s2,
        RunMenu_drain process MAX_IN_STR_SIZE (m, s) = some (runMenuLine (rxQueued s) m, s2) ∧
        s2.ptrInputCharHead = s2.ptrInputCharTail ∧ rxQueued s2 = []) := by
  have hnonempty : s.ptrInputCharHead ≠ s.ptrInputCharTail →
      (SCIReadChar s).1 ≠ 0 ∧ rxQueued s = (SCIReadChar s).1 :: rxQueued (SCIReadChar s).2 := by
    intro hne
    have h := (SCIReadChar_nonempty s hh ht hne).1
    refine ⟨hnz _ ?_, h⟩
    rw [h]
    exact List.mem_cons_self _ _
  refine ⟨⟨fun h0 => ?_, fun he => ?_⟩, hnonempty, ?_⟩
  · by_contra hne
    exact (hnonempty hne).1 h0
  · rw [SCIReadChar_empty s he]
  · intro process hp m
    have hlen : (rxQueued s).length < MAX_IN_STR_SIZE := by
      have := (ringQueued_full s.zInputChars _ _ 10 (Or.inr rfl) hh ht).2
      have h2 : (rxQueued s).length ≤ 10 - 1 := this
      show (rxQueued s).length < 10
      omega
    exact RunMenu_drain_spec process hp (rxQueued s) MAX_IN_STR_SIZE m s hh ht rfl hnz hlen

/-- C37 (amended) with the bytes h and i received on the power-on state: the
first read returns h, and the drain loop (with a command switch that does
nothing) consumes both bytes. -/
theorem C37_zero_means_empty_without_nul_witness :
    (SCIReadChar (receiveAll [(0, 104), (0, 105)] initWorld)).1 = 104 ∧
    ((SCIReadChar (receiveAll [(0, 104), (0, 105)] initWorld)).1 = 0 ↔
      (receiveAll [(0, 104), (0, 105)] initWorld).ptrInputCharHead =
        (receiveAll [(0, 104), (0, 105)] initWorld).ptrInputCharTail) ∧
    (RunMenu_drain (fun _ w => w) 10
      (initMenuLine, receiveAll [(0, 104), (0, 105)] initWorld)).map (fun x => rxQueued x.2) =
      some [] :=
  ⟨by decide,
   (C37_zero_means_empty_without_nul (receiveAll [(0, 104), (0, 105)] initWorld)
      (by decide) (by decide) (by decide)).1,
   by decide⟩

/-! ## Support: the menu line buffer -/

/-- A C string ends at or before any NUL in its buffer. -/
theorem cString_length_le (l : List Nat) :
    ∀ p : Nat, p < l.length → l.getD p 1 = 0 → (cString l).length ≤ p := by
  induction l with
  | nil => intro p hp _; exact absurd hp (Nat.not_lt_zero _)
  | cons a rest ih =>
    intro p hp h0
    unfold cString
    by_cases ha : a = 0
    · rw [List.takeWhile_cons_of_neg (by simp [ha])]
      exact Nat.zero_le _
    · rw [List.takeWhile_cons_of_pos (by simp [ha])]
      cases p with
      | zero => exact absurd (show a = 0 from h0) ha
      | succ p =>
        have h := ih p (by simpa using hp) (by simpa using h0)
        rw [List.length_cons]
        exact Nat.succ_le_succ h

/-- The string at `zInputStr` ends at or before any NUL inside the array. -/
theorem zInputStr_string_length_le (z : Nat → Nat) (p : Nat) (hp : p < 10) (h0 : z p = 0) :
    (zInputStr_string z).length ≤ p := by
  unfold zInputStr_string
  apply cString_length_le _ p
  · simpa [MAX_IN_STR_SIZE] using hp
  · rw [List.getD_eq_getElem _ _ (by simpa [MAX_IN_STR_SIZE] using hp)]
    simp [h0]

/-- The string at `zInputStr` is what stands in front of the NUL at index p,
when that has no NUL. -/
theorem zInputStr_string_eq (z : Nat → Nat) (p : Nat) (hp : p < 10) (h0 : z p = 0)
    (hnz : ∀ i, i < p → z i ≠ 0) :
    zInputStr_string z = (List.range p).map z := by
  unfold zInputStr_string cString
  obtain ⟨k, hk⟩ : ∃ k, MAX_IN_STR_SIZE = p + (k + 1) := ⟨9 - p, by
    show 10 = p + (9 - p + 1)
    omega⟩
  rw [hk, List.range_add, List.map_append, List.range_succ_eq_map, List.map_cons, List.map_cons,
    List.takeWhile_append_of_pos, List.takeWhile_cons_of_neg, List.append_nil]
  · simp [h0]
  · intro a ha
    obtain ⟨i, hi, rfl⟩ := List.mem_map.1 ha
    simpa using hnz i (List.mem_range.1 hi)

/-- One pass of the loop body keeps the pointer, the write indices and the
length of the processed lines within 8. -/
theorem RunMenu_line_inv (c : Nat) (m : MenuLine) (hp : m.ptrInputStr ≤ 8)
    (hw : ∀ i ∈ m.writes, i ≤ 8) (hl : ∀ l ∈ m.lines, l.length ≤ 8) :
    (RunMenu_line c m).ptrInputStr ≤ 8 ∧ (∀ i ∈ (RunMenu_line c m).writes, i ≤ 8) ∧
    (∀ l ∈ (RunMenu_line c m).lines, l.length ≤ 8) := by
  unfold RunMenu_line
  by_cases hc : c = 13
  · rw [if_pos hc]
    refine ⟨Nat.zero_le _, ?_, ?_⟩
    · intro i hi
      rcases List.mem_append.1 hi with h | h
      · exact hw i h
      · rw [List.mem_singleton.1 h]
        exact hp
    · intro l hmem
      rcases List.mem_append.1 hmem with h | h
      · exact hl l h
      · rw [List.mem_singleton.1 h]
        exact le_trans (zInputStr_string_length_le _ m.ptrInputStr (by omega) (by simp)) hp
  · rw [if_neg hc]
    by_cases hr : m.ptrInputStr < MAX_IN_STR_SIZE - 2
    · rw [if_pos hr]
      have hr8 : m.ptrInputStr < 8 := hr
      refine ⟨hr8, ?_, hl⟩
      intro i hi
      rcases List.mem_append.1 hi with h | h
      · exact hw i h
      · have : i = m.ptrInputStr ∨ i = m.ptrInputStr + 1 := by simpa using h
        omega
    · rw [if_neg hr]
      exact ⟨hp, hw, hl⟩

/-- Any number of passes keeps the pointer, the write indices and the length
of the processed lines within 8. -/
theorem runMenuLine_inv (cs : List Nat) :
    ∀ m : MenuLine, m.ptrInputStr ≤ 8 → (∀ i ∈ m.writes, i ≤ 8) →
      (∀ l ∈ m.lines, l.length ≤ 8) →
      (runMenuLine cs m).ptrInputStr ≤ 8 ∧ (∀ i ∈ (runMenuLine cs m).writes, i ≤ 8) ∧
      (∀ l ∈ (runMenuLine cs m).lines, l.length ≤ 8) := by
  induction cs with
  | nil => intro m hp hw hl; exact ⟨hp, hw, hl⟩
  | cons c rest ih =>
    intro m hp hw hl
    obtain ⟨h1, h2, h3⟩ := RunMenu_line_inv c m hp hw hl
    exact ih _ h1 h2 h3

/-- Characters other than return are stored one after the other while fewer
than 8 are stored; the rest is dropped.  No line is processed meanwhile. -/
theorem runMenuLine_fill (l : List Nat) :
    ∀ m : MenuLine, m.ptrInputStr ≤ 8 → (∀ c ∈ l, c ≠ 13) →
      (List.range (runMenuLine l m).ptrInputStr).map (runMenuLine l m).zInputStr =
        (List.range m.ptrInputStr).map m.zInputStr ++ l.take (8 - m.ptrInputStr) ∧
      (runMenuLine l m).ptrInputStr ≤ 8 ∧
      (runMenuLine l m).lines = m.lines := by
  induction l with
  | nil =>
    intro m hp _
    exact ⟨by simp [runMenuLine], hp, rfl⟩
  | cons c rest ih =>
    intro m hp hl
    have hc : c ≠ 13 := hl c (List.mem_cons_self _ _)
    have hrest : ∀ d ∈ rest, d ≠ 13 := fun d hd => hl d (List.mem_cons_of_mem _ hd)
    show (List.range (runMenuLine rest (RunMenu_line c m)).ptrInputStr).map
        (runMenuLine rest (RunMenu_line c m)).zInputStr = _ ∧
      (runMenuLine rest (RunMenu_line c m)).ptrInputStr ≤ 8 ∧
      (runMenuLine rest (RunMenu_line c m)).lines = m.lines
    by_cases hr : m.ptrInputStr < MAX_IN_STR_SIZE - 2
    · have hr8 : m.ptrInputStr < 8 := hr
      have hstep : RunMenu_line c m =
          { zInputStr := fun i =>
              if i = m.ptrInputStr + 1 then 0
              else if i = m.ptrInputStr then c else m.zInputStr i
            ptrInputStr := m.ptrInputStr + 1
            writes := m.writes ++ [m.ptrInputStr, m.ptrInputStr + 1]
            lines := m.lines } := by
        unfold RunMenu_line
        rw [if_neg hc, if_pos hr]
      obtain ⟨h1, h2, h3⟩ := ih (RunMenu_line c m) (by rw [hstep]; exact hr8) hrest
      refine ⟨?_, h2, by rw [h3, hstep]⟩
      rw [h1, hstep]
      simp only []
      rw [List.range_succ, List.map_append, List.map_singleton]
      have hmap : (List.range m.ptrInputStr).map (fun i =>
            if i = m.ptrInputStr + 1 then 0
            else if i = m.ptrInputStr then c else m.zInputStr i) =
          (List.range m.ptrInputStr).map m.zInputStr := by
        apply List.map_congr_left
        intro i hi
        have hi2 := List.mem_range.1 hi
        rw [if_neg (by omega), if_neg (by omega)]
      rw [hmap]
      have hk : 8 - m.ptrInputStr = (8 - (m.ptrInputStr + 1)) + 1 := by omega
      rw [hk, List.take_succ_cons]
      simp
    · have hstep : RunMenu_line c m = m := by
        unfold RunMenu_line
        rw [if_neg hc, if_neg hr]
      have hr8 : ¬ m.ptrInputStr < 8 := hr
      rw [hstep]
      obtain ⟨h1, h2, h3⟩ := ih m hp hrest
      refine ⟨?_, h2, h3⟩
      rw [h1]
      have hz : 8 - m.ptrInputStr = 0 := by omega
      rw [hz, List.take_zero, List.take_zero]

theorem runMenuLine_append (a b : List Nat) (m : MenuLine) :
    runMenuLine (a ++ b) m = runMenuLine b (runMenuLine a m) := by
  unfold runMenuLine
  rw [List.foldl_append]

/-- A return entered with p characters stored, none of them NUL, has the
switch process exactly those characters. -/
theorem RunMenu_line_return (m : MenuLine) (hp : m.ptrInputStr ≤ 8)
    (hnz : ∀ c ∈ (List.range m.ptrInputStr).map m.zInputStr, c ≠ 0) :
    (RunMenu_line 13 m).lines = m.lines ++ [(List.range m.ptrInputStr).map m.zInputStr] ∧
    (RunMenu_line 13 m).ptrInputStr = 0 ∧
    (RunMenu_line 13 m).zInputStr m.ptrInputStr = 0 := by
  have hstep : RunMenu_line 13 m =
      { zInputStr := fun i => if i = m.ptrInputStr then 0 else m.zInputStr i
        ptrInputStr := 0
        writes := m.writes ++ [m.ptrInputStr]
        lines := m.lines ++
          [zInputStr_string (fun i => if i = m.ptrInputStr then 0 else m.zInputStr i)] } := by
    unfold RunMenu_line
    rw [if_pos rfl]
  rw [hstep]
  refine ⟨?_, rfl, by simp⟩
  simp only []
  rw [zInputStr_string_eq _ m.ptrInputStr (by omega) (by simp)]
  · congr 2
    apply List.map_congr_left
    intro i hi
    have hi2 := List.mem_range.1 hi
    rw [if_neg (by omega)]
  · intro i hi
    rw [if_neg (by omega)]
    exact hnz _ (List.mem_map.2 ⟨i, List.mem_range.2 hi, rfl⟩)

/-! ## The menu line buffer never overflows -/

/-- C40: the menu line buffer never overflows.  After the loop body of RunMenu
has processed any sequence of characters (over any number of RunMenu calls)
from the initial line buffer: ptrInputStr is between zInputStr and
zInputStr + 8; every write into the 10-byte array zInputStr had an index of at
most 8; every line handed to the command switch was NUL-terminated inside
the array, at an index of at most 8; and a line of characters other than
NUL and return, entered after the start or after a return and ended by a
return, is processed as its first 8 characters. -/
theorem C40_line_buffer_never_overflows (cs : List Nat) :
    (runMenuLine cs initMenuLine).ptrInputStr ≤ 8 ∧
    (∀ i ∈ (runMenuLine cs initMenuLine).writes, i ≤ 8 ∧ i < MAX_IN_STR_SIZE) ∧
    (∀ l ∈ (runMenuLine cs initMenuLine).lines, l.length ≤ 8) ∧
    (∃ p, p ≤ 8 ∧ (runMenuLine (cs ++ [13]) initMenuLine).zInputStr p = 0 ∧
      (runMenuLine (cs ++ [13]) initMenuLine).lines =
        (runMenuLine cs initMenuLine).lines ++
          [zInputStr_string (runMenuLine (cs ++ [13]) initMenuLine).zInputStr]) ∧
    (∀ l : List Nat, (cs = [] ∨ ∃ pre, cs = pre ++ [13]) → (∀ c ∈ l, c ≠ 0 ∧ c ≠ 13) →
      (runMenuLine (cs ++ l ++ [13]) initMenuLine).lines =
        (runMenuLine cs initMenuLine).lines ++ [l.take 8]) := by
  have h0 : initMenuLine.ptrInputStr ≤ 8 ∧ (∀ i ∈ initMenuLine.writes, i ≤ 8) ∧
      (∀ l ∈ initMenuLine.lines, l.length ≤ 8) :=
    ⟨Nat.zero_le _, fun i hi => absurd hi (List.not_mem_nil i),
      fun l hl => absurd hl (List.not_mem_nil l)⟩
  obtain ⟨i1, i2, i3⟩ := runMenuLine_inv cs initMenuLine h0.1 h0.2.1 h0.2.2
  refine ⟨i1, fun i hi => ⟨i2 i hi, ?_⟩, i3, ?_, ?_⟩
  · have := i2 i hi
    show i < 10
    omega
  · refine ⟨(runMenuLine cs initMenuLine).ptrInputStr, i1, ?_, ?_⟩
    · rw [runMenuLine_append]
      show (RunMenu_line 13 (runMenuLine cs initMenuLine)).zInputStr _ = 0
      unfold RunMenu_line
      rw [if_pos rfl]
      simp
    · rw [runMenuLine_append]
      show (RunMenu_line 13 (runMenuLine cs initMenuLine)).lines =
        _ ++ [zInputStr_string (RunMenu_line 13 (runMenuLine cs initMenuLine)).zInputStr]
      unfold RunMenu_line
      rw [if_pos rfl]
  · intro l hcs hl
    have hptr : (runMenuLine cs initMenuLine).ptrInputStr = 0 := by
      rcases hcs with rfl | ⟨pre, rfl⟩
      · rfl
      · rw [runMenuLine_append]
        show (RunMenu_line 13 (runMenuLine pre initMenuLine)).ptrInputStr = 0
        unfold RunMenu_line
        rw [if_pos rfl]
    obtain ⟨f1, f2, f3⟩ := runMenuLine_fill l (runMenuLine cs initMenuLine) i1
      (fun c hc => (hl c hc).2)
    rw [hptr] at f1
    simp only [List.range_zero, List.map_nil, List.nil_append, Nat.sub_zero] at f1
    rw [List.append_assoc, runMenuLine_append, runMenuLine_append]
    show (RunMenu_line 13 (runMenuLine l (runMenuLine cs initMenuLine))).lines = _
    have hr := RunMenu_line_return (runMenuLine l (runMenuLine cs initMenuLine)) f2 (by
      rw [f1]
      intro c hc
      exact (hl c (List.mem_of_mem_take hc)).1)
    rw [hr.1, f1, f3]

/-- C40 on the input 123456789 and return, typed at the start: the ninth
character is dropped, the line processed is 12345678, the highest index
written is 8, and the pointer is back at the start. -/
theorem C40_line_buffer_never_overflows_witness :
    (runMenuLine [49, 50, 51, 52, 53, 54, 55, 56, 57, 13] initMenuLine).lines =
      [[49, 50, 51, 52, 53, 54, 55, 56]] ∧
    (runMenuLine [49, 50, 51, 52, 53, 54, 55, 56, 57, 13] initMenuLine).writes =
      [0, 1, 1, 2, 2, 3, 3, 4, 4, 5, 5, 6, 6, 7, 7, 8, 8] ∧
    (runMenuLine [49, 50, 51, 52, 53, 54, 55, 56, 57, 13] initMenuLine).ptrInputStr = 0 ∧
    (runMenuLine [49, 50, 51, 52, 53, 54, 55, 56, 57] initMenuLine).ptrInputStr ≤ 8 :=
  ⟨((C40_line_buffer_never_overflows []).2.2.2.2 [49, 50, 51, 52, 53, 54, 55, 56, 57]
      (Or.inl rfl) (by decide)).trans (by decide),
   by decide, by decide,
   (C40_line_buffer_never_overflows [49, 50, 51, 52, 53, 54, 55, 56, 57]).1⟩

end SineWave
